import Mathlib

/-!
# xml66: the XMLNode / XMLProperty data model

A shallow embedding of `src/include/xml/xml66xx.hpp` and `src/src/xml/xml66xx.cpp`.

Conventions of the embedding:

* `std::string` and `const char *` are both byte strings `Str` (a list of byte values).
  A `const char *` argument is a C string and holds no NUL byte.  `CSTR(s)`, the C
  string of a `std::string`, is `s` up to its first NUL byte (`CSTR`): a name handed to
  a query as a `std::string` may hold a NUL byte and is cut there.  The names and values
  stored in nodes are taken without an embedded NUL byte, so that `CSTR` of them is the
  string itself.
* A node owns its children and its properties, so the pointer vectors `m_children` and
  `m_proplist` are lists of values.  A member function that changes the object returns
  the new object next to its C++ return value.
* The scratch vector `m_selected_children` is a cache of `children(name)` and holds no
  state of the document; it is left out of the node.
* `utf8::replace_invalid` belongs to an external library.  Every operation that calls it
  takes it as the parameter `repair`.
-/

namespace xml66

/-- A `std::string`: a sequence of bytes. -/
abbrev Str := List Nat

/-! ## XMLProperty -/

/-- Class `XMLProperty`: a name and a value. -/
structure XMLProperty where
  m_name : Str
  m_value : Str
deriving DecidableEq, Repr

namespace XMLProperty

/-- `XMLProperty::name()`. -/
def name (p : XMLProperty) : Str := p.m_name

/-- `XMLProperty::value()`. -/
def value (p : XMLProperty) : Str := p.m_value

/-- `XMLProperty::set_value(v)`: `return m_value = v;`.  The result is the returned
string and the property after the call. -/
def set_value (p : XMLProperty) (v : Str) : Str × XMLProperty :=
  (v, { p with m_value := v })

end XMLProperty

/-! ## XMLException -/

/-- Class `XMLException`: the message given to the constructor. -/
structure XMLException where
  m_message : Str
deriving DecidableEq, Repr

/-- The bytes of a string literal of the source (all of them ASCII). -/
def ascii (s : String) : Str := s.toList.map Char.toNat

/-- The macro `CSTR(s)` (`s.c_str()`) as the callee reads it: the bytes of `s` before the
first NUL byte. -/
def CSTR : Str → Str
  | [] => []
  | b :: rest => if b = 0 then [] else b :: CSTR rest

/-! ## XMLNode -/

/-- Class `XMLNode`, with the data members in the order of the header. -/
inductive XMLNode where
  | mk (m_name : Str) (m_is_content : Bool) (m_content : Str)
       (m_children : List XMLNode) (m_proplist : List XMLProperty)
deriving Repr

namespace XMLNode

/-- `XMLNode::name()`. -/
def name : XMLNode → Str
  | mk n _ _ _ _ => n

/-- `XMLNode::is_content()`. -/
def is_content : XMLNode → Bool
  | mk _ b _ _ _ => b

/-- `XMLNode::content()`. -/
def content : XMLNode → Str
  | mk _ _ c _ _ => c

/-- `XMLNode::children()` with the default (empty) name filter: `m_children`. -/
def children : XMLNode → List XMLNode
  | mk _ _ _ ch _ => ch

/-- `XMLNode::properties()`. -/
def properties : XMLNode → List XMLProperty
  | mk _ _ _ _ pl => pl

mutual
/-- The node and all its descendants, in document order. -/
def subtree : XMLNode → List XMLNode
  | mk n ic c ch pl => mk n ic c ch pl :: subtree_list ch
/-- The subtrees of a list of nodes, one after the other. -/
def subtree_list : List XMLNode → List XMLNode
  | [] => []
  | c :: cs => subtree c ++ subtree_list cs
end

/-- The state of a node object before a constructor body runs: the default member
initialisers of the class (`m_name {}`, `m_is_content {false}`, `m_content {}`, empty
vectors). -/
def default_members : XMLNode := mk [] false [] [] []

/-- `XMLNode::XMLNode(const std::string & n)`. -/
def ctor (n : Str) : XMLNode := mk n false [] [] []

/-- `XMLNode::XMLNode(const std::string & n, const std::string & c)`:
`m_name(n), m_is_content(true), m_content(c)`. -/
def ctor_content (n c : Str) : XMLNode := mk n true c [] []

/-- `XMLNode::clear_lists()`: deletes and clears children and properties. -/
def clear_lists : XMLNode → XMLNode
  | mk n ic c _ _ => mk n ic c [] []

/-- The assignment `m_name = n` inside `operator =`. -/
def assign_name (n : Str) : XMLNode → XMLNode
  | mk _ ic c ch pl => mk n ic c ch pl

/-- `XMLNode::set_content(c)`: `m_is_content = ! c.empty(); m_content = c;
return m_content;`. -/
def set_content (c : Str) : XMLNode → Str × XMLNode
  | mk n _ _ ch pl => (c, mk n (!c.isEmpty) c ch pl)

/-- `XMLNode::add_child_nocopy(n)`: `m_children.insert(m_children.end(), &n)`. -/
def add_child_nocopy : XMLNode → XMLNode → XMLNode
  | mk nm ic c ch pl, n => mk nm ic c (ch ++ [n]) pl

/-- The loop of `XMLNode::property(const char *)` over `m_proplist`: the first property
whose name equals `name`, `none` for the null pointer. -/
def property_loop (name : Str) : List XMLProperty → Option XMLProperty
  | [] => none
  | p :: ps => if p.name = name then some p else property_loop name ps

/-- `XMLNode::property(const char * name) const`; `name` is a C string. -/
def property (this : XMLNode) (name : Str) : Option XMLProperty :=
  property_loop name this.properties

/-- `XMLNode::property(const std::string & name) const`: `return property(CSTR(name))`. -/
def property_string (this : XMLNode) (name : Str) : Option XMLProperty :=
  this.property (CSTR name)

/-- The `while` loop of `XMLNode::set_property`: on the first property named `name` call
`set_value(v)` and stop (`some` list after the write); `none` when the loop runs to
`m_proplist.end()`. -/
def set_property_loop (name v : Str) : List XMLProperty → Option (List XMLProperty)
  | [] => none
  | p :: ps =>
    if p.name = name then some ((p.set_value v).2 :: ps)
    else (set_property_loop name v ps).map (fun r => p :: r)

/-- `XMLNode::set_property(const char * name, const std::string & value)`.  The value is
passed through `utf8::replace_invalid` first.  Both `return *iter` and
`return new_property` convert a non-null pointer to `bool`, and `new` does not return
null, so the `return 0` branch is never taken. -/
def set_property (repair : Str → Str) (name value : Str) : XMLNode → Bool × XMLNode
  | mk nm ic c ch pl =>
    let v := repair value
    match set_property_loop name v pl with
    | some pl' => (true, mk nm ic c ch pl')
    | none => (true, mk nm ic c ch (pl ++ [XMLProperty.mk name v]))

/-- `XMLNode::get_property(const char * name, std::string & value) const`: the returned
flag and the out-parameter `value` after the call. -/
def get_property (this : XMLNode) (name : Str) (value : Str) : Bool × Str :=
  match this.property name with
  | none => (false, value)
  | some prop => (true, prop.value)

/-- A write through the pointer returned by the non-const `XMLNode::property(name)`:
`if (auto p = node.property(name)) p->set_value(v);`.  The pointer is the first property
named `name`, found by the same scan as in `set_property_loop`; with a null pointer
nothing is written. -/
def property_set_value (name v : Str) : XMLNode → XMLNode
  | mk nm ic c ch pl =>
    match set_property_loop name v pl with
    | some pl' => mk nm ic c ch pl'
    | none => mk nm ic c ch pl

/-- The loop of `operator =` over `from.properties()`:
`set_property(CSTR(propiter->name()), propiter->value())` for each property in order. -/
def assign_properties (repair : Str → Str) : List XMLProperty → XMLNode → XMLNode
  | [], this => this
  | p :: ps, this => assign_properties repair ps (this.set_property repair p.name p.value).2

mutual
/-- `XMLNode::operator = (const XMLNode & from)` for `this != &from` (two distinct
objects): `clear_lists(); m_name = from.name(); set_content(from.content());` then the
two loops over the properties and the children of `from`. -/
def operator_assign (repair : Str → Str) (this : XMLNode) : XMLNode → XMLNode
  | mk n _ c ch pl =>
    assign_children repair ch
      (assign_properties repair pl
        ((this.clear_lists.assign_name n).set_content c).2)
/-- The loop of `operator =` over `from.children()`: `add_child_copy(*childiter)` for
each child in order, where `add_child_copy(n)` appends `new XMLNode(n)` and the copy
constructor runs `*this = from` on a node with default members. -/
def assign_children (repair : Str → Str) : List XMLNode → XMLNode → XMLNode
  | [], this => this
  | c :: cs, this =>
    assign_children repair cs
      (this.add_child_nocopy (operator_assign repair default_members c))
end

/-- `XMLNode::XMLNode(const XMLNode & from)`: `*this = from` on a new object. -/
def ctor_copy (repair : Str → Str) (src : XMLNode) : XMLNode :=
  operator_assign repair default_members src

/-- `XMLNode::operator = (const XMLNode & from)` with its guard `if (this != &from)`.
The argument is `none` when `from` is the object `*this` itself, and nothing is done
then; it is `some from` when `from` is another object. -/
def operator_assign_ref (repair : Str → Str) (this : XMLNode) : Option XMLNode → XMLNode
  | none => this
  | some src => operator_assign repair this src

/-- `XMLNode::add_child_copy(n)`: `copy = new XMLNode(n)`, appended to `m_children`;
returns the copy and the node after the call. -/
def add_child_copy (repair : Str → Str) (this : XMLNode) (n : XMLNode) :
    XMLNode × XMLNode :=
  let copy := ctor_copy repair n
  (copy, this.add_child_nocopy copy)

/-- `XMLNode::add_child(const char * n)`: `return add_child_copy(XMLNode(n))`. -/
def add_child (repair : Str → Str) (this : XMLNode) (n : Str) : XMLNode × XMLNode :=
  this.add_child_copy repair (ctor n)

/-- `XMLNode::add_content(c)`: `nullptr` (here `none`) and no change for an empty `c`,
else `add_child_copy(XMLNode(std::string(), c))`. -/
def add_content (repair : Str → Str) (this : XMLNode) (c : Str) :
    Option XMLNode × XMLNode :=
  if c.isEmpty then (none, this)
  else
    let r := this.add_child_copy repair (ctor_content [] c)
    (some r.1, r.2)

/-- The loop of `operator ==` over the two property vectors, entered only when their
sizes are equal (the third equation is therefore never reached). -/
def props_loop : List XMLProperty → List XMLProperty → Bool
  | [], _ => true
  | p :: ps, q :: qs =>
    if p.name ≠ q.name ∨ p.value ≠ q.value then false else props_loop ps qs
  | _ :: _, [] => true

mutual
/-- `XMLNode::operator == (const XMLNode & other)`. -/
def operator_eq : XMLNode → XMLNode → Bool
  | mk n1 ic1 c1 ch1 pl1, mk n2 ic2 c2 ch2 pl2 =>
    if ic1 ≠ ic2 then false
    else if (if ic1 then c1 ≠ c2 else n1 ≠ n2) then false
    else if pl1.length ≠ pl2.length then false
    else if !(props_loop pl1 pl2) then false
    else if ch1.length ≠ ch2.length then false
    else children_loop ch1 ch2
/-- The loop of `operator ==` over the two child vectors, entered only when their sizes
are equal (the third equation is therefore never reached);
`*our_child != *other_child` is `! (*our_child == *other_child)`. -/
def children_loop : List XMLNode → List XMLNode → Bool
  | [], _ => true
  | a :: as, b :: bs => if !(operator_eq a b) then false else children_loop as bs
  | _ :: _, [] => true
end

/-- `XMLNode::operator != (const XMLNode & other)`. -/
def operator_ne (this other : XMLNode) : Bool := !(operator_eq this other)

/-- The loop of `XMLNode::remove_property`: erase the first property named `name`, then
`break`. -/
def remove_property_loop (name : Str) : List XMLProperty → List XMLProperty
  | [] => []
  | p :: ps => if p.name = name then ps else p :: remove_property_loop name ps

/-- `XMLNode::remove_property(name)`. -/
def remove_property (name : Str) : XMLNode → XMLNode
  | mk nm ic c ch pl => mk nm ic c ch (remove_property_loop name pl)

mutual
/-- `XMLNode::remove_property_recursively(n)`: `remove_property(n)`, then the same call
on every child. -/
def remove_property_recursively (n : Str) : XMLNode → XMLNode
  | mk nm ic c ch pl =>
    mk nm ic c (remove_property_recursively_children n ch) (remove_property_loop n pl)
/-- The loop of `remove_property_recursively` over `m_children`. -/
def remove_property_recursively_children (n : Str) : List XMLNode → List XMLNode
  | [] => []
  | c :: cs =>
    remove_property_recursively n c :: remove_property_recursively_children n cs
end

/-- The loop shared by `remove_nodes(n)` and `remove_nodes_and_delete(n)`: erase every
child whose name is `n`. -/
def remove_nodes_loop (n : Str) : List XMLNode → List XMLNode
  | [] => []
  | c :: cs => if c.name = n then remove_nodes_loop n cs else c :: remove_nodes_loop n cs

/-- `XMLNode::remove_nodes(n)`: the matching children leave the vector (they are not
deleted). -/
def remove_nodes (n : Str) : XMLNode → XMLNode
  | mk nm ic c ch pl => mk nm ic c (remove_nodes_loop n ch) pl

/-- `XMLNode::remove_nodes_and_delete(n)`. -/
def remove_nodes_and_delete (n : Str) : XMLNode → XMLNode
  | mk nm ic c ch pl => mk nm ic c (remove_nodes_loop n ch) pl

/-- The test `not_nullptr(prop) && prop->value() == val` on
`prop = node->property(propname)`, where `propname` is a `std::string`: the lookup is
`property(CSTR(propname))`. -/
def property_has_value (this : XMLNode) (propname val : Str) : Bool :=
  match this.property_string propname with
  | none => false
  | some prop => decide (prop.value = val)

/-- The loop of `remove_nodes_and_delete(propname, val)`. -/
def remove_nodes_prop_loop (propname val : Str) : List XMLNode → List XMLNode
  | [] => []
  | c :: cs =>
    if c.property_has_value propname val then remove_nodes_prop_loop propname val cs
    else c :: remove_nodes_prop_loop propname val cs

/-- `XMLNode::remove_nodes_and_delete(propname, val)`. -/
def remove_nodes_and_delete_prop (propname val : Str) : XMLNode → XMLNode
  | mk nm ic c ch pl => mk nm ic c (remove_nodes_prop_loop propname val ch) pl

/-- The `for` loop of `remove_node_and_delete(n, propname, val)`: erase the first child
named `n` whose `property(propname)` is non-null with value `val`, then `break`. -/
def remove_node_loop (n propname val : Str) : List XMLNode → List XMLNode
  | [] => []
  | c :: cs =>
    if c.name = n then
      if c.property_has_value propname val then cs
      else c :: remove_node_loop n propname val cs
    else c :: remove_node_loop n propname val cs

/-- `XMLNode::remove_node_and_delete(n, propname, val)`. -/
def remove_node_and_delete (n propname val : Str) : XMLNode → XMLNode
  | mk nm ic c ch pl => mk nm ic c (remove_node_loop n propname val ch) pl

/-- The node after a change made through the pointer to its `i`-th child (a pointer
returned by `children()`, `child()`, `add_child()` and the like): the child at index `i`
becomes `c`, everything else stays. -/
def set_child : XMLNode → Nat → XMLNode → XMLNode
  | mk nm ic ct ch pl, i, c => mk nm ic ct (ch.set i c) pl

/-- The loop of `XMLNode::child_content()` over `children()`: the content of the first
child in content mode, the empty string `s_empty` when the loop ends. -/
def child_content_loop : List XMLNode → Str
  | [] => []
  | n :: ns => if n.is_content then n.content else child_content_loop ns

/-- `XMLNode::child_content() const`. -/
def child_content (this : XMLNode) : Str :=
  child_content_loop this.children

/-- The loop of `XMLNode::child(const char *)` over `m_children`: the first child whose
name equals `name`. -/
def child_loop (name : Str) : List XMLNode → Option XMLNode
  | [] => none
  | cur :: rest => if cur.name = name then some cur else child_loop name rest

/-- `XMLNode::child(const char * name) const`; the argument `none` is the null pointer,
the result `none` is the null pointer `return 0`. -/
def child (this : XMLNode) : Option Str → Option XMLNode
  | none => none
  | some name => child_loop name this.children

/-- The loop of `XMLNode::children(n)` for a non-empty `n`: the children whose name
equals `n` are inserted, in order, at the end of the cleared `m_selected_children`. -/
def selected_children_loop (n : Str) : List XMLNode → List XMLNode → List XMLNode
  | [], selected => selected
  | cur :: rest, selected =>
    if cur.name = n then selected_children_loop n rest (selected ++ [cur])
    else selected_children_loop n rest selected

/-- `XMLNode::children(const std::string & n) const`: `m_children` for an empty `n`, else
the vector `m_selected_children` as the loop fills it. -/
def children_filtered (this : XMLNode) (n : Str) : List XMLNode :=
  if n.isEmpty then this.children
  else selected_children_loop n this.children []

/-- `XMLNode::attribute_value()`: the returned string or the thrown exception, and the
node after the call (the member function is not `const`, but writes no member). -/
def attribute_value (this : XMLNode) : Except XMLException Str × XMLNode :=
  let children := this.children
  if this.is_content then
    (Except.error ⟨ascii "XMLNode: attribute_value failed (is_content) for requested node: "
      ++ this.name⟩, this)
  else if children.length ≠ 1 then
    (Except.error
      ⟨ascii "XMLNode: attribute_value failed (children.size != 1) for requested node: "
        ++ this.name⟩, this)
  else
    match children with
    | child :: _ =>
      if !child.is_content then
        (Except.error
          ⟨ascii ("XMLNode: attribute_value failed (!child->is_content()) "
              ++ "for requested node: ") ++ this.name⟩, this)
      else (Except.ok child.content, this)
    | [] =>
      (Except.error
        ⟨ascii "XMLNode: attribute_value failed (children.size != 1) for requested node: "
          ++ this.name⟩, this)

mutual
/-- `XMLNode::dump(s, p) const`.  The stream `s` is the sequence of the bytes written to
it so far, and `s << x` appends the bytes of `x`; the result is the stream after the
call. -/
def dump : XMLNode → Str → Str → Str
  | mk n ic c ch _, s, p =>
    if ic then s ++ p ++ ascii "  " ++ c ++ ascii "\n"
    else
      dump_children ch (s ++ p ++ ascii "<" ++ n ++ ascii ">\n") (p ++ ascii "  ")
        ++ p ++ ascii "</" ++ n ++ ascii ">\n"
/-- The loop of `dump` over `m_children`: `i->dump(s, p + "  ")`, where the last
argument here is the prefix `p + "  "` that the loop hands to every child. -/
def dump_children : List XMLNode → Str → Str → Str
  | [], s, _ => s
  | i :: rest, s, p => dump_children rest (dump i s p) p
end

end XMLNode

/-! ## The public mutation interface as data -/

/-- One call of a public member function that changes a node, or (`at_child`) such a call
made through the pointer to one of its children. -/
inductive Mutation where
  | set_content (c : Str)
  | add_content (c : Str)
  | add_child (n : Str)
  | add_child_copy (n : XMLNode)
  | add_child_nocopy (n : XMLNode)
  | set_property (name value : Str)
  | property_set_value (name v : Str)
  | remove_property (name : Str)
  | remove_property_recursively (name : Str)
  | remove_nodes (n : Str)
  | remove_nodes_and_delete (n : Str)
  | remove_nodes_and_delete_prop (propname val : Str)
  | remove_node_and_delete (n propname val : Str)
  | operator_assign (src : XMLNode)
  | at_child (i : Nat) (m : Mutation)
deriving Repr

namespace Mutation

/-- The node after the call. -/
def apply (repair : Str → Str) : Mutation → XMLNode → XMLNode
  | set_content c, a => (a.set_content c).2
  | add_content c, a => (a.add_content repair c).2
  | add_child n, a => (a.add_child repair n).2
  | add_child_copy n, a => (a.add_child_copy repair n).2
  | add_child_nocopy n, a => a.add_child_nocopy n
  | set_property name value, a => (a.set_property repair name value).2
  | property_set_value name v, a => a.property_set_value name v
  | remove_property name, a => a.remove_property name
  | remove_property_recursively name, a => a.remove_property_recursively name
  | remove_nodes n, a => a.remove_nodes n
  | remove_nodes_and_delete n, a => a.remove_nodes_and_delete n
  | remove_nodes_and_delete_prop propname val, a =>
    a.remove_nodes_and_delete_prop propname val
  | remove_node_and_delete n propname val, a => a.remove_node_and_delete n propname val
  | operator_assign src, a => XMLNode.operator_assign repair a src
  | at_child i m, a =>
    match a.children[i]? with
    | some c => a.set_child i (apply repair m c)
    | none => a

/-- The node the call receives as an argument, when it receives one. -/
def arg : Mutation → Option XMLNode
  | add_child_copy n => some n
  | add_child_nocopy n => some n
  | operator_assign src => some src
  | at_child _ m => arg m
  | _ => none

/-- Whether the call is a write through `XMLProperty::set_value`, at the node or at one
of its descendants. -/
def uses_set_value : Mutation → Bool
  | property_set_value _ _ => true
  | at_child _ m => uses_set_value m
  | _ => false

/-- The calls that keep a content node free of children and properties: children and
properties are added to element nodes only, and a non-empty content is set only on a
node that has neither children nor properties. -/
def keeps_content_leaf : Mutation → XMLNode → Prop
  | set_content c, a => c ≠ [] → a.children = [] ∧ a.properties = []
  | add_content c, a => c ≠ [] → a.is_content = false
  | add_child _, a => a.is_content = false
  | add_child_copy _, a => a.is_content = false
  | add_child_nocopy _, a => a.is_content = false
  | set_property _ _, a => a.is_content = false
  | at_child i m, a => ∀ c, a.children[i]? = some c → keeps_content_leaf m c
  | _, _ => True

end Mutation

/-- The nodes that the public interface produces: a node made by one of the three
constructors, changed by any number of calls.  `okc` restricts the content handed to the
two-argument constructor and `okm` the calls; a node handed to a call is itself such a
node. -/
inductive Built (repair : Str → Str) (okc : Str → Prop)
    (okm : Mutation → XMLNode → Prop) : XMLNode → Prop
  | ctor (n : Str) : Built repair okc okm (XMLNode.ctor n)
  | ctor_content (n c : Str) : okc c → Built repair okc okm (XMLNode.ctor_content n c)
  | ctor_copy (a : XMLNode) : Built repair okc okm a →
      Built repair okc okm (XMLNode.ctor_copy repair a)
  | mutate (a : XMLNode) (m : Mutation) : Built repair okc okm a → okm m a →
      (∀ n, m.arg = some n → Built repair okc okm n) →
      Built repair okc okm (m.apply repair a)

/-- Modelled from the spec: `utf8::replace_invalid` of the external text utility, which
is not among the sources (section 4.2: "invalid encoding units replaced", section 8:
"sanitizing already-clean text is a no-op").  Only the part of it that does not depend on
the neighbouring bytes is modelled: a byte `0xF8 .. 0xFF`, which starts no UTF-8 sequence
and continues none, is replaced by the encoding `EF BF BD` of U+FFFD; every other byte is
kept.  The node operations take the repair function as a parameter; this one is the
instance at which they are evaluated. -/
def replace_invalid : Str → Str
  | [] => []
  | b :: rest =>
    if 0xF8 ≤ b then 0xEF :: 0xBF :: 0xBD :: replace_invalid rest
    else b :: replace_invalid rest

/-! ## Predicates on node trees -/

/-- Every stored property value of the node is a fixed point of the repair function. -/
def values_repaired (repair : Str → Str) (d : XMLNode) : Prop :=
  ∀ p ∈ d.properties, repair p.value = p.value

/-- No two properties of the node have the same name. -/
def names_unique (d : XMLNode) : Prop :=
  (d.properties.map XMLProperty.name).Nodup

/-- The node is in content mode exactly when its content is not empty. -/
def mode_matches_content (d : XMLNode) : Prop :=
  d.is_content = !d.content.isEmpty

/-- A node in content mode has no children and no properties. -/
def content_is_leaf (d : XMLNode) : Prop :=
  d.is_content = true → d.children = [] ∧ d.properties = []

/-- The invariant kept by the public interface, at one node.  The first two parts hold
without condition; the other three hold under the conditions `hc` (the two-argument
constructor is given non-empty content), `hr` (the repair function is idempotent and
no value is written through `XMLProperty::set_value`) and `hl` (only calls that
`keeps_content_leaf` allows are made). -/
def node_inv (repair : Str → Str) (hc hr hl : Prop) (d : XMLNode) : Prop :=
  (d.is_content = false → d.content = []) ∧
  names_unique d ∧
  (hc → d.is_content = true → d.content ≠ []) ∧
  (hr → values_repaired repair d) ∧
  (hl → content_is_leaf d)

/-- The property vector after `set_property(name, value)` with `v` the repaired value:
the result of the loop when it finds the name, else the vector with the new property
appended. -/
def proplist_set (name v : Str) (pl : List XMLProperty) : List XMLProperty :=
  match XMLNode.set_property_loop name v pl with
  | some pl' => pl'
  | none => pl ++ [XMLProperty.mk name v]

/-- The property vector after the property loop of `operator =` has run over `ps`,
starting from the vector `acc`. -/
def proplist_assign (repair : Str → Str) : List XMLProperty → List XMLProperty →
    List XMLProperty
  | [], acc => acc
  | p :: ps, acc => proplist_assign repair ps (proplist_set p.name (repair p.value) acc)

/-! ## The external engine

The parser, the serializer and the path evaluator belong to an external library.  Its
data is modelled by what the code reads and writes of it, and its functions are the
fields of `Engine`: every definition that calls one takes the engine as a parameter.
The engine is a function of its arguments; `xmlKeepBlanksDefault(0)`, which the code
calls before each use, is a setting of the engine and is part of that function. -/

/-- `xmlElementType`: the node kinds that occur. -/
inductive xmlElementType where
  | XML_ELEMENT_NODE
  | XML_ATTRIBUTE_NODE
  | XML_TEXT_NODE
deriving DecidableEq, Repr

/-- `xmlAttr` as `readnode` reads it: the name and, when `attr->children` is not null,
the content of that child. -/
structure xmlAttr where
  name : Str
  children : Option Str
deriving DecidableEq, Repr

/-- `xmlNode` as `readnode` and `writenode` use it; `none` is a null `name` or `content`
pointer, and the linked lists `properties` and `children` are lists. -/
inductive xmlNode where
  | mk (type : xmlElementType) (name : Option Str) (content : Option Str)
       (properties : List xmlAttr) (children : List xmlNode)
deriving Repr

/-- The member `node->properties` of a raw node. -/
def xmlNode.properties : xmlNode → List xmlAttr
  | xmlNode.mk _ _ _ properties _ => properties

/-- The string that `readnode` takes as the value of an attribute: `content.clear()`,
then `content = attr->children->content` when `attr->children` is not null. -/
def xmlAttr.content (attr : xmlAttr) : Str :=
  match attr.children with
  | some content => content
  | none => []

/-- `xmlDoc`: the version given to `xmlNewDoc`, the compression mode when
`xmlSetDocCompressMode` has set one, and the root element (`doc->children`,
`xmlDocGetRootElement(doc)`).  A document has a root element: the parser returns a
document for well-formed input only, and the code sets `doc->children` right after
`xmlNewDoc`. -/
structure xmlDoc where
  version : Str
  compression : Option Int
  children : xmlNode
deriving Repr

/-- A non-null `xmlDocPtr`: the document it points to, and whether `xmlFreeDoc` has been
called on that document (the pointer is then dangling). -/
structure xmlDocPtr where
  doc : xmlDoc
  freed : Bool
deriving Repr

/-- The parser options that `read_internal` passes. -/
inductive xmlParserOption where
  | XML_PARSE_DTDVALID
  | XML_PARSE_HUGE
deriving DecidableEq, Repr

/-- `xmlXPathObjectType`. -/
inductive xmlXPathObjectType where
  | XPATH_UNDEFINED
  | XPATH_NODESET
  | XPATH_BOOLEAN
  | XPATH_NUMBER
  | XPATH_STRING
deriving DecidableEq, Repr

/-- `xmlXPathObject` as `find_impl` reads it: `type` and `nodesetval`, which is null
(`none`) or holds `nodeNr` nodes in `nodeTab`. -/
structure xmlXPathObject where
  type : xmlXPathObjectType
  nodesetval : Option (List xmlNode)
deriving Repr

/-- The functions of the external engine that the code calls and whose results it uses.
`xmlNewParserCtxt` says whether a parser context is returned (not null);
`xmlCtxtReadFile` gives the document, if any, and `ctxt->valid` after the call;
`xmlXPathEval` is `xmlXPathNewContext(doc)` followed by `xmlXPathEval(expr, ctxt)`. -/
structure Engine where
  xmlNewParserCtxt : Bool
  xmlCtxtReadFile : Str → xmlParserOption → Option xmlDoc × Bool
  xmlParseMemory : Str → Option xmlDoc
  xmlSetProp : xmlNode → Str → Str → xmlNode
  xmlSaveFormatFileEnc : Str → xmlDoc → Int
  xmlDocDumpMemory : xmlDoc → Str
  xmlXPathEval : Str → Option xmlDoc → Option xmlXPathObject

/-- An engine whose calls return the given results whatever their arguments are, and
whose `xmlSetProp` leaves the node as it is. -/
def Engine.fixed (ctxt : Bool) (file : Option xmlDoc × Bool) (memory : Option xmlDoc)
    (saved : Int) (dump : Str) (eval : Option xmlXPathObject) : Engine :=
  ⟨ctxt, fun _ _ => file, fun _ => memory, fun node _ _ => node, fun _ _ => saved,
    fun _ => dump, fun _ _ => eval⟩

/-- The global `xml_version`: `xmlCharStrdup("1.0")`. -/
def xml_version : Str := ascii "1.0"

/-- Modelled from the spec: the engine calls `xmlNewDocNode(doc, 0, name, 0)` and
`xmlNewChild(p, 0, name, 0)`, which are not among the sources (section 2: the node tree
is translated recursively into the raw tree).  The new node is an element with the given
name and with no content, attributes or children. -/
def xmlNewNode (name : Str) : xmlNode :=
  xmlNode.mk xmlElementType.XML_ELEMENT_NODE (some name) none [] []

/-- Modelled from the spec: the assignment `node->type = XML_TEXT_NODE` followed by the
engine call `xmlNodeSetContentLen(node, content, len)`, which is not among the sources:
the node becomes a text node that holds the content. -/
def xmlNodeSetContentLen : xmlNode → Str → xmlNode
  | xmlNode.mk _ name _ properties children, content =>
    xmlNode.mk xmlElementType.XML_TEXT_NODE name (some content) properties children

/-- The node with the given nodes appended to its children, as `xmlNewChild(p, ...)`
does one by one. -/
def xmlNode.add_children : xmlNode → List xmlNode → xmlNode
  | xmlNode.mk type name content properties children, new =>
    xmlNode.mk type name content properties (children ++ new)

/-- Modelled from the spec: an attribute of a node-set as the engine hands it to
`find_impl` through an `xmlNodePtr` (section 8: each result of `find("//@Value")` is a
node that answers `attribute_value()`); the engine is not among the sources.  Read
through the members of `xmlNode`, the attribute shows its name, a null content, no
properties, and as its child the text node that holds the value. -/
def xmlAttributeNode (name value : Str) : xmlNode :=
  xmlNode.mk xmlElementType.XML_ATTRIBUTE_NODE (some name) none []
    [xmlNode.mk xmlElementType.XML_TEXT_NODE (some (ascii "text")) (some value) [] []]

/-- `doc->children` of a document. -/
def xmlDocGetRootElement (doc : xmlDoc) : xmlNode := doc.children

/-! ## Translation between the node tree and the raw tree -/

/-- The loop of `readnode` over `node->properties`: `set_property(attr->name, content)`
with `content` the content of `attr->children`, or empty when that pointer is null. -/
def readnode_properties (repair : Str → Str) : List xmlAttr → XMLNode → XMLNode
  | [], tmp => tmp
  | attr :: rest, tmp =>
    readnode_properties repair rest
      (tmp.set_property repair attr.name
        (match attr.children with
         | some content => content
         | none => [])).2

mutual
/-- The static function `readnode(xmlNodePtr node)`. -/
def readnode (repair : Str → Str) : xmlNode → XMLNode
  | xmlNode.mk _ name content properties children =>
    let tmp := XMLNode.ctor (match name with
      | some n => n
      | none => [])
    let tmp := readnode_properties repair properties tmp
    let tmp := match content with
      | some c => (tmp.set_content c).2
      | none => (tmp.set_content []).2
    readnode_children repair children tmp
/-- The loop of `readnode` over `node->children`:
`tmp->add_child_nocopy(*readnode(child))`. -/
def readnode_children (repair : Str → Str) : List xmlNode → XMLNode → XMLNode
  | [], tmp => tmp
  | child :: rest, tmp =>
    readnode_children repair rest (tmp.add_child_nocopy (readnode repair child))
end

/-- The loop of `writenode` over `n->properties()`:
`xmlSetProp(node, propiter->name(), propiter->value())`. -/
def writenode_properties (E : Engine) : List XMLProperty → xmlNode → xmlNode
  | [], node => node
  | p :: rest, node => writenode_properties E rest (E.xmlSetProp node p.name p.value)

mutual
/-- The static function `writenode(doc, n, p, root)`: the raw node made for `n`, which
becomes `doc->children` for the root and the last child of `p` otherwise. -/
def writenode (E : Engine) : XMLNode → xmlNode
  | XMLNode.mk n ic c ch pl =>
    let node := xmlNewNode n
    let node := if ic then xmlNodeSetContentLen node c else node
    let node := writenode_properties E pl node
    node.add_children (writenode_children E ch)
/-- The loop of `writenode` over `n->children()`. -/
def writenode_children (E : Engine) : List XMLNode → List xmlNode
  | [] => []
  | c :: cs => writenode E c :: writenode_children E cs
end

/-- The static function `find_impl(ctxt, xpath)` for a context made from the document
`doc` (`none`: a null document pointer): the list that is returned or the exception
that is thrown, and whether `xmlFreeDoc(ctxt->doc)` has been called. -/
def find_impl (E : Engine) (repair : Str → Str) (doc : Option xmlDoc) (xpath : Str) :
    Except XMLException (List XMLNode) × Bool :=
  match E.xmlXPathEval xpath doc with
  | none => (Except.error ⟨ascii "Invalid XPath: " ++ xpath⟩, true)
  | some result =>
    if result.type ≠ xmlXPathObjectType.XPATH_NODESET then
      (Except.error ⟨ascii "Only nodeset result types are supported."⟩, true)
    else
      match result.nodesetval with
      | some nodeset => (Except.ok (nodeset.map (readnode repair)), false)
      | none => (Except.ok [], false)

/-! ## XMLTree -/

/-- Class `XMLTree`; `none` is a null `m_root` or `m_doc`. -/
structure XMLTree where
  m_filename : Str
  m_root : Option XMLNode
  m_doc : Option xmlDocPtr
  m_compression : Int
deriving Repr

namespace XMLTree

/-- `XMLTree::XMLTree()`: the default member initialisers. -/
def default_members : XMLTree := ⟨[], none, none, 0⟩

/-- `XMLTree::compression()`. -/
def compression (t : XMLTree) : Int := t.m_compression

/-- `XMLTree::set_filename(fn)`. -/
def set_filename (t : XMLTree) (fn : Str) : Str × XMLTree :=
  (fn, { t with m_filename := fn })

/-- `XMLTree::set_compression(c)`: the returned value and the tree after the call. -/
def set_compression (t : XMLTree) (c : Int) : Int × XMLTree :=
  let c := if c > 9 then 9 else if c < 0 then 0 else c
  (c, { t with m_compression := c })

/-- `XMLTree::read_internal(validate)`: the returned flag or the thrown exception, and
the tree after the call.  The old root is deleted and the old document freed first. -/
def read_internal (E : Engine) (repair : Str → Str) (validate : Bool) (t : XMLTree) :
    Except XMLException Bool × XMLTree :=
  let t := { t with m_root := none, m_doc := none }
  if E.xmlNewParserCtxt = false then (Except.ok false, t)
  else
    let parsed :=
      if validate then E.xmlCtxtReadFile t.m_filename xmlParserOption.XML_PARSE_DTDVALID
      else E.xmlCtxtReadFile t.m_filename xmlParserOption.XML_PARSE_HUGE
    match parsed.1 with
    | none => (Except.ok false, t)
    | some doc =>
      let t := { t with m_doc := some ⟨doc, false⟩ }
      if validate ∧ parsed.2 = false then
        (Except.error ⟨ascii "Failed to validate document " ++ t.m_filename⟩, t)
      else
        (Except.ok true,
          { t with m_root := some (readnode repair (xmlDocGetRootElement doc)) })

/-- `XMLTree::read()`. -/
def read (E : Engine) (repair : Str → Str) (t : XMLTree) :
    Except XMLException Bool × XMLTree :=
  read_internal E repair false t

/-- `XMLTree::read(fn)`. -/
def read_file (E : Engine) (repair : Str → Str) (t : XMLTree) (fn : Str) :
    Except XMLException Bool × XMLTree :=
  read_internal E repair false (t.set_filename fn).2

/-- `XMLTree::read_and_validate()`. -/
def read_and_validate (E : Engine) (repair : Str → Str) (t : XMLTree) :
    Except XMLException Bool × XMLTree :=
  read_internal E repair true t

/-- `XMLTree::read_and_validate(fn)`. -/
def read_and_validate_file (E : Engine) (repair : Str → Str) (t : XMLTree) (fn : Str) :
    Except XMLException Bool × XMLTree :=
  read_internal E repair true (t.set_filename fn).2

/-- `XMLTree::read_buffer(buffer, to_tree_doc)`: the returned flag and the tree after the
call.  The old root is deleted first; the document held in `m_doc` is freed and replaced
only when `to_tree_doc` is set, else the new document is freed. -/
def read_buffer (E : Engine) (repair : Str → Str) (t : XMLTree) (buffer : Str)
    (to_tree_doc : Bool) : Bool × XMLTree :=
  let t := { t with m_filename := [], m_root := none }
  match E.xmlParseMemory buffer with
  | none => (false, t)
  | some doc =>
    let t := { t with m_root := some (readnode repair (xmlDocGetRootElement doc)) }
    if to_tree_doc then (true, { t with m_doc := some ⟨doc, false⟩ })
    else (true, t)

/-- The document that `write()`, `write_buffer()` and `debug()` build:
`xmlNewDoc(xml_version)`, `xmlSetDocCompressMode(doc, m_compression)` and
`writenode(doc, m_root, doc->children, 1)`.  With a null `m_root` the call of `writenode`
dereferences the null pointer and there is no document (`none`). -/
def write_doc (E : Engine) (t : XMLTree) : Option xmlDoc :=
  match t.m_root with
  | some root => some ⟨xml_version, some t.m_compression, writenode E root⟩
  | none => none

/-- `XMLTree::write() const`: false when `xmlSaveFormatFileEnc` returns -1. -/
def write (E : Engine) (t : XMLTree) : Option Bool :=
  match t.write_doc E with
  | some doc => some (decide (E.xmlSaveFormatFileEnc t.m_filename doc ≠ -1))
  | none => none

/-- `XMLTree::write(fn)`: `set_filename(fn); return write();`. -/
def write_file (E : Engine) (t : XMLTree) (fn : Str) : Option Bool × XMLTree :=
  ((t.set_filename fn).2.write E, (t.set_filename fn).2)

/-- `XMLTree::write_buffer() const`: the bytes that `xmlDocDumpMemory` gives for the
document. -/
def write_buffer (E : Engine) (t : XMLTree) : Option Str :=
  match t.write_doc E with
  | some doc => some (E.xmlDocDumpMemory doc)
  | none => none

/-- `XMLTree::find(xpath, node) const`: the list that is returned or the exception that is
thrown, and the tree after the call.  With a scope node the context document is a new
document made by `xmlNewDoc(xml_version)` and `writenode`; without one it is the
document that `m_doc` points to, and the members of the tree are not written, but the
document is freed when `find_impl` frees `ctxt->doc`. -/
def find (E : Engine) (repair : Str → Str) (t : XMLTree) (xpath : Str) :
    Option XMLNode → Except XMLException (List XMLNode) × XMLTree
  | some node =>
    ((find_impl E repair (some ⟨xml_version, none, writenode E node⟩) xpath).1, t)
  | none =>
    let r := find_impl E repair
      (match t.m_doc with
       | some p => some p.doc
       | none => none) xpath
    (r.1,
      if r.2 then
        { t with m_doc := match t.m_doc with
            | some p => some { p with freed := true }
            | none => none }
      else t)

end XMLTree

/-! ## The free store

The nodes above are values.  To speak about which objects a call creates and which it
writes, the same member functions are given once more on a store of objects: an address
is a natural number, a node object holds its vectors of pointers as lists of addresses,
and `new` returns the next unused address.  A pointer to an object of the wrong class
(a child pointer to a property, a property pointer to a node) does not occur in a store
built by these functions; the loops step over such a pointer and `read` and `new_copy`
give `none` for it. -/

/-- An object of the free store: an `XMLNode` with its two vectors of pointers, or an
`XMLProperty`. -/
inductive Obj where
  | node (m_name : Str) (m_is_content : Bool) (m_content : Str)
      (m_children : List Nat) (m_proplist : List Nat)
  | prop (p : XMLProperty)
deriving Repr

/-- The free store: the object at each address, and the address that the next `new`
returns. -/
structure Store where
  cells : Nat → Option Obj
  next : Nat

namespace Store

/-- An expression `new T(...)` that builds the object `o`: the address of the new object
and the store after the allocation. -/
def new (s : Store) (o : Obj) : Nat × Store :=
  (s.next, ⟨fun x => if x = s.next then some o else s.cells x, s.next + 1⟩)

/-- A write to the members of the object at address `a`. -/
def write (s : Store) (a : Nat) (o : Obj) : Store :=
  ⟨fun x => if x = a then some o else s.cells x, s.next⟩

/-- The values of the properties that a vector of property pointers points to. -/
def read_props (s : Store) : List Nat → Option (List XMLProperty)
  | [] => some []
  | a :: rest =>
    match s.cells a, read_props s rest with
    | some (Obj.prop p), some ps => some (p :: ps)
    | _, _ => none

/-- The values of the nodes that a vector of node pointers points to, given the value
`f` of a node by its address. -/
def read_all (f : Nat → Option XMLNode) : List Nat → Option (List XMLNode)
  | [] => some []
  | a :: rest =>
    match f a, read_all f rest with
    | some x, some xs => some (x :: xs)
    | _, _ => none

/-- The value of the node at address `a`: its members, the values of its children and of
its properties.  `fuel` bounds the depth of the tree that is read. -/
def read (s : Store) : Nat → Nat → Option XMLNode
  | 0, _ => none
  | fuel + 1, a =>
    match s.cells a with
    | some (Obj.node n ic c ch pl) =>
      match read_all (read s fuel) ch, s.read_props pl with
      | some cs, some ps => some (XMLNode.mk n ic c cs ps)
      | _, _ => none
    | _ => none

/-- The assignment `m_name = n` of `operator =` on the node at address `this`. -/
def assign_name (s : Store) (this : Nat) (n : Str) : Store :=
  match s.cells this with
  | some (Obj.node _ ic c ch pl) => s.write this (Obj.node n ic c ch pl)
  | _ => s

/-- `XMLNode::set_content(c)` on the node at address `this`. -/
def set_content (s : Store) (this : Nat) (c : Str) : Store :=
  match s.cells this with
  | some (Obj.node n _ _ ch pl) => s.write this (Obj.node n (!c.isEmpty) c ch pl)
  | _ => s

/-- `XMLNode::add_child_nocopy(n)` on the node at address `this`: the pointer `n` is
inserted at the end of `m_children`. -/
def add_child_nocopy (s : Store) (this n : Nat) : Store :=
  match s.cells this with
  | some (Obj.node nm ic c ch pl) => s.write this (Obj.node nm ic c (ch ++ [n]) pl)
  | _ => s

/-- The `while` loop of `XMLNode::set_property` over the property pointers: the first
property named `name` is written by `set_value(v)`; `none` when the loop runs to the
end. -/
def set_property_loop (s : Store) (name v : Str) : List Nat → Option Store
  | [] => none
  | a :: rest =>
    match s.cells a with
    | some (Obj.prop p) =>
      if p.name = name then some (s.write a (Obj.prop (p.set_value v).2))
      else set_property_loop s name v rest
    | _ => set_property_loop s name v rest

/-- `XMLNode::set_property(name, value)` on the node at address `this`: when the loop
finds no property of that name, `new XMLProperty(name, v)` is inserted at the end of
`m_proplist`. -/
def set_property (repair : Str → Str) (s : Store) (this : Nat) (name value : Str) :
    Store :=
  match s.cells this with
  | some (Obj.node nm ic c ch pl) =>
    match s.set_property_loop name (repair value) pl with
    | some s1 => s1
    | none =>
      let r := s.new (Obj.prop ⟨name, repair value⟩)
      r.2.write this (Obj.node nm ic c ch (pl ++ [r.1]))
  | _ => s

/-- The loop of `operator =` over the property pointers of the source, on the node at
address `this`. -/
def assign_properties (repair : Str → Str) (this : Nat) : List Nat → Store → Store
  | [], s => s
  | a :: rest, s =>
    match s.cells a with
    | some (Obj.prop p) =>
      assign_properties repair this rest (s.set_property repair this p.name p.value)
    | _ => assign_properties repair this rest s

/-- The loop of `operator =` over the child pointers of the source, on the node at
address `this`: `add_child_copy(*childiter)`, where `copy` is `new XMLNode(...)`. -/
def assign_children (copy : Nat → Store → Option (Nat × Store)) (this : Nat) :
    List Nat → Store → Option Store
  | [], s => some s
  | c :: rest, s =>
    match copy c s with
    | some r => assign_children copy this rest (r.2.add_child_nocopy this r.1)
    | none => none

/-- The expression `new XMLNode(from)` for the node at address `src`: a node object with
default members is allocated and `operator =` runs on it (`clear_lists()` finds both
vectors empty).  The result is the address of the new node and the store after the copy;
`fuel` bounds the depth of the tree that is copied. -/
def new_copy (repair : Str → Str) : Nat → Nat → Store → Option (Nat × Store)
  | 0, _, _ => none
  | fuel + 1, src, s =>
    match s.cells src with
    | some (Obj.node n _ c ch pl) =>
      let r := s.new (Obj.node [] false [] [] [])
      let s1 := (r.2.assign_name r.1 n).set_content r.1 c
      let s2 := assign_properties repair r.1 pl s1
      match assign_children (new_copy repair fuel) r.1 ch s2 with
      | some s3 => some (r.1, s3)
      | none => none
    | _ => none

/-- `XMLNode::add_child_copy(n)` on the node at address `this`, for the node at address
`n`: the address of the copy and the store after the call. -/
def add_child_copy (repair : Str → Str) (fuel : Nat) (s : Store) (this n : Nat) :
    Option (Nat × Store) :=
  match new_copy repair fuel n s with
  | some r => some (r.1, r.2.add_child_nocopy this r.1)
  | none => none

/-- The addresses of the objects of the node at address `a`: the node object, its
property objects and the objects of its children.  `fuel` bounds the depth as in
`read`. -/
def objects (s : Store) : Nat → Nat → List Nat
  | 0, _ => []
  | fuel + 1, a =>
    match s.cells a with
    | some (Obj.node _ _ _ ch pl) => a :: (pl ++ ch.flatMap (objects s fuel))
    | _ => []

/-- The end of `delete p`: after the destructor has run, the object at address `a` is
no more. -/
def free (s : Store) (a : Nat) : Store :=
  ⟨fun x => if x = a then none else s.cells x, s.next⟩

/-- The expression `delete n` for the node at address `a`: the destructor `~XMLNode()`
runs `clear_lists()`, which deletes every child and then every property, and the node
object is freed.  `fuel` bounds the depth of the tree that is destroyed. -/
def delete_node : Nat → Store → Nat → Store
  | 0, s, _ => s
  | fuel + 1, s, a =>
    match s.cells a with
    | some (Obj.node _ _ _ ch pl) => (pl.foldl free (ch.foldl (delete_node fuel) s)).free a
    | _ => s

/-- The test `(*i)->name() == n` on the child pointer `i`. -/
def name_is (s : Store) (i : Nat) (n : Str) : Bool :=
  match s.cells i with
  | some (Obj.node nm _ _ _ _) => decide (nm = n)
  | _ => false

/-- The loop of `XMLNode::remove_nodes(n)` over the child pointers: the pointers that
stay in `m_children`. -/
def remove_nodes_loop (s : Store) (n : Str) : List Nat → List Nat
  | [] => []
  | i :: rest =>
    if s.name_is i n then remove_nodes_loop s n rest
    else i :: remove_nodes_loop s n rest

/-- `XMLNode::remove_nodes(n)` on the node at address `this`: the pointers to the
children named `n` are erased from `m_children`; no object is deleted. -/
def remove_nodes (s : Store) (this : Nat) (n : Str) : Store :=
  match s.cells this with
  | some (Obj.node nm ic c ch pl) =>
    s.write this (Obj.node nm ic c (s.remove_nodes_loop n ch) pl)
  | _ => s

/-- The loop of `XMLNode::remove_nodes_and_delete(n)` over the child pointers: a child
named `n` is deleted (`delete *i`) and its pointer erased.  The result is the pointers
that stay in `m_children` and the store after the deletions. -/
def remove_nodes_and_delete_loop (fuel : Nat) (n : Str) : List Nat → Store →
    List Nat × Store
  | [], s => ([], s)
  | i :: rest, s =>
    if s.name_is i n then
      remove_nodes_and_delete_loop fuel n rest (delete_node fuel s i)
    else
      ((i :: (remove_nodes_and_delete_loop fuel n rest s).1),
        (remove_nodes_and_delete_loop fuel n rest s).2)

/-- `XMLNode::remove_nodes_and_delete(n)` on the node at address `this`; `fuel` bounds
the depth of the children that are destroyed. -/
def remove_nodes_and_delete (fuel : Nat) (s : Store) (this : Nat) (n : Str) : Store :=
  match s.cells this with
  | some (Obj.node nm ic c ch pl) =>
    (remove_nodes_and_delete_loop fuel n ch s).2.write this
      (Obj.node nm ic c (remove_nodes_and_delete_loop fuel n ch s).1 pl)
  | _ => s

/-- The child pointers of the node at address `a`. -/
def children_of (s : Store) (a : Nat) : List Nat :=
  match s.cells a with
  | some (Obj.node _ _ _ ch _) => ch
  | _ => []

/-- No object lies at or beyond the address that the next `new` returns. -/
def fresh_beyond (s : Store) : Prop :=
  ∀ x, s.next ≤ x → s.cells x = none

/-- What `new XMLNode(from)` does, for a given bound on the depth: it succeeds on every
source that reads as a value `v`, returns the first unused address, writes no object
that existed before, and the new node reads as the copy of `v` in every store that has
the objects allocated by the call. -/
def copy_spec (repair : Str → Str) (fuel : Nat) : Prop :=
  ∀ (s : Store) (src : Nat) (v : XMLNode), s.fresh_beyond → s.read fuel src = some v →
    ∃ s', new_copy repair fuel src s = some (s.next, s') ∧ s'.fresh_beyond ∧
      s.next < s'.next ∧
      (∀ x, x < s.next → s'.cells x = s.cells x) ∧
      (∀ s2 : Store, (∀ x, s.next ≤ x → x < s'.next → s2.cells x = s'.cells x) →
        s2.read fuel s.next = some (XMLNode.ctor_copy repair v))

/-- A store with three objects: at address 0 the element `<x/>`, at address 1 the element
`<y k="\xFF"/>` and at address 2 its property. -/
def sample : Store :=
  ⟨fun x =>
    match x with
    | 0 => some (Obj.node [120] false [] [] [])
    | 1 => some (Obj.node [121] false [] [] [2])
    | 2 => some (Obj.prop ⟨[107], [255]⟩)
    | _ => none,
   3⟩

/-- A store with the tree `<r><a><c/></a><b k="v"/><a/></r>`: the root at address 0, its
children at 1, 2 and 3, the child of the first at 4 and the property of the second
at 5. -/
def sample_tree : Store :=
  ⟨fun x =>
    match x with
    | 0 => some (Obj.node [114] false [] [1, 2, 3] [])
    | 1 => some (Obj.node [97] false [] [4] [])
    | 2 => some (Obj.node [98] false [] [] [5])
    | 3 => some (Obj.node [97] false [] [] [])
    | 4 => some (Obj.node [99] false [] [] [])
    | 5 => some (Obj.prop ⟨[107], [118]⟩)
    | _ => none,
   6⟩

end Store

/-! ## Lemmas on node trees -/

namespace XMLNode

theorem mem_subtree_list {d : XMLNode} : ∀ (l : List XMLNode),
    d ∈ subtree_list l ↔ ∃ c ∈ l, d ∈ c.subtree
  | [] => by simp [subtree_list]
  | c :: cs => by simp [subtree_list, mem_subtree_list cs]

theorem mem_subtree_mk {d : XMLNode} (n : Str) (ic : Bool) (c : Str)
    (ch : List XMLNode) (pl : List XMLProperty) :
    d ∈ (mk n ic c ch pl).subtree ↔ d = mk n ic c ch pl ∨ ∃ x ∈ ch, d ∈ x.subtree := by
  simp [subtree, mem_subtree_list]

theorem self_mem_subtree (a : XMLNode) : a ∈ a.subtree := by
  cases a; simp [subtree]

theorem forall_subtree_mk (P : XMLNode → Prop) (n : Str) (ic : Bool) (c : Str)
    (ch : List XMLNode) (pl : List XMLProperty) :
    (∀ d ∈ (mk n ic c ch pl).subtree, P d) ↔
      P (mk n ic c ch pl) ∧ ∀ x ∈ ch, ∀ d ∈ x.subtree, P d := by
  constructor
  · intro h
    exact ⟨h _ (self_mem_subtree _), fun x hx d hd =>
      h d ((mem_subtree_mk n ic c ch pl).mpr (Or.inr ⟨x, hx, hd⟩))⟩
  · rintro ⟨h0, h1⟩ d hd
    rcases (mem_subtree_mk n ic c ch pl).mp hd with rfl | ⟨x, hx, hd⟩
    · exact h0
    · exact h1 x hx d hd

/-- Induction on node trees: a property that holds of a node whenever it holds of all its
children holds of every node. -/
theorem tree_induction (P : XMLNode → Prop)
    (h : ∀ n ic c ch pl, (∀ x ∈ ch, P x) → P (mk n ic c ch pl)) : ∀ a, P a := by
  intro a
  refine XMLNode.rec (motive_1 := P) (motive_2 := fun l => ∀ x ∈ l, P x) ?_ ?_ ?_ a
  · intro n ic c ch pl ih
    exact h n ic c ch pl ih
  · intro x hx
    simp at hx
  · intro hd tl h1 h2 x hx
    rcases List.mem_cons.mp hx with rfl | hx
    · exact h1
    · exact h2 x hx

/-! ## Lemmas on `operator ==` -/

/-- The property loop of `operator ==` succeeds exactly when the two vectors agree
position by position on name and value. -/
theorem props_loop_iff : ∀ (ps qs : List XMLProperty), ps.length = qs.length →
    (props_loop ps qs = true ↔
      ∀ (i : Nat) (p q : XMLProperty), ps[i]? = some p → qs[i]? = some q →
        p.name = q.name ∧ p.value = q.value)
  | [], [], _ => by simp [props_loop]
  | [], _ :: _, h => by simp at h
  | _ :: _, [], h => by simp at h
  | p :: ps, q :: qs, h => by
    have ih := props_loop_iff ps qs (by simpa using h)
    constructor
    · intro hl i x y hx hy
      by_cases hpq : p.name ≠ q.name ∨ p.value ≠ q.value
      · simp [props_loop, hpq] at hl
      · simp only [props_loop, hpq, if_false] at hl
        cases i with
        | zero =>
          simp at hx hy
          subst hx; subst hy
          push_neg at hpq
          exact hpq
        | succ j =>
          simp at hx hy
          exact ih.mp hl j x y hx hy
    · intro hall
      have h0 := hall 0 p q (by simp) (by simp)
      have hpq : ¬ (p.name ≠ q.name ∨ p.value ≠ q.value) := by
        push_neg; exact h0
      simp only [props_loop, hpq, if_false]
      exact ih.mpr (fun i x y hx hy => hall (i + 1) x y (by simpa using hx) (by simpa using hy))

/-- The child loop of `operator ==` succeeds exactly when the children are `==` position
by position. -/
theorem children_loop_iff : ∀ (xs ys : List XMLNode), xs.length = ys.length →
    (children_loop xs ys = true ↔
      ∀ (i : Nat) (x y : XMLNode), xs[i]? = some x → ys[i]? = some y →
        operator_eq x y = true)
  | [], [], _ => by simp [children_loop]
  | [], _ :: _, h => by simp at h
  | _ :: _, [], h => by simp at h
  | a :: as, b :: bs, h => by
    have ih := children_loop_iff as bs (by simpa using h)
    constructor
    · intro hl i x y hx hy
      cases hab : operator_eq a b with
      | false => simp [children_loop, hab] at hl
      | true =>
        simp only [children_loop, hab] at hl
        cases i with
        | zero =>
          simp at hx hy
          subst hx; subst hy
          exact hab
        | succ j =>
          simp at hx hy
          exact ih.mp (by simpa using hl) j x y hx hy
    · intro hall
      have h0 := hall 0 a b (by simp) (by simp)
      simp only [children_loop, h0]
      simpa using ih.mpr (fun i x y hx hy => hall (i + 1) x y (by simpa using hx) (by simpa using hy))

end XMLNode

/-! ## Equality of nodes (C1, C2) -/

/-- C1: for two element-mode nodes, `a == b` holds exactly when the names are equal, the
property lists have the same length and agree position by position on name and value, and
the child lists have the same length and are `==` position by position. -/
theorem C1_operator_eq_element (a b : XMLNode)
    (ha : a.is_content = false) (hb : b.is_content = false) :
    XMLNode.operator_eq a b = true ↔
      (a.name = b.name ∧
        a.properties.length = b.properties.length ∧
        (∀ (i : Nat) (p q : XMLProperty),
          a.properties[i]? = some p → b.properties[i]? = some q →
            p.name = q.name ∧ p.value = q.value) ∧
        a.children.length = b.children.length ∧
        (∀ (i : Nat) (x y : XMLNode),
          a.children[i]? = some x → b.children[i]? = some y →
            XMLNode.operator_eq x y = true)) := by
  cases a with
  | mk n1 ic1 c1 ch1 pl1 =>
  cases b with
  | mk n2 ic2 c2 ch2 pl2 =>
  simp only [XMLNode.is_content] at ha hb
  subst ha; subst hb
  simp only [XMLNode.name, XMLNode.properties, XMLNode.children]
  by_cases hn : n1 = n2
  · by_cases hpl : pl1.length = pl2.length
    · by_cases hch : ch1.length = ch2.length
      · simp [XMLNode.operator_eq, hn, hpl, hch, XMLNode.props_loop_iff _ _ hpl, XMLNode.children_loop_iff _ _ hch]
      · simp [XMLNode.operator_eq, hn, hpl, hch]
    · simp [XMLNode.operator_eq, hn, hpl]
  · simp [XMLNode.operator_eq, hn]

/-- C1 at the nodes `<x k="v">c</x>` and `<x k="v"/>`. -/
theorem C1_operator_eq_element_witness :
    (XMLNode.mk [120] false [] [XMLNode.ctor_content [] [99]] [⟨[107], [118]⟩]).is_content
        = false ∧
    (XMLNode.mk [120] false [] [] [⟨[107], [118]⟩]).is_content = false ∧
    (XMLNode.operator_eq
        (XMLNode.mk [120] false [] [XMLNode.ctor_content [] [99]] [⟨[107], [118]⟩])
        (XMLNode.mk [120] false [] [] [⟨[107], [118]⟩]) = true ↔
      ((XMLNode.mk [120] false [] [XMLNode.ctor_content [] [99]] [⟨[107], [118]⟩]).name
          = (XMLNode.mk [120] false [] [] [⟨[107], [118]⟩]).name ∧
        (XMLNode.mk [120] false [] [XMLNode.ctor_content [] [99]]
            [⟨[107], [118]⟩]).properties.length
          = (XMLNode.mk [120] false [] [] [⟨[107], [118]⟩]).properties.length ∧
        (∀ (i : Nat) (p q : XMLProperty),
          (XMLNode.mk [120] false [] [XMLNode.ctor_content [] [99]]
              [⟨[107], [118]⟩]).properties[i]? = some p →
          (XMLNode.mk [120] false [] [] [⟨[107], [118]⟩]).properties[i]? = some q →
            p.name = q.name ∧ p.value = q.value) ∧
        (XMLNode.mk [120] false [] [XMLNode.ctor_content [] [99]]
            [⟨[107], [118]⟩]).children.length
          = (XMLNode.mk [120] false [] [] [⟨[107], [118]⟩]).children.length ∧
        (∀ (i : Nat) (x y : XMLNode),
          (XMLNode.mk [120] false [] [XMLNode.ctor_content [] [99]]
              [⟨[107], [118]⟩]).children[i]? = some x →
          (XMLNode.mk [120] false [] [] [⟨[107], [118]⟩]).children[i]? = some y →
            XMLNode.operator_eq x y = true))) :=
  ⟨rfl, rfl, C1_operator_eq_element _ _ rfl rfl⟩

/-- C2, as stated, fails: the content node `c` and the same content node with one
child appended are both in content mode and have the same content, yet `==` is false. -/
theorem C2_counterexample :
    (XMLNode.ctor_content [116] [99]).is_content = true ∧
    ((XMLNode.ctor_content [116] [99]).add_child_nocopy (XMLNode.ctor [121])).is_content
      = true ∧
    (XMLNode.ctor_content [116] [99]).content
      = ((XMLNode.ctor_content [116] [99]).add_child_nocopy (XMLNode.ctor [121])).content ∧
    XMLNode.operator_eq (XMLNode.ctor_content [116] [99])
      ((XMLNode.ctor_content [116] [99]).add_child_nocopy (XMLNode.ctor [121])) = false := by
  decide

/-- C2 (amended): for two content-mode nodes, `a == b` holds exactly when the contents
are equal, the property lists have the same length and agree position by position on
name and value, and the child lists have the same length and are `==` position by
position; the names play no part. -/
theorem C2_operator_eq_content (a b : XMLNode)
    (ha : a.is_content = true) (hb : b.is_content = true) :
    XMLNode.operator_eq a b = true ↔
      (a.content = b.content ∧
        a.properties.length = b.properties.length ∧
        (∀ (i : Nat) (p q : XMLProperty),
          a.properties[i]? = some p → b.properties[i]? = some q →
            p.name = q.name ∧ p.value = q.value) ∧
        a.children.length = b.children.length ∧
        (∀ (i : Nat) (x y : XMLNode),
          a.children[i]? = some x → b.children[i]? = some y →
            XMLNode.operator_eq x y = true)) := by
  cases a with
  | mk n1 ic1 c1 ch1 pl1 =>
  cases b with
  | mk n2 ic2 c2 ch2 pl2 =>
  simp only [XMLNode.is_content] at ha hb
  subst ha; subst hb
  simp only [XMLNode.content, XMLNode.properties, XMLNode.children]
  by_cases hn : c1 = c2
  · by_cases hpl : pl1.length = pl2.length
    · by_cases hch : ch1.length = ch2.length
      · simp [XMLNode.operator_eq, hn, hpl, hch, XMLNode.props_loop_iff _ _ hpl,
          XMLNode.children_loop_iff _ _ hch]
      · simp [XMLNode.operator_eq, hn, hpl, hch]
    · simp [XMLNode.operator_eq, hn, hpl]
  · simp [XMLNode.operator_eq, hn]

/-- C2 (amended) at two content nodes with the same content and different names. -/
theorem C2_operator_eq_content_witness :
    (XMLNode.ctor_content [116] [99]).is_content = true ∧
    (XMLNode.ctor_content [117] [99]).is_content = true ∧
    XMLNode.operator_eq (XMLNode.ctor_content [116] [99]) (XMLNode.ctor_content [117] [99])
      = true :=
  ⟨rfl, rfl,
    (C2_operator_eq_content (XMLNode.ctor_content [116] [99])
      (XMLNode.ctor_content [117] [99]) rfl rfl).mpr
      ⟨rfl, rfl, fun i p q hp => by simp [XMLNode.ctor_content, XMLNode.properties] at hp,
        rfl, fun i x y hx => by simp [XMLNode.ctor_content, XMLNode.children] at hx⟩⟩

/-! ## Property lookup, update and removal (C6, C8, C9, C10) -/

/-- A list with an element satisfying `P` splits at the first such element. -/
theorem exists_first_split {α : Type} (P : α → Prop) :
    ∀ (l : List α), (∃ x ∈ l, P x) →
      ∃ l1 x l2, l = l1 ++ x :: l2 ∧ (∀ y ∈ l1, ¬ P y) ∧ P x
  | [], h => by simp at h
  | a :: as, h => by
    by_cases ha : P a
    · exact ⟨[], a, as, rfl, by simp, ha⟩
    · have h2 : ∃ x ∈ as, P x := by
        rcases h with ⟨x, hx, hpx⟩
        rcases List.mem_cons.mp hx with rfl | hx
        · exact absurd hpx ha
        · exact ⟨x, hx, hpx⟩
      rcases exists_first_split P as h2 with ⟨l1, x, l2, rfl, h1, hx⟩
      refine ⟨a :: l1, x, l2, rfl, ?_, hx⟩
      intro y hy
      rcases List.mem_cons.mp hy with rfl | hy
      · exact ha
      · exact h1 y hy

namespace XMLNode

theorem property_loop_none (k : Str) : ∀ (pl : List XMLProperty),
    (∀ p ∈ pl, p.name ≠ k) → property_loop k pl = none
  | [], _ => rfl
  | p :: ps, h => by
    have hp : p.name ≠ k := h p (by simp)
    simp only [property_loop, hp, if_false]
    exact property_loop_none k ps (fun q hq => h q (by simp [hq]))

theorem property_loop_split (k : Str) (p : XMLProperty) (l2 : List XMLProperty)
    (hp : p.name = k) : ∀ (l1 : List XMLProperty),
    (∀ q ∈ l1, q.name ≠ k) → property_loop k (l1 ++ p :: l2) = some p
  | [], _ => by simp [property_loop, hp]
  | q :: qs, h => by
    have hq : q.name ≠ k := h q (by simp)
    simp only [List.cons_append, property_loop, hq, if_false]
    exact property_loop_split k p l2 hp qs (fun r hr => h r (by simp [hr]))

theorem set_property_loop_none (k v : Str) : ∀ (pl : List XMLProperty),
    (∀ p ∈ pl, p.name ≠ k) → set_property_loop k v pl = none
  | [], _ => rfl
  | p :: ps, h => by
    have hp : p.name ≠ k := h p (by simp)
    simp only [set_property_loop, hp, if_false]
    rw [set_property_loop_none k v ps (fun q hq => h q (by simp [hq]))]
    rfl

theorem set_property_loop_split (k v : Str) (p : XMLProperty) (l2 : List XMLProperty)
    (hp : p.name = k) : ∀ (l1 : List XMLProperty),
    (∀ q ∈ l1, q.name ≠ k) →
      set_property_loop k v (l1 ++ p :: l2) = some (l1 ++ ⟨p.name, v⟩ :: l2)
  | [], _ => by
    simp only [List.nil_append, set_property_loop, hp, if_true, XMLProperty.set_value]
    cases p
    simp [XMLProperty.name] at hp
    simp [hp]
  | q :: qs, h => by
    have hq : q.name ≠ k := h q (by simp)
    have ih := set_property_loop_split k v p l2 hp qs (fun r hr => h r (by simp [hr]))
    simp [set_property_loop, hq, ih]

theorem remove_property_loop_none (k : Str) : ∀ (pl : List XMLProperty),
    (∀ p ∈ pl, p.name ≠ k) → remove_property_loop k pl = pl
  | [], _ => rfl
  | p :: ps, h => by
    have hp : p.name ≠ k := h p (by simp)
    simp only [remove_property_loop, hp, if_false]
    rw [remove_property_loop_none k ps (fun q hq => h q (by simp [hq]))]

theorem remove_property_loop_split (k : Str) (p : XMLProperty) (l2 : List XMLProperty)
    (hp : p.name = k) : ∀ (l1 : List XMLProperty),
    (∀ q ∈ l1, q.name ≠ k) → remove_property_loop k (l1 ++ p :: l2) = l1 ++ l2
  | [], _ => by simp [remove_property_loop, hp]
  | q :: qs, h => by
    have hq : q.name ≠ k := h q (by simp)
    have ih := remove_property_loop_split k p l2 hp qs (fun r hr => h r (by simp [hr]))
    simp [remove_property_loop, hq, ih]

end XMLNode

/-- C6: `set_property(n, v)` returns true; when no property is named `n` it appends the
property `(n, repair v)` at the end; otherwise the first property named `n` keeps its
name and position and now holds `repair v`, and the properties before and after it are
the same as before (so the length is unchanged). -/
theorem C6_set_property (repair : Str → Str) (a : XMLNode) (n v : Str) :
    (a.set_property repair n v).1 = true ∧
    ((∀ p ∈ a.properties, p.name ≠ n) →
      (a.set_property repair n v).2.properties = a.properties ++ [⟨n, repair v⟩]) ∧
    ((∃ p ∈ a.properties, p.name = n) →
      ∃ l1 p l2, a.properties = l1 ++ p :: l2 ∧ (∀ q ∈ l1, q.name ≠ n) ∧ p.name = n ∧
        (a.set_property repair n v).2.properties = l1 ++ ⟨p.name, repair v⟩ :: l2 ∧
        (a.set_property repair n v).2.properties.length = a.properties.length) := by
  cases a with
  | mk nm ic c ch pl =>
  simp only [XMLNode.properties]
  refine ⟨?_, ?_, ?_⟩
  · simp only [XMLNode.set_property]
    split <;> rfl
  · intro h
    simp [XMLNode.set_property, XMLNode.set_property_loop_none n (repair v) pl h,
      XMLNode.properties]
  · intro h
    rcases exists_first_split (fun p : XMLProperty => p.name = n) pl h with
      ⟨l1, p, l2, rfl, h1, hp⟩
    refine ⟨l1, p, l2, rfl, h1, hp, ?_, ?_⟩ <;>
    simp [XMLNode.set_property,
      XMLNode.set_property_loop_split n (repair v) p l2 hp l1 h1, XMLNode.properties]

/-- C8: when no property is named `n`, `get_property(n, out)` returns false and leaves
`out` as it was, and `property(n)` is null; otherwise it returns true with `out` set to
the value of the first property named `n`, which is the property `property(n)` points
to. -/
theorem C8_get_property (a : XMLNode) (n out : Str) :
    ((∀ p ∈ a.properties, p.name ≠ n) →
      a.get_property n out = (false, out) ∧ a.property n = none) ∧
    ((∃ p ∈ a.properties, p.name = n) →
      ∃ l1 p l2, a.properties = l1 ++ p :: l2 ∧ (∀ q ∈ l1, q.name ≠ n) ∧ p.name = n ∧
        a.get_property n out = (true, p.value) ∧ a.property n = some p) := by
  constructor
  · intro h
    simp [XMLNode.get_property, XMLNode.property, XMLNode.property_loop_none n _ h]
  · intro h
    rcases exists_first_split (fun p : XMLProperty => p.name = n) _ h with
      ⟨l1, p, l2, hsplit, h1, hp⟩
    refine ⟨l1, p, l2, hsplit, h1, hp, ?_, ?_⟩ <;>
    simp [XMLNode.get_property, XMLNode.property, hsplit,
      XMLNode.property_loop_split n p l2 hp l1 h1]

/-- C9: `remove_property(n)` leaves the node unchanged when no property is named `n`;
otherwise it deletes the first property named `n` and nothing else: the properties
before it and after it (later ones named `n` included) stay, in order, and name, mode,
content and children of the node are untouched. -/
theorem C9_remove_property (a : XMLNode) (n : Str) :
    ((∀ p ∈ a.properties, p.name ≠ n) → a.remove_property n = a) ∧
    ((∃ p ∈ a.properties, p.name = n) →
      ∃ l1 p l2, a.properties = l1 ++ p :: l2 ∧ (∀ q ∈ l1, q.name ≠ n) ∧ p.name = n ∧
        (a.remove_property n).properties = l1 ++ l2) ∧
    (a.remove_property n).name = a.name ∧
    (a.remove_property n).is_content = a.is_content ∧
    (a.remove_property n).content = a.content ∧
    (a.remove_property n).children = a.children := by
  cases a with
  | mk nm ic c ch pl =>
  refine ⟨?_, ?_, rfl, rfl, rfl, rfl⟩ <;>
  simp only [XMLNode.properties, XMLNode.remove_property]
  · intro h
    rw [XMLNode.remove_property_loop_none n pl h]
  · intro h
    rcases exists_first_split (fun p : XMLProperty => p.name = n) pl h with
      ⟨l1, p, l2, rfl, h1, hp⟩
    exact ⟨l1, p, l2, rfl, h1, hp, XMLNode.remove_property_loop_split n p l2 hp l1 h1⟩

namespace XMLNode

theorem property_has_value_iff (c : XMLNode) (p v : Str) :
    c.property_has_value p v = true ↔
      ∃ pr, c.property (CSTR p) = some pr ∧ pr.value = v := by
  unfold property_has_value property_string
  cases c.property (CSTR p) with
  | none => simp
  | some pr => simp

theorem remove_node_loop_none (n p v : Str) : ∀ (l : List XMLNode),
    (∀ c ∈ l, ¬ (c.name = n ∧ c.property_has_value p v = true)) →
      remove_node_loop n p v l = l
  | [], _ => rfl
  | c :: cs, h => by
    have hc := h c (by simp)
    have ih := remove_node_loop_none n p v cs (fun x hx => h x (by simp [hx]))
    by_cases hn : c.name = n
    · have hv : c.property_has_value p v = false := by
        cases hpv : c.property_has_value p v with
        | false => rfl
        | true => exact absurd ⟨hn, hpv⟩ hc
      simp [remove_node_loop, hn, hv, ih]
    · simp [remove_node_loop, hn, ih]

theorem remove_node_loop_split (n p v : Str) (c : XMLNode) (l2 : List XMLNode)
    (hc : c.name = n ∧ c.property_has_value p v = true) : ∀ (l1 : List XMLNode),
    (∀ x ∈ l1, ¬ (x.name = n ∧ x.property_has_value p v = true)) →
      remove_node_loop n p v (l1 ++ c :: l2) = l1 ++ l2
  | [], _ => by simp [remove_node_loop, hc.1, hc.2]
  | x :: xs, h => by
    have hx := h x (by simp)
    have ih := remove_node_loop_split n p v c l2 hc xs (fun y hy => h y (by simp [hy]))
    by_cases hn : x.name = n
    · have hv : x.property_has_value p v = false := by
        cases hpv : x.property_has_value p v with
        | false => rfl
        | true => exact absurd ⟨hn, hpv⟩ hx
      simp [remove_node_loop, hn, hv, ih]
    · simp [remove_node_loop, hn, ih]

end XMLNode

/-- A string without a NUL byte is its own C string. -/
theorem CSTR_eq_self : ∀ (p : Str), 0 ∉ p → CSTR p = p
  | [], _ => rfl
  | b :: rest, h => by
    have hb : b ≠ 0 := fun hb => h (by simp [hb])
    have hr : 0 ∉ rest := fun hr => h (by simp [hr])
    simp [CSTR, hb, CSTR_eq_self rest hr]

/-- C10, as stated, fails for a property name with an embedded NUL byte: the child
`<a k="v"/>` of `<r>` has no property named `"k\0z"`, its only property is named `"k"`;
yet `remove_node_and_delete("a", "k\0z", "v")` removes it, since the name is looked up as
the C string `"k"`. -/
theorem C10_counterexample :
    (XMLNode.mk [114] false [] [XMLNode.mk [97] false [] [] [⟨[107], [118]⟩]] []).children
      = [XMLNode.mk [97] false [] [] [⟨[107], [118]⟩]] ∧
    (XMLNode.mk [97] false [] [] [⟨[107], [118]⟩]).properties.map XMLProperty.name
      = [[107]] ∧
    ([107] : Str) ≠ [107, 0, 122] ∧
    ((XMLNode.mk [114] false [] [XMLNode.mk [97] false [] [] [⟨[107], [118]⟩]]
      []).remove_node_and_delete [97] [107, 0, 122] [118]).children = [] :=
  ⟨rfl, rfl, by decide, rfl⟩

/-- C10 (amended): `remove_node_and_delete(n, p, v)` looks the property up under the C
string of `p`, which is `p` up to its first NUL byte and `p` itself when `p` holds none.
It leaves the node unchanged when no direct child is named `n` with a property of that
name and of value `v`; otherwise it removes the first such child and nothing else: the
children before it and after it (later matching ones included) stay, in order, and name,
mode, content and properties of the node are untouched. -/
theorem C10_remove_node_and_delete (a : XMLNode) (n p v : Str) :
    ((∀ c ∈ a.children,
        ¬ (c.name = n ∧ ∃ pr, c.property (CSTR p) = some pr ∧ pr.value = v)) →
      a.remove_node_and_delete n p v = a) ∧
    ((∃ c ∈ a.children, c.name = n ∧ ∃ pr, c.property (CSTR p) = some pr ∧ pr.value = v) →
      ∃ l1 c l2, a.children = l1 ++ c :: l2 ∧
        (∀ x ∈ l1, ¬ (x.name = n ∧ ∃ pr, x.property (CSTR p) = some pr ∧ pr.value = v)) ∧
        (c.name = n ∧ ∃ pr, c.property (CSTR p) = some pr ∧ pr.value = v) ∧
        (a.remove_node_and_delete n p v).children = l1 ++ l2) ∧
    (a.remove_node_and_delete n p v).name = a.name ∧
    (a.remove_node_and_delete n p v).is_content = a.is_content ∧
    (a.remove_node_and_delete n p v).content = a.content ∧
    (a.remove_node_and_delete n p v).properties = a.properties ∧
    (0 ∉ p → CSTR p = p) := by
  cases a with
  | mk nm ic ct ch pl =>
  refine ⟨?_, ?_, rfl, rfl, rfl, rfl, CSTR_eq_self p⟩ <;>
  simp only [XMLNode.children, XMLNode.remove_node_and_delete,
    ← XMLNode.property_has_value_iff]
  · intro h
    rw [XMLNode.remove_node_loop_none n p v ch h]
  · intro h
    rcases exists_first_split
        (fun c : XMLNode => c.name = n ∧ c.property_has_value p v = true) ch h with
      ⟨l1, c, l2, rfl, h1, hc⟩
    exact ⟨l1, c, l2, rfl, h1, hc, XMLNode.remove_node_loop_split n p v c l2 hc l1 h1⟩

/-! ## The shape of the results of `set_property` and of copying -/

theorem set_property_eq (repair : Str → Str) (k v nm c : Str) (ic : Bool)
    (ch : List XMLNode) (pl : List XMLProperty) :
    (XMLNode.mk nm ic c ch pl).set_property repair k v
      = (true, XMLNode.mk nm ic c ch (proplist_set k (repair v) pl)) := by
  simp only [XMLNode.set_property, proplist_set]
  split <;> rfl

theorem set_property_loop_names (k v : Str) : ∀ (pl pl' : List XMLProperty),
    XMLNode.set_property_loop k v pl = some pl' →
      pl'.map XMLProperty.name = pl.map XMLProperty.name
  | [], _, h => by simp [XMLNode.set_property_loop] at h
  | p :: ps, pl', h => by
    by_cases hp : p.name = k
    · simp [XMLNode.set_property_loop, hp] at h
      subst h
      simp [XMLProperty.set_value, XMLProperty.name] at hp ⊢
    · simp only [XMLNode.set_property_loop, hp, if_false] at h
      cases hr : XMLNode.set_property_loop k v ps with
      | none => simp [hr] at h
      | some r =>
        simp [hr] at h
        subst h
        simp [set_property_loop_names k v ps r hr]

theorem set_property_loop_values (k v : Str) : ∀ (pl pl' : List XMLProperty),
    XMLNode.set_property_loop k v pl = some pl' →
      ∀ p ∈ pl', p ∈ pl ∨ p.value = v
  | [], _, h => by simp [XMLNode.set_property_loop] at h
  | q :: qs, pl', h => by
    by_cases hq : q.name = k
    · simp [XMLNode.set_property_loop, hq] at h
      subst h
      intro p hp
      rcases List.mem_cons.mp hp with rfl | hp
      · right; rfl
      · left; simp [hp]
    · simp only [XMLNode.set_property_loop, hq, if_false] at h
      cases hr : XMLNode.set_property_loop k v qs with
      | none => simp [hr] at h
      | some r =>
        simp [hr] at h
        subst h
        intro p hp
        rcases List.mem_cons.mp hp with rfl | hp
        · left; simp
        · rcases set_property_loop_values k v qs r hr p hp with h1 | h1
          · left; simp [h1]
          · right; exact h1

theorem set_property_loop_eq_none (k v : Str) : ∀ (pl : List XMLProperty),
    XMLNode.set_property_loop k v pl = none → ∀ p ∈ pl, p.name ≠ k
  | [], _ => by simp
  | q :: qs, h => by
    by_cases hq : q.name = k
    · simp [XMLNode.set_property_loop, hq] at h
    · simp only [XMLNode.set_property_loop, hq, if_false] at h
      have h2 : XMLNode.set_property_loop k v qs = none := by
        cases hr : XMLNode.set_property_loop k v qs with
        | none => rfl
        | some r => simp [hr] at h
      intro p hp
      rcases List.mem_cons.mp hp with rfl | hp
      · exact hq
      · exact set_property_loop_eq_none k v qs h2 p hp

theorem proplist_set_nodup (k v : Str) (pl : List XMLProperty)
    (h : (pl.map XMLProperty.name).Nodup) :
    ((proplist_set k v pl).map XMLProperty.name).Nodup := by
  unfold proplist_set
  cases hr : XMLNode.set_property_loop k v pl with
  | some r => simpa [set_property_loop_names k v pl r hr] using h
  | none =>
    have hn := set_property_loop_eq_none k v pl hr
    simp only [List.map_append, List.map_cons, List.map_nil]
    refine List.Nodup.append h (by simp) ?_
    intro x hx hx2
    simp at hx2
    subst hx2
    rcases List.mem_map.mp hx with ⟨p, hp, hpk⟩
    exact hn p hp hpk

theorem proplist_set_values (k v : Str) (pl : List XMLProperty) :
    ∀ p ∈ proplist_set k v pl, p ∈ pl ∨ p.value = v := by
  unfold proplist_set
  cases hr : XMLNode.set_property_loop k v pl with
  | some r => exact set_property_loop_values k v pl r hr
  | none =>
    intro p hp
    simp at hp
    rcases hp with hp | rfl
    · left; exact hp
    · right; rfl

theorem proplist_set_fresh (k v : Str) (pl : List XMLProperty)
    (h : ∀ p ∈ pl, p.name ≠ k) : proplist_set k v pl = pl ++ [⟨k, v⟩] := by
  simp [proplist_set, XMLNode.set_property_loop_none k v pl h]

theorem proplist_assign_nodup (repair : Str → Str) : ∀ (ps acc : List XMLProperty),
    (acc.map XMLProperty.name).Nodup →
      ((proplist_assign repair ps acc).map XMLProperty.name).Nodup
  | [], _, h => h
  | p :: ps, acc, h =>
    proplist_assign_nodup repair ps _ (proplist_set_nodup p.name (repair p.value) acc h)

theorem proplist_assign_values (repair : Str → Str) : ∀ (ps acc : List XMLProperty),
    ∀ p ∈ proplist_assign repair ps acc, p ∈ acc ∨ ∃ w, p.value = repair w
  | [], _, p, hp => Or.inl hp
  | q :: qs, acc, p, hp => by
    rcases proplist_assign_values repair qs _ p hp with h | h
    · rcases proplist_set_values q.name (repair q.value) acc p h with h1 | h1
      · exact Or.inl h1
      · exact Or.inr ⟨_, h1⟩
    · exact Or.inr h

theorem proplist_assign_exact (repair : Str → Str) : ∀ (ps acc : List XMLProperty),
    ((acc ++ ps).map XMLProperty.name).Nodup →
    (∀ q ∈ ps, repair q.value = q.value) →
      proplist_assign repair ps acc = acc ++ ps
  | [], acc, _, _ => by simp [proplist_assign]
  | q :: qs, acc, hnd, hv => by
    have hfresh : ∀ p ∈ acc, p.name ≠ q.name := by
      intro p hp hpq
      rw [List.map_append, List.nodup_append] at hnd
      exact hnd.2.2 (List.mem_map.mpr ⟨p, hp, rfl⟩) (by simp [hpq])
    have hq : repair q.value = q.value := hv q (by simp)
    have hqq : (⟨q.name, q.value⟩ : XMLProperty) = q := by cases q; rfl
    simp only [proplist_assign]
    rw [proplist_set_fresh q.name (repair q.value) acc hfresh, hq, hqq]
    rw [proplist_assign_exact repair qs (acc ++ [q]) (by simpa using hnd)
      (fun r hr => hv r (by simp [hr]))]
    simp

theorem assign_properties_eq (repair : Str → Str) (nm c : Str) (ic : Bool)
    (ch : List XMLNode) : ∀ (ps pl : List XMLProperty),
    XMLNode.assign_properties repair ps (XMLNode.mk nm ic c ch pl)
      = XMLNode.mk nm ic c ch (proplist_assign repair ps pl)
  | [], _ => rfl
  | p :: ps, pl => by
    simp only [XMLNode.assign_properties, set_property_eq, proplist_assign]
    exact assign_properties_eq repair nm c ic ch ps _

theorem assign_children_eq (repair : Str → Str) (nm c : Str) (ic : Bool)
    (pl : List XMLProperty) : ∀ (cs ch : List XMLNode),
    XMLNode.assign_children repair cs (XMLNode.mk nm ic c ch pl)
      = XMLNode.mk nm ic c (ch ++ cs.map (XMLNode.ctor_copy repair)) pl
  | [], ch => by simp [XMLNode.assign_children]
  | x :: xs, ch => by
    simp only [XMLNode.assign_children, XMLNode.add_child_nocopy]
    rw [assign_children_eq repair nm c ic pl xs]
    simp [XMLNode.ctor_copy]

/-- One round of the child loop of `operator =` is one call of `add_child_copy`. -/
theorem assign_children_cons (repair : Str → Str) (x : XMLNode) (xs : List XMLNode)
    (this : XMLNode) :
    XMLNode.assign_children repair (x :: xs) this
      = XMLNode.assign_children repair xs (this.add_child_copy repair x).2 := by
  simp [XMLNode.assign_children, XMLNode.add_child_copy, XMLNode.ctor_copy]

theorem operator_assign_eq (repair : Str → Str) (this : XMLNode) (n c : Str) (ic : Bool)
    (ch : List XMLNode) (pl : List XMLProperty) :
    XMLNode.operator_assign repair this (XMLNode.mk n ic c ch pl)
      = XMLNode.mk n (!c.isEmpty) c (ch.map (XMLNode.ctor_copy repair))
          (proplist_assign repair pl []) := by
  cases this with
  | mk n0 ic0 c0 ch0 pl0 =>
  simp [XMLNode.operator_assign, XMLNode.clear_lists, XMLNode.assign_name,
    XMLNode.set_content, assign_properties_eq, assign_children_eq]

theorem ctor_copy_eq (repair : Str → Str) (n c : Str) (ic : Bool)
    (ch : List XMLNode) (pl : List XMLProperty) :
    XMLNode.ctor_copy repair (XMLNode.mk n ic c ch pl)
      = XMLNode.mk n (!c.isEmpty) c (ch.map (XMLNode.ctor_copy repair))
          (proplist_assign repair pl []) :=
  operator_assign_eq repair _ n c ic ch pl

/-! ## Copies and reflexivity of `operator ==` -/

theorem props_loop_refl : ∀ (ps : List XMLProperty), XMLNode.props_loop ps ps = true
  | [] => rfl
  | p :: ps => by simp [XMLNode.props_loop, props_loop_refl ps]

/-- Every node is `==` to itself. -/
theorem operator_eq_refl : ∀ (a : XMLNode), XMLNode.operator_eq a a = true := by
  refine XMLNode.tree_induction _ ?_
  intro n ic c ch pl ih
  have hch : XMLNode.children_loop ch ch = true :=
    (XMLNode.children_loop_iff ch ch rfl).mpr (fun i x y hx hy => by
      rw [hx] at hy
      cases hy
      exact ih x (List.getElem?_mem hx))
  cases ic <;> simp [XMLNode.operator_eq, props_loop_refl, hch]

/-- The copy constructor reproduces a node in which, at every depth, the mode matches the
content, the property names are unique and the property values are repaired. -/
theorem ctor_copy_eq_self (repair : Str → Str) : ∀ (a : XMLNode),
    (∀ d ∈ a.subtree,
      mode_matches_content d ∧ names_unique d ∧ values_repaired repair d) →
    XMLNode.ctor_copy repair a = a := by
  refine XMLNode.tree_induction _ ?_
  intro n ic c ch pl ih h
  rw [XMLNode.forall_subtree_mk] at h
  rcases h with ⟨⟨hm, hn, hv⟩, hch⟩
  simp only [mode_matches_content, XMLNode.is_content, XMLNode.content] at hm
  simp only [names_unique, XMLNode.properties] at hn
  simp only [values_repaired, XMLNode.properties] at hv
  rw [ctor_copy_eq, proplist_assign_exact repair pl [] (by simpa using hn) hv, ← hm]
  have hmap : ch.map (XMLNode.ctor_copy repair) = ch := by
    conv_rhs => rw [← List.map_id ch]
    apply List.map_congr_left
    intro x hx
    simpa using ih x hx (hch x hx)
  simp [hmap]

/-! ## The invariant of the public interface -/

theorem node_inv_mk (repair : Str → Str) (hc hr hl : Prop) (n c : Str) (ic : Bool)
    (ch : List XMLNode) (pl : List XMLProperty) :
    node_inv repair hc hr hl (XMLNode.mk n ic c ch pl) ↔
      ((ic = false → c = []) ∧ (pl.map XMLProperty.name).Nodup ∧
        (hc → ic = true → c ≠ []) ∧ (hr → ∀ p ∈ pl, repair p.value = p.value) ∧
        (hl → ic = true → ch = [] ∧ pl = [])) :=
  Iff.rfl

/-- A copy satisfies the invariant at every depth when the original does. -/
theorem operator_assign_inv (repair : Str → Str) (hc hr hl : Prop)
    (hidem : hr → ∀ s, repair (repair s) = repair s) : ∀ (src : XMLNode),
    (∀ d ∈ src.subtree, node_inv repair hc hr hl d) →
    ∀ (this : XMLNode), ∀ d ∈ (XMLNode.operator_assign repair this src).subtree,
      node_inv repair hc hr hl d := by
  refine XMLNode.tree_induction _ ?_
  intro n ic c ch pl ih h this
  rw [XMLNode.forall_subtree_mk] at h
  rcases h with ⟨h0, hch⟩
  rw [node_inv_mk] at h0
  rcases h0 with ⟨h1, _, _, _, h5⟩
  rw [operator_assign_eq, XMLNode.forall_subtree_mk]
  constructor
  · rw [node_inv_mk]
    refine ⟨by simp, proplist_assign_nodup repair pl [] (by simp), ?_, ?_, ?_⟩
    · intro _ hne
      simpa using hne
    · intro hhr p hp
      rcases proplist_assign_values repair pl [] p hp with h | ⟨w, hw⟩
      · simp at h
      · rw [hw, hidem hhr]
    · intro hhl hne
      have hic : ic = true := by
        cases ic with
        | true => rfl
        | false => simp [h1 rfl] at hne
      rcases h5 hhl hic with ⟨rfl, rfl⟩
      simp [proplist_assign]
  · intro x hx
    rcases List.mem_map.mp hx with ⟨y, hy, rfl⟩
    exact ih y hy (hch y hy) _

theorem remove_property_loop_sublist (k : Str) : ∀ (pl : List XMLProperty),
    (XMLNode.remove_property_loop k pl).Sublist pl
  | [] => List.Sublist.refl _
  | p :: ps => by
    by_cases hp : p.name = k
    · simp [XMLNode.remove_property_loop, hp]
    · simp only [XMLNode.remove_property_loop, hp, if_false]
      exact (remove_property_loop_sublist k ps).cons₂ p

/-- Removing a property keeps the invariant of the node. -/
theorem remove_property_loop_inv (repair : Str → Str) (hc hr hl : Prop) (k n c : Str)
    (ic : Bool) (ch ch' : List XMLNode) (pl : List XMLProperty)
    (hch : ch = [] → ch' = [])
    (h : node_inv repair hc hr hl (XMLNode.mk n ic c ch pl)) :
    node_inv repair hc hr hl
      (XMLNode.mk n ic c ch' (XMLNode.remove_property_loop k pl)) := by
  rw [node_inv_mk] at h ⊢
  rcases h with ⟨h1, h2, h3, h4, h5⟩
  have hs := remove_property_loop_sublist k pl
  refine ⟨h1, h2.sublist (hs.map _), h3, fun hhr p hp => h4 hhr p (hs.subset hp), ?_⟩
  intro hhl hic
  rcases h5 hhl hic with ⟨h6, rfl⟩
  exact ⟨hch h6, rfl⟩

theorem remove_property_recursively_children_eq (k : Str) : ∀ (ch : List XMLNode),
    XMLNode.remove_property_recursively_children k ch
      = ch.map (XMLNode.remove_property_recursively k)
  | [] => rfl
  | c :: cs => by
    simp [XMLNode.remove_property_recursively_children,
      remove_property_recursively_children_eq k cs]

theorem remove_property_recursively_inv (repair : Str → Str) (hc hr hl : Prop)
    (k : Str) : ∀ (a : XMLNode),
    (∀ d ∈ a.subtree, node_inv repair hc hr hl d) →
    ∀ d ∈ (a.remove_property_recursively k).subtree, node_inv repair hc hr hl d := by
  refine XMLNode.tree_induction _ ?_
  intro n ic c ch pl ih h
  rw [XMLNode.forall_subtree_mk] at h
  rcases h with ⟨h0, hch⟩
  rw [XMLNode.remove_property_recursively, remove_property_recursively_children_eq,
    XMLNode.forall_subtree_mk]
  constructor
  · exact remove_property_loop_inv repair hc hr hl k n c ic ch _ pl
      (by rintro rfl; rfl) h0
  · intro x hx
    rcases List.mem_map.mp hx with ⟨y, hy, rfl⟩
    exact ih y hy (hch y hy)

/-- Changing the child vector to one that is empty when the old one is keeps the
invariant of the node. -/
theorem node_inv_children (repair : Str → Str) (hc hr hl : Prop) (n c : Str)
    (ic : Bool) (ch ch' : List XMLNode) (pl : List XMLProperty)
    (hch : ic = true → hl → ch = [] → ch' = [])
    (h : node_inv repair hc hr hl (XMLNode.mk n ic c ch pl)) :
    node_inv repair hc hr hl (XMLNode.mk n ic c ch' pl) := by
  rw [node_inv_mk] at h ⊢
  rcases h with ⟨h1, h2, h3, h4, h5⟩
  refine ⟨h1, h2, h3, h4, ?_⟩
  intro hhl hic
  rcases h5 hhl hic with ⟨h6, h7⟩
  exact ⟨hch hic hhl h6, h7⟩

theorem remove_nodes_loop_subset (k : Str) : ∀ (ch : List XMLNode),
    ∀ x ∈ XMLNode.remove_nodes_loop k ch, x ∈ ch
  | [], _, h => by simp [XMLNode.remove_nodes_loop] at h
  | c :: cs, x, h => by
    by_cases hc : c.name = k
    · simp only [XMLNode.remove_nodes_loop, hc, if_true] at h
      exact List.mem_cons_of_mem _ (remove_nodes_loop_subset k cs x h)
    · simp only [XMLNode.remove_nodes_loop, hc, if_false] at h
      rcases List.mem_cons.mp h with rfl | h
      · simp
      · exact List.mem_cons_of_mem _ (remove_nodes_loop_subset k cs x h)

theorem remove_nodes_prop_loop_subset (p v : Str) : ∀ (ch : List XMLNode),
    ∀ x ∈ XMLNode.remove_nodes_prop_loop p v ch, x ∈ ch
  | [], _, h => by simp [XMLNode.remove_nodes_prop_loop] at h
  | c :: cs, x, h => by
    by_cases hc : c.property_has_value p v = true
    · simp only [XMLNode.remove_nodes_prop_loop, hc, if_true] at h
      exact List.mem_cons_of_mem _ (remove_nodes_prop_loop_subset p v cs x h)
    · simp only [XMLNode.remove_nodes_prop_loop, hc] at h
      rcases List.mem_cons.mp h with rfl | h
      · simp
      · exact List.mem_cons_of_mem _ (remove_nodes_prop_loop_subset p v cs x h)

theorem remove_node_loop_subset (n p v : Str) : ∀ (ch : List XMLNode),
    ∀ x ∈ XMLNode.remove_node_loop n p v ch, x ∈ ch
  | [], _, h => by simp [XMLNode.remove_node_loop] at h
  | c :: cs, x, h => by
    by_cases hc : c.name = n ∧ c.property_has_value p v = true
    · simp only [XMLNode.remove_node_loop, hc.1, hc.2, if_true] at h
      exact List.mem_cons_of_mem _ h
    · have h2 : x ∈ c :: XMLNode.remove_node_loop n p v cs := by
        by_cases hn : c.name = n
        · have hv : ¬ c.property_has_value p v = true := fun hv => hc ⟨hn, hv⟩
          simpa [XMLNode.remove_node_loop, hn, hv] using h
        · simpa [XMLNode.remove_node_loop, hn] using h
      rcases List.mem_cons.mp h2 with rfl | h3
      · simp
      · exact List.mem_cons_of_mem _ (remove_node_loop_subset n p v cs x h3)

/-- Appending a child that satisfies the invariant to a node that is not (under `hl`) in
content mode keeps the invariant at every depth. -/
theorem add_child_nocopy_inv (repair : Str → Str) (hc hr hl : Prop) (a x : XMLNode)
    (ha : ∀ d ∈ a.subtree, node_inv repair hc hr hl d)
    (hx : ∀ d ∈ x.subtree, node_inv repair hc hr hl d)
    (hel : hl → a.is_content = false) :
    ∀ d ∈ (a.add_child_nocopy x).subtree, node_inv repair hc hr hl d := by
  cases a with
  | mk nm ic c ch pl =>
  rw [XMLNode.forall_subtree_mk] at ha
  rw [XMLNode.add_child_nocopy, XMLNode.forall_subtree_mk]
  constructor
  · have h0 := ha.1
    rw [node_inv_mk] at h0 ⊢
    rcases h0 with ⟨h1, h2, h3, h4, _⟩
    refine ⟨h1, h2, h3, h4, ?_⟩
    intro hhl hic
    have := hel hhl
    simp [XMLNode.is_content, hic] at this
  · intro y hy
    rcases List.mem_append.mp hy with hy | hy
    · exact ha.2 y hy
    · simp at hy
      subst hy
      exact hx

/-- Replacing the child vector by one whose members are among the old children keeps
the invariant at every depth. -/
theorem children_subset_inv (repair : Str → Str) (hc hr hl : Prop) (n c : Str)
    (ic : Bool) (ch ch' : List XMLNode) (pl : List XMLProperty)
    (hsub : ∀ x ∈ ch', x ∈ ch)
    (ha : ∀ d ∈ (XMLNode.mk n ic c ch pl).subtree, node_inv repair hc hr hl d) :
    ∀ d ∈ (XMLNode.mk n ic c ch' pl).subtree, node_inv repair hc hr hl d := by
  rw [XMLNode.forall_subtree_mk] at ha ⊢
  refine ⟨node_inv_children repair hc hr hl n c ic ch ch' pl ?_ ha.1,
    fun x hx => ha.2 x (hsub x hx)⟩
  intro _ _ h
  subst h
  cases ch' with
  | nil => rfl
  | cons y ys => exact absurd (hsub y (by simp)) (by simp)

theorem ctor_inv (repair : Str → Str) (hc hr hl : Prop) (n : Str) :
    ∀ d ∈ (XMLNode.ctor n).subtree, node_inv repair hc hr hl d := by
  rw [XMLNode.ctor, XMLNode.forall_subtree_mk, node_inv_mk]
  simp

theorem ctor_content_inv (repair : Str → Str) (hc hr hl : Prop) (n c : Str)
    (hne : hc → c ≠ []) :
    ∀ d ∈ (XMLNode.ctor_content n c).subtree, node_inv repair hc hr hl d := by
  rw [XMLNode.ctor_content, XMLNode.forall_subtree_mk, node_inv_mk]
  simpa using hne

/-- Every public call keeps the invariant at every depth. -/
theorem apply_inv (repair : Str → Str) (hc hr hl : Prop)
    (hidem : hr → ∀ s, repair (repair s) = repair s) : ∀ (m : Mutation) (a : XMLNode),
    (∀ d ∈ a.subtree, node_inv repair hc hr hl d) →
    (∀ n, m.arg = some n → ∀ d ∈ n.subtree, node_inv repair hc hr hl d) →
    (hr → m.uses_set_value = false) →
    (hl → m.keeps_content_leaf a) →
    ∀ d ∈ (m.apply repair a).subtree, node_inv repair hc hr hl d := by
  intro m
  induction m with
  | set_content s =>
    intro a ha _ _ hleaf
    cases a with
    | mk nm ic c ch pl =>
    rw [XMLNode.forall_subtree_mk] at ha
    simp only [Mutation.apply, XMLNode.set_content]
    rw [XMLNode.forall_subtree_mk]
    refine ⟨?_, ha.2⟩
    have h0 := ha.1
    rw [node_inv_mk] at h0 ⊢
    rcases h0 with ⟨_, h2, _, h4, _⟩
    refine ⟨by simp, h2, fun _ h => by simpa using h, h4, ?_⟩
    intro hhl hne
    have := hleaf hhl
    simp only [Mutation.keeps_content_leaf, XMLNode.children, XMLNode.properties] at this
    exact this (by simpa using hne)
  | add_content s =>
    intro a ha _ _ hleaf
    simp only [Mutation.apply, XMLNode.add_content]
    by_cases hs : s.isEmpty = true
    · simpa [hs] using ha
    · simp only [hs, XMLNode.add_child_copy]
      have hs2 : s ≠ [] := by simpa using hs
      exact add_child_nocopy_inv repair hc hr hl a _ ha
        (operator_assign_inv repair hc hr hl hidem _
          (ctor_content_inv repair hc hr hl [] s (fun _ => hs2)) _)
        (fun hhl => hleaf hhl hs2)
  | add_child n =>
    intro a ha _ _ hleaf
    simp only [Mutation.apply, XMLNode.add_child, XMLNode.add_child_copy]
    exact add_child_nocopy_inv repair hc hr hl a _ ha
      (operator_assign_inv repair hc hr hl hidem _ (ctor_inv repair hc hr hl n) _)
      (fun hhl => hleaf hhl)
  | add_child_copy n =>
    intro a ha harg _ hleaf
    simp only [Mutation.apply, XMLNode.add_child_copy]
    exact add_child_nocopy_inv repair hc hr hl a _ ha
      (operator_assign_inv repair hc hr hl hidem _ (harg n rfl) _)
      (fun hhl => hleaf hhl)
  | add_child_nocopy n =>
    intro a ha harg _ hleaf
    simp only [Mutation.apply]
    exact add_child_nocopy_inv repair hc hr hl a n ha (harg n rfl) (fun hhl => hleaf hhl)
  | set_property k v =>
    intro a ha _ _ hleaf
    cases a with
    | mk nm ic c ch pl =>
    rw [XMLNode.forall_subtree_mk] at ha
    simp only [Mutation.apply, set_property_eq]
    rw [XMLNode.forall_subtree_mk]
    refine ⟨?_, ha.2⟩
    have h0 := ha.1
    rw [node_inv_mk] at h0 ⊢
    rcases h0 with ⟨h1, h2, h3, h4, _⟩
    refine ⟨h1, proplist_set_nodup k _ pl h2, h3, ?_, ?_⟩
    · intro hhr p hp
      rcases proplist_set_values k _ pl p hp with h | h
      · exact h4 hhr p h
      · rw [h, hidem hhr]
    · intro hhl hic
      have := hleaf hhl
      simp [Mutation.keeps_content_leaf, XMLNode.is_content, hic] at this
  | property_set_value k v =>
    intro a ha _ hsv _
    cases a with
    | mk nm ic c ch pl =>
    rw [XMLNode.forall_subtree_mk] at ha
    have hnr : ¬ hr := fun hhr => by simpa [Mutation.uses_set_value] using hsv hhr
    simp only [Mutation.apply, XMLNode.property_set_value]
    cases hloop : XMLNode.set_property_loop k v pl with
    | none => simpa [XMLNode.forall_subtree_mk] using ha
    | some pl' =>
      simp only
      rw [XMLNode.forall_subtree_mk]
      refine ⟨?_, ha.2⟩
      have h0 := ha.1
      rw [node_inv_mk] at h0 ⊢
      rcases h0 with ⟨h1, h2, h3, _, h5⟩
      refine ⟨h1, ?_, h3, fun hhr => absurd hhr hnr, ?_⟩
      · rw [set_property_loop_names k v pl pl' hloop]
        exact h2
      · intro hhl hic
        rcases h5 hhl hic with ⟨_, rfl⟩
        simp [XMLNode.set_property_loop] at hloop
  | remove_property k =>
    intro a ha _ _ _
    cases a with
    | mk nm ic c ch pl =>
    rw [XMLNode.forall_subtree_mk] at ha
    simp only [Mutation.apply, XMLNode.remove_property]
    rw [XMLNode.forall_subtree_mk]
    exact ⟨remove_property_loop_inv repair hc hr hl k nm c ic ch ch pl id ha.1, ha.2⟩
  | remove_property_recursively k =>
    intro a ha _ _ _
    exact remove_property_recursively_inv repair hc hr hl k a ha
  | remove_nodes k =>
    intro a ha _ _ _
    cases a with
    | mk nm ic c ch pl =>
    exact children_subset_inv repair hc hr hl nm c ic ch _ pl
      (remove_nodes_loop_subset k ch) ha
  | remove_nodes_and_delete k =>
    intro a ha _ _ _
    cases a with
    | mk nm ic c ch pl =>
    exact children_subset_inv repair hc hr hl nm c ic ch _ pl
      (remove_nodes_loop_subset k ch) ha
  | remove_nodes_and_delete_prop p v =>
    intro a ha _ _ _
    cases a with
    | mk nm ic c ch pl =>
    exact children_subset_inv repair hc hr hl nm c ic ch _ pl
      (remove_nodes_prop_loop_subset p v ch) ha
  | remove_node_and_delete n p v =>
    intro a ha _ _ _
    cases a with
    | mk nm ic c ch pl =>
    exact children_subset_inv repair hc hr hl nm c ic ch _ pl
      (remove_node_loop_subset n p v ch) ha
  | operator_assign src =>
    intro a _ harg _ _
    exact operator_assign_inv repair hc hr hl hidem src (harg src rfl) a
  | at_child i m ih =>
    intro a ha harg hsv hleaf
    cases a with
    | mk nm ic c ch pl =>
    simp only [Mutation.apply, XMLNode.children]
    cases hi : ch[i]? with
    | none => exact ha
    | some x =>
      simp only [XMLNode.set_child]
      rw [XMLNode.forall_subtree_mk] at ha ⊢
      have hx : ∀ d ∈ (m.apply repair x).subtree, node_inv repair hc hr hl d :=
        ih x (ha.2 x (List.getElem?_mem hi)) harg hsv
          (fun hhl => hleaf hhl x (by simpa [XMLNode.children] using hi))
      refine ⟨node_inv_children repair hc hr hl nm c ic ch _ pl ?_ ha.1, ?_⟩
      · intro _ _ h
        subst h
        simp at hi
      · intro y hy
        rcases List.mem_or_eq_of_mem_set hy with h | h
        · exact ha.2 y h
        · subst h
          exact hx

/-- Every node produced by the public interface satisfies the invariant at every
depth. -/
theorem built_inv (repair : Str → Str) (okc : Str → Prop)
    (okm : Mutation → XMLNode → Prop) (hc hr hl : Prop)
    (Hc : hc → ∀ c, okc c → c ≠ [])
    (Hr : hr → (∀ s, repair (repair s) = repair s) ∧
      ∀ m a, okm m a → m.uses_set_value = false)
    (Hl : hl → ∀ m a, okm m a → m.keeps_content_leaf a) (a : XMLNode)
    (h : Built repair okc okm a) :
    ∀ d ∈ a.subtree, node_inv repair hc hr hl d := by
  induction h with
  | ctor n => exact ctor_inv repair hc hr hl n
  | ctor_content n c hok =>
    exact ctor_content_inv repair hc hr hl n c (fun hhc => Hc hhc c hok)
  | ctor_copy a _ ih =>
    exact operator_assign_inv repair hc hr hl (fun hhr => (Hr hhr).1) a ih _
  | mutate a m _ hok _ ih iharg =>
    exact apply_inv repair hc hr hl (fun hhr => (Hr hhr).1) m a ih iharg
      (fun hhr => (Hr hhr).2 m a hok) (fun hhl => Hl hhl m a hok)

/-- The modelled repair function changes nothing in its own output. -/
theorem replace_invalid_idem : ∀ (s : Str),
    replace_invalid (replace_invalid s) = replace_invalid s
  | [] => rfl
  | b :: rest => by
    by_cases hb : 0xF8 ≤ b
    · simp [replace_invalid, hb, replace_invalid_idem rest]
    · simp [replace_invalid, hb, replace_invalid_idem rest]

/-! ## Copies, modes and sanitised values (C3, C4, C5, C7) -/

/-- C3, as stated, fails at two nodes.  The node `XMLNode("x", "")` is in content mode
and its copy is in element mode; the node `<x k="a"/>` whose property value was then
overwritten through `property("k")->set_value("\xFF")` holds the raw byte and its copy
holds the repaired value.  In both cases the copy is not `==` to the original. -/
theorem C3_counterexample :
    XMLNode.operator_eq
      (XMLNode.ctor_copy replace_invalid (XMLNode.ctor_content [120] []))
      (XMLNode.ctor_content [120] []) = false ∧
    XMLNode.operator_eq
      (XMLNode.ctor_copy replace_invalid
        (Mutation.apply replace_invalid (Mutation.property_set_value [107] [255])
          (Mutation.apply replace_invalid (Mutation.set_property [107] [97])
            (XMLNode.ctor [120]))))
      (Mutation.apply replace_invalid (Mutation.property_set_value [107] [255])
        (Mutation.apply replace_invalid (Mutation.set_property [107] [97])
          (XMLNode.ctor [120]))) = false := by
  decide

/-- C3 (amended): with an idempotent repair function, every node built by the
one-argument constructor, the two-argument constructor with non-empty content or the
copy constructor, and changed by any public calls at any depth other than writes through
`XMLProperty::set_value`, is `==` to its copy. -/
theorem C3_copy_equals_original (repair : Str → Str)
    (hidem : ∀ s, repair (repair s) = repair s) (a : XMLNode)
    (h : Built repair (fun c => c ≠ []) (fun m _ => m.uses_set_value = false) a) :
    XMLNode.operator_eq (XMLNode.ctor_copy repair a) a = true := by
  have hinv := built_inv repair _ _ True True False (fun _ c hc => hc)
    (fun _ => ⟨hidem, fun m a hm => hm⟩) (fun hf => hf.elim) a h
  have hcopy : XMLNode.ctor_copy repair a = a := by
    apply ctor_copy_eq_self
    intro d hd
    rcases hinv d hd with ⟨h1, h2, h3, h4, _⟩
    refine ⟨?_, h2, h4 trivial⟩
    cases d with
    | mk n ic c ch pl =>
    simp only [XMLNode.is_content, XMLNode.content] at h1 h3
    simp only [mode_matches_content, XMLNode.is_content, XMLNode.content]
    cases ic with
    | false => simp [h1 rfl]
    | true => simpa using h3 trivial rfl
  rw [hcopy]
  exact operator_eq_refl a

/-- C3 (amended) at the node `<x k="\xFF"/>` made by `XMLNode("x")` and
`set_property("k", "\xFF")`. -/
theorem C3_copy_equals_original_witness :
    (∀ s, replace_invalid (replace_invalid s) = replace_invalid s) ∧
    Built replace_invalid (fun c => c ≠ []) (fun m _ => m.uses_set_value = false)
      (Mutation.apply replace_invalid (Mutation.set_property [107] [255])
        (XMLNode.ctor [120])) ∧
    XMLNode.operator_eq
      (XMLNode.ctor_copy replace_invalid
        (Mutation.apply replace_invalid (Mutation.set_property [107] [255])
          (XMLNode.ctor [120])))
      (Mutation.apply replace_invalid (Mutation.set_property [107] [255])
        (XMLNode.ctor [120])) = true :=
  ⟨replace_invalid_idem,
    Built.mutate _ _ (Built.ctor _) rfl (fun n hn => by simp [Mutation.arg] at hn),
    C3_copy_equals_original replace_invalid replace_invalid_idem _
      (Built.mutate _ _ (Built.ctor _) rfl (fun n hn => by simp [Mutation.arg] at hn))⟩

/-- C4 at the failing input: the node made by `XMLNode("x", "")` is a node of the public
interface, is in content mode, and its content is empty. -/
theorem C4_ctor_content_empty :
    Built replace_invalid (fun _ => True) (fun _ _ => True)
      (XMLNode.ctor_content [120] []) ∧
    (XMLNode.ctor_content [120] []).is_content = true ∧
    (XMLNode.ctor_content [120] []).content = [] :=
  ⟨Built.ctor_content _ _ trivial, rfl, rfl⟩

/-- C5, as stated, fails: after `XMLNode("x", "c")`, `set_property("k", "v")` and
`add_child("y")` the node is in content mode and has a child and a property. -/
theorem C5_counterexample :
    (Mutation.apply replace_invalid (Mutation.add_child [121])
      (Mutation.apply replace_invalid (Mutation.set_property [107] [118])
        (XMLNode.ctor_content [120] [99]))).is_content = true ∧
    (Mutation.apply replace_invalid (Mutation.add_child [121])
      (Mutation.apply replace_invalid (Mutation.set_property [107] [118])
        (XMLNode.ctor_content [120] [99]))).children = [XMLNode.ctor [121]] ∧
    (Mutation.apply replace_invalid (Mutation.add_child [121])
      (Mutation.apply replace_invalid (Mutation.set_property [107] [118])
        (XMLNode.ctor_content [120] [99]))).properties = [⟨[107], [118]⟩] :=
  ⟨rfl, rfl, rfl⟩

/-- C5 (amended): in every node built by the constructors and changed by public calls
such that children and properties are added to element-mode nodes only and a non-empty
content is set only on a node without children and properties, every node of the tree
that is in content mode has no children and no properties. -/
theorem C5_content_nodes_are_leaves (repair : Str → Str) (a : XMLNode)
    (h : Built repair (fun _ => True) (fun m x => m.keeps_content_leaf x) a) :
    ∀ d ∈ a.subtree, d.is_content = true → d.children = [] ∧ d.properties = [] := by
  intro d hd
  exact (built_inv repair _ _ False False True (fun hf => hf.elim) (fun hf => hf.elim)
    (fun _ m x hm => hm) a h d hd).2.2.2.2 trivial

/-- C5 (amended) at the node `<x>c</x>` made by `XMLNode("x")` and `add_content("c")`. -/
theorem C5_content_nodes_are_leaves_witness :
    Built replace_invalid (fun _ => True) (fun m x => m.keeps_content_leaf x)
      (Mutation.apply replace_invalid (Mutation.add_content [99]) (XMLNode.ctor [120])) ∧
    ∀ d ∈ (Mutation.apply replace_invalid (Mutation.add_content [99])
        (XMLNode.ctor [120])).subtree,
      d.is_content = true → d.children = [] ∧ d.properties = [] :=
  ⟨Built.mutate _ _ (Built.ctor _) (fun _ => rfl)
      (fun n hn => by simp [Mutation.arg] at hn),
    C5_content_nodes_are_leaves replace_invalid _
      (Built.mutate _ _ (Built.ctor _) (fun _ => rfl)
        (fun n hn => by simp [Mutation.arg] at hn))⟩

/-- C7, as stated, fails: after `XMLNode("x")`, `set_property("k", "a")` and
`property("k")->set_value("\xFF")` the node stores the value `"\xFF"`, which the repair
function changes. -/
theorem C7_counterexample :
    (Mutation.apply replace_invalid (Mutation.property_set_value [107] [255])
      (Mutation.apply replace_invalid (Mutation.set_property [107] [97])
        (XMLNode.ctor [120]))).properties = [⟨[107], [255]⟩] ∧
    replace_invalid [255] ≠ [255] := by
  decide

/-- C7 (amended): with an idempotent repair function, in every node built by the
constructors and changed by any public calls at any depth other than writes through
`XMLProperty::set_value`, every stored property value is a repaired value. -/
theorem C7_values_repaired (repair : Str → Str)
    (hidem : ∀ s, repair (repair s) = repair s) (a : XMLNode)
    (h : Built repair (fun _ => True) (fun m _ => m.uses_set_value = false) a) :
    ∀ d ∈ a.subtree, ∀ p ∈ d.properties, repair p.value = p.value := by
  intro d hd
  exact (built_inv repair _ _ False True False (fun hf => hf.elim)
    (fun _ => ⟨hidem, fun m x hm => hm⟩) (fun hf => hf.elim) a h d hd).2.2.2.1 trivial

/-- C7 (amended) at the node made by `XMLNode("x", "")`, `set_property("k", "\xFF")` and
`add_child("y")`. -/
theorem C7_values_repaired_witness :
    (∀ s, replace_invalid (replace_invalid s) = replace_invalid s) ∧
    Built replace_invalid (fun _ => True) (fun m _ => m.uses_set_value = false)
      (Mutation.apply replace_invalid (Mutation.add_child [121])
        (Mutation.apply replace_invalid (Mutation.set_property [107] [255])
          (XMLNode.ctor_content [120] []))) ∧
    ∀ d ∈ (Mutation.apply replace_invalid (Mutation.add_child [121])
        (Mutation.apply replace_invalid (Mutation.set_property [107] [255])
          (XMLNode.ctor_content [120] []))).subtree,
      ∀ p ∈ d.properties, replace_invalid p.value = p.value :=
  ⟨replace_invalid_idem,
    Built.mutate _ _
      (Built.mutate _ _ (Built.ctor_content _ _ trivial) rfl
        (fun n hn => by simp [Mutation.arg] at hn))
      rfl (fun n hn => by simp [Mutation.arg] at hn),
    C7_values_repaired replace_invalid replace_invalid_idem _
      (Built.mutate _ _
        (Built.mutate _ _ (Built.ctor_content _ _ trivial) rfl
          (fun n hn => by simp [Mutation.arg] at hn))
        rfl (fun n hn => by simp [Mutation.arg] at hn))⟩

/-! ## Removal of children by name or by property (C11, C12) -/

theorem remove_nodes_loop_eq_filter (n : Str) : ∀ (ch : List XMLNode),
    XMLNode.remove_nodes_loop n ch = ch.filter (fun c => decide (c.name ≠ n))
  | [] => rfl
  | c :: cs => by
    by_cases hc : c.name = n
    · simp [XMLNode.remove_nodes_loop, hc, remove_nodes_loop_eq_filter n cs]
    · simp [XMLNode.remove_nodes_loop, hc, remove_nodes_loop_eq_filter n cs]

theorem remove_nodes_prop_loop_eq_filter (p v : Str) : ∀ (ch : List XMLNode),
    XMLNode.remove_nodes_prop_loop p v ch
      = ch.filter (fun c => !(c.property_has_value p v))
  | [] => rfl
  | c :: cs => by
    cases hc : c.property_has_value p v <;>
    simp [XMLNode.remove_nodes_prop_loop, hc, remove_nodes_prop_loop_eq_filter p v cs]

/-- C11: after `remove_nodes_and_delete(n)` the child list is the list of the original
children whose name differs from `n`, in the original order (the kept children are the
same nodes, with their own children untouched), and name, mode, content and properties
of the node are as before. -/
theorem C11_remove_nodes_and_delete (a : XMLNode) (n : Str) :
    (a.remove_nodes_and_delete n).children
      = a.children.filter (fun c => decide (c.name ≠ n)) ∧
    (a.remove_nodes_and_delete n).name = a.name ∧
    (a.remove_nodes_and_delete n).is_content = a.is_content ∧
    (a.remove_nodes_and_delete n).content = a.content ∧
    (a.remove_nodes_and_delete n).properties = a.properties := by
  cases a with
  | mk nm ic c ch pl =>
  exact ⟨remove_nodes_loop_eq_filter n ch, rfl, rfl, rfl, rfl⟩

/-- C12, as stated, fails for a property name with an embedded NUL byte: the child
`<a k="v"/>` of `<r>` has no property named `"k\0z"`, its only property is named `"k"`;
yet `remove_nodes_and_delete("k\0z", "v")` removes it, since the name is looked up as the
C string `"k"`. -/
theorem C12_counterexample :
    (XMLNode.mk [114] false [] [XMLNode.mk [97] false [] [] [⟨[107], [118]⟩]] []).children
      = [XMLNode.mk [97] false [] [] [⟨[107], [118]⟩]] ∧
    (XMLNode.mk [97] false [] [] [⟨[107], [118]⟩]).properties.map XMLProperty.name
      = [[107]] ∧
    ([107] : Str) ≠ [107, 0, 122] ∧
    ((XMLNode.mk [114] false [] [XMLNode.mk [97] false [] [] [⟨[107], [118]⟩]]
      []).remove_nodes_and_delete_prop [107, 0, 122] [118]).children = [] :=
  ⟨rfl, rfl, by decide, rfl⟩

/-- C12 (amended): `remove_nodes_and_delete(p, v)` looks the property up under the C
string of `p`, which is `p` up to its first NUL byte and `p` itself when `p` holds none.
After the call the child list is the list of the original children for which that lookup
is null or gives a value different from `v`, in the original order, and name, mode,
content and properties of the node are as before. -/
theorem C12_remove_nodes_and_delete_prop (a : XMLNode) (p v : Str) :
    (a.remove_nodes_and_delete_prop p v).children
      = a.children.filter (fun c =>
          match c.property (CSTR p) with
          | none => true
          | some pr => decide (pr.value ≠ v)) ∧
    (a.remove_nodes_and_delete_prop p v).name = a.name ∧
    (a.remove_nodes_and_delete_prop p v).is_content = a.is_content ∧
    (a.remove_nodes_and_delete_prop p v).content = a.content ∧
    (a.remove_nodes_and_delete_prop p v).properties = a.properties ∧
    (0 ∉ p → CSTR p = p) := by
  cases a with
  | mk nm ic c ch pl =>
  refine ⟨?_, rfl, rfl, rfl, rfl, CSTR_eq_self p⟩
  simp only [XMLNode.remove_nodes_and_delete_prop, XMLNode.children,
    remove_nodes_prop_loop_eq_filter]
  apply List.filter_congr
  intro x _
  unfold XMLNode.property_has_value XMLNode.property_string
  cases x.property (CSTR p) <;> simp

/-! ## Content of a node and of its children (C15, C16, C17) -/

/-- C15: `set_content(s)` returns `s`, leaves `content() == s` and
`is_content() == ! s.empty()`, and leaves name, children and properties as they were; in
particular `set_content("")` puts the node in element mode. -/
theorem C15_set_content (a : XMLNode) (s : Str) :
    (a.set_content s).1 = s ∧
    (a.set_content s).2.content = s ∧
    (a.set_content s).2.is_content = decide (s ≠ []) ∧
    (a.set_content s).2.name = a.name ∧
    (a.set_content s).2.children = a.children ∧
    (a.set_content s).2.properties = a.properties ∧
    (a.set_content []).2.is_content = false := by
  cases a with
  | mk nm ic c ch pl =>
  refine ⟨rfl, rfl, ?_, rfl, rfl, rfl, rfl⟩
  cases s <;> simp [XMLNode.set_content, XMLNode.is_content]

/-- C16: `add_content(s)` with an empty `s` returns null and leaves the node, hence its
child list, unchanged; with a non-empty `s` it returns the new child, which is appended
as the last child after the unchanged earlier ones, is in content mode, holds the content
`s` and has no children and no properties. -/
theorem C16_add_content (repair : Str → Str) (a : XMLNode) (s : Str) :
    (s = [] → a.add_content repair s = (none, a)) ∧
    (s ≠ [] → ∃ child,
      (a.add_content repair s).1 = some child ∧
      (a.add_content repair s).2.children = a.children ++ [child] ∧
      child.is_content = true ∧ child.content = s ∧
      child.children = [] ∧ child.properties = []) := by
  constructor
  · rintro rfl
    rfl
  · intro hs
    have he : s.isEmpty = false := by cases s <;> simp at hs ⊢
    refine ⟨XMLNode.mk [] true s [] [], ?_, ?_, rfl, rfl, rfl, rfl⟩
    · simp [XMLNode.add_content, he, XMLNode.add_child_copy, XMLNode.ctor_content,
        ctor_copy_eq, proplist_assign]
    · cases a with
      | mk nm ic c ch pl =>
      simp [XMLNode.add_content, he, XMLNode.add_child_copy, XMLNode.ctor_content,
        ctor_copy_eq, proplist_assign, XMLNode.add_child_nocopy, XMLNode.children]

theorem child_content_loop_none : ∀ (l : List XMLNode),
    (∀ c ∈ l, c.is_content = false) → XMLNode.child_content_loop l = []
  | [], _ => rfl
  | c :: cs, h => by
    have hc : c.is_content = false := h c (by simp)
    simp [XMLNode.child_content_loop, hc,
      child_content_loop_none cs (fun x hx => h x (by simp [hx]))]

theorem child_content_loop_split (c : XMLNode) (l2 : List XMLNode)
    (hc : c.is_content = true) : ∀ (l1 : List XMLNode),
    (∀ x ∈ l1, x.is_content = false) →
      XMLNode.child_content_loop (l1 ++ c :: l2) = c.content
  | [], _ => by simp [XMLNode.child_content_loop, hc]
  | x :: xs, h => by
    have hx : x.is_content = false := h x (by simp)
    simp [XMLNode.child_content_loop, hx,
      child_content_loop_split c l2 hc xs (fun y hy => h y (by simp [hy]))]

/-- C17: `child_content()` is the empty string when no direct child is in content mode
(whatever lies deeper in the tree), and otherwise the content of the first direct child
that is in content mode. -/
theorem C17_child_content (a : XMLNode) :
    ((∀ c ∈ a.children, c.is_content = false) → a.child_content = []) ∧
    ((∃ c ∈ a.children, c.is_content = true) →
      ∃ l1 c l2, a.children = l1 ++ c :: l2 ∧ (∀ x ∈ l1, x.is_content = false) ∧
        c.is_content = true ∧ a.child_content = c.content) := by
  constructor
  · intro h
    exact child_content_loop_none _ h
  · intro h
    rcases exists_first_split (fun c : XMLNode => c.is_content = true) _ h with
      ⟨l1, c, l2, hsplit, h1, hc⟩
    refine ⟨l1, c, l2, hsplit, fun x hx => by simpa using h1 x hx, hc, ?_⟩
    unfold XMLNode.child_content
    rw [hsplit]
    exact child_content_loop_split c l2 hc l1 (fun x hx => by simpa using h1 x hx)

/-! ## Recursive removal of a property (C13) -/

theorem remove_property_loop_eq_filter (n : Str) : ∀ (pl : List XMLProperty),
    (pl.map XMLProperty.name).Nodup →
      XMLNode.remove_property_loop n pl = pl.filter (fun p => decide (p.name ≠ n))
  | [], _ => rfl
  | p :: ps, h => by
    rw [List.map_cons, List.nodup_cons] at h
    by_cases hp : p.name = n
    · have hps : ∀ q ∈ ps, q.name ≠ n := by
        intro q hq hqn
        exact h.1 (List.mem_map.mpr ⟨q, hq, by rw [hqn, hp]⟩)
      have hf : ps.filter (fun q => decide (q.name ≠ n)) = ps :=
        List.filter_eq_self.mpr (fun q hq => by simpa using hps q hq)
      simp [XMLNode.remove_property_loop, hp]
      simpa using hf.symm
    · simp [XMLNode.remove_property_loop, hp, remove_property_loop_eq_filter n ps h.2]

theorem subtree_list_map_of_forall (f : XMLNode → XMLNode) : ∀ (ch : List XMLNode),
    (∀ x ∈ ch, (f x).subtree = x.subtree.map f) →
      XMLNode.subtree_list (ch.map f) = (XMLNode.subtree_list ch).map f
  | [], _ => rfl
  | c :: cs, h => by
    simp [XMLNode.subtree_list, h c (by simp),
      subtree_list_map_of_forall f cs (fun x hx => h x (by simp [hx]))]

/-- The nodes of the tree after `remove_property_recursively(n)` are, in document order,
the nodes of the tree before, each after the same call. -/
theorem remove_property_recursively_subtree (n : Str) : ∀ (a : XMLNode),
    (a.remove_property_recursively n).subtree
      = a.subtree.map (XMLNode.remove_property_recursively n) := by
  refine XMLNode.tree_induction _ ?_
  intro nm ic c ch pl ih
  rw [XMLNode.remove_property_recursively, remove_property_recursively_children_eq]
  simp only [XMLNode.subtree, List.map_cons]
  rw [subtree_list_map_of_forall _ ch ih]
  simp [XMLNode.remove_property_recursively, remove_property_recursively_children_eq]

/-- C13: in a tree whose nodes each have unique property names, after
`remove_property_recursively(n)` no node of the tree has a property named `n`; the tree
has the same nodes in the same document order, and each node keeps its name, mode and
content, its number of children, and its properties other than the one named `n`, in
their order. -/
theorem C13_remove_property_recursively (a : XMLNode) (n : Str)
    (h : ∀ d ∈ a.subtree, names_unique d) :
    (∀ d ∈ (a.remove_property_recursively n).subtree,
      ∀ p ∈ d.properties, p.name ≠ n) ∧
    (a.remove_property_recursively n).subtree.length = a.subtree.length ∧
    (∀ (i : Nat) (x y : XMLNode), a.subtree[i]? = some x →
      (a.remove_property_recursively n).subtree[i]? = some y →
        y.name = x.name ∧ y.is_content = x.is_content ∧ y.content = x.content ∧
        y.children.length = x.children.length ∧
        y.properties = x.properties.filter (fun p => decide (p.name ≠ n))) := by
  have hnode : ∀ x ∈ a.subtree,
      (x.remove_property_recursively n).name = x.name ∧
      (x.remove_property_recursively n).is_content = x.is_content ∧
      (x.remove_property_recursively n).content = x.content ∧
      (x.remove_property_recursively n).children.length = x.children.length ∧
      (x.remove_property_recursively n).properties
        = x.properties.filter (fun p => decide (p.name ≠ n)) := by
    intro x hx
    have hu := h x hx
    cases x with
    | mk nm ic c ch pl =>
    refine ⟨rfl, rfl, rfl, ?_, ?_⟩
    · simp [XMLNode.remove_property_recursively, remove_property_recursively_children_eq,
        XMLNode.children]
    · exact remove_property_loop_eq_filter n pl hu
  rw [remove_property_recursively_subtree]
  refine ⟨?_, by simp, ?_⟩
  · intro d hd p hp
    rcases List.mem_map.mp hd with ⟨x, hx, rfl⟩
    rw [(hnode x hx).2.2.2.2] at hp
    simpa using (List.mem_filter.mp hp).2
  · intro i x y hx hy
    rw [List.getElem?_map, hx] at hy
    simp only [Option.map_some', Option.some.injEq] at hy
    subst hy
    exact hnode x (List.getElem?_mem hx)

/-- C13 at the tree `<x i="2" j="3"><y i="1"/></x>` and the name `i`. -/
theorem C13_remove_property_recursively_witness :
    (∀ d ∈ (XMLNode.mk [120] false []
        [XMLNode.mk [121] false [] [] [⟨[105], [49]⟩]]
        [⟨[105], [50]⟩, ⟨[106], [51]⟩]).subtree, names_unique d) ∧
    ((∀ d ∈ ((XMLNode.mk [120] false []
        [XMLNode.mk [121] false [] [] [⟨[105], [49]⟩]]
        [⟨[105], [50]⟩, ⟨[106], [51]⟩]).remove_property_recursively [105]).subtree,
      ∀ p ∈ d.properties, p.name ≠ [105]) ∧
    ((XMLNode.mk [120] false []
        [XMLNode.mk [121] false [] [] [⟨[105], [49]⟩]]
        [⟨[105], [50]⟩, ⟨[106], [51]⟩]).remove_property_recursively [105]).subtree.length
      = (XMLNode.mk [120] false []
        [XMLNode.mk [121] false [] [] [⟨[105], [49]⟩]]
        [⟨[105], [50]⟩, ⟨[106], [51]⟩]).subtree.length ∧
    (∀ (i : Nat) (x y : XMLNode),
      (XMLNode.mk [120] false []
        [XMLNode.mk [121] false [] [] [⟨[105], [49]⟩]]
        [⟨[105], [50]⟩, ⟨[106], [51]⟩]).subtree[i]? = some x →
      ((XMLNode.mk [120] false []
        [XMLNode.mk [121] false [] [] [⟨[105], [49]⟩]]
        [⟨[105], [50]⟩, ⟨[106], [51]⟩]).remove_property_recursively [105]).subtree[i]?
          = some y →
        y.name = x.name ∧ y.is_content = x.is_content ∧ y.content = x.content ∧
        y.children.length = x.children.length ∧
        y.properties = x.properties.filter (fun p => decide (p.name ≠ [105])))) :=
  ⟨by simp [XMLNode.subtree, XMLNode.subtree_list, names_unique, XMLNode.properties,
      XMLProperty.name],
    C13_remove_property_recursively _ [105]
      (by simp [XMLNode.subtree, XMLNode.subtree_list, names_unique, XMLNode.properties,
        XMLProperty.name])⟩

/-! ## Queries on the children (C14, C18, C19) -/

/-- C14: `attribute_value()` throws exactly when the node is in content mode, or the
number of its children is not one, or its only child is not in content mode; in the
remaining case it returns the content of the only child; in every case the node is as
before. -/
theorem C14_attribute_value (a : XMLNode) :
    ((∃ e, a.attribute_value.1 = Except.error e) ↔
      (a.is_content = true ∨ a.children.length ≠ 1 ∨
        ∃ c, a.children = [c] ∧ c.is_content = false)) ∧
    (∀ c, a.is_content = false → a.children = [c] → c.is_content = true →
      a.attribute_value.1 = Except.ok c.content) ∧
    a.attribute_value.2 = a := by
  cases a with
  | mk nm ic ct ch pl =>
  cases ic with
  | true => simp [XMLNode.attribute_value, XMLNode.is_content]
  | false =>
    match ch with
    | [] => simp [XMLNode.attribute_value, XMLNode.is_content, XMLNode.children]
    | [c] =>
      cases c with
      | mk n2 ic2 c2 ch2 pl2 =>
      cases ic2 <;>
      simp [XMLNode.attribute_value, XMLNode.is_content, XMLNode.children,
        XMLNode.content]
    | c :: d :: rest =>
      simp [XMLNode.attribute_value, XMLNode.is_content, XMLNode.children]

theorem selected_children_loop_eq (n : Str) : ∀ (ch selected : List XMLNode),
    XMLNode.selected_children_loop n ch selected
      = selected ++ ch.filter (fun c => decide (c.name = n))
  | [], selected => by simp [XMLNode.selected_children_loop]
  | c :: cs, selected => by
    by_cases hc : c.name = n
    · simp [XMLNode.selected_children_loop, hc, selected_children_loop_eq n cs]
    · simp [XMLNode.selected_children_loop, hc, selected_children_loop_eq n cs]

/-- C18, as stated, fails at the empty filter: the node `<x><y/></x>` has no child whose
name is the empty string, yet `children("")` is its whole child list. -/
theorem C18_counterexample :
    (XMLNode.mk [120] false [] [XMLNode.ctor [121]] []).children_filtered []
      = [XMLNode.ctor [121]] ∧
    (XMLNode.mk [120] false [] [XMLNode.ctor [121]] []).children.filter
      (fun c => decide (c.name = [])) = [] :=
  ⟨rfl, rfl⟩

/-- C18 (amended): for every non-empty name filter `f`, `children(f)` is the ordered
sequence of exactly the direct children whose name equals `f`; `children("")` is the
whole child list. -/
theorem C18_children_filtered (a : XMLNode) (f : Str) :
    (f ≠ [] → a.children_filtered f = a.children.filter (fun c => decide (c.name = f))) ∧
    a.children_filtered [] = a.children := by
  constructor
  · intro hf
    have he : f.isEmpty = false := by cases f <;> simp at hf ⊢
    simp [XMLNode.children_filtered, he, selected_children_loop_eq]
  · rfl

theorem child_loop_none (n : Str) : ∀ (l : List XMLNode),
    (∀ c ∈ l, c.name ≠ n) → XMLNode.child_loop n l = none
  | [], _ => rfl
  | c :: cs, h => by
    have hc : c.name ≠ n := h c (by simp)
    simp [XMLNode.child_loop, hc, child_loop_none n cs (fun x hx => h x (by simp [hx]))]

theorem child_loop_split (n : Str) (c : XMLNode) (l2 : List XMLNode)
    (hc : c.name = n) : ∀ (l1 : List XMLNode),
    (∀ x ∈ l1, x.name ≠ n) → XMLNode.child_loop n (l1 ++ c :: l2) = some c
  | [], _ => by simp [XMLNode.child_loop, hc]
  | x :: xs, h => by
    have hx : x.name ≠ n := h x (by simp)
    simp [XMLNode.child_loop, hx,
      child_loop_split n c l2 hc xs (fun y hy => h y (by simp [hy]))]

/-- C19: `child(n)` is null exactly when no direct child is named `n`, and otherwise the
first direct child named `n`; with a null name pointer it is null. -/
theorem C19_child (a : XMLNode) (n : Str) :
    (a.child (some n) = none ↔ ∀ c ∈ a.children, c.name ≠ n) ∧
    ((∃ c ∈ a.children, c.name = n) →
      ∃ l1 c l2, a.children = l1 ++ c :: l2 ∧ (∀ x ∈ l1, x.name ≠ n) ∧ c.name = n ∧
        a.child (some n) = some c) ∧
    a.child none = none := by
  have hsome : (∃ c ∈ a.children, c.name = n) →
      ∃ l1 c l2, a.children = l1 ++ c :: l2 ∧ (∀ x ∈ l1, x.name ≠ n) ∧ c.name = n ∧
        a.child (some n) = some c := by
    intro h
    rcases exists_first_split (fun c : XMLNode => c.name = n) _ h with
      ⟨l1, c, l2, hsplit, h1, hc⟩
    refine ⟨l1, c, l2, hsplit, h1, hc, ?_⟩
    simp only [XMLNode.child]
    rw [hsplit]
    exact child_loop_split n c l2 hc l1 h1
  refine ⟨⟨?_, ?_⟩, hsome, rfl⟩
  · intro hnone c hc hcn
    rcases hsome ⟨c, hc, hcn⟩ with ⟨_, _, _, _, _, _, h⟩
    rw [hnone] at h
    cases h
  · intro h
    exact child_loop_none n _ h

/-! ## Lemmas on the free store -/

namespace Store

theorem lt_next_of_cell {s : Store} (h : s.fresh_beyond) {x : Nat} {o : Obj}
    (hx : s.cells x = some o) : x < s.next := by
  by_contra hlt
  rw [h x (Nat.le_of_not_lt hlt)] at hx
  cases hx

theorem read_props_agree (s s2 : Store) : ∀ (l : List Nat),
    (∀ a ∈ l, s2.cells a = s.cells a) → s2.read_props l = s.read_props l
  | [], _ => rfl
  | a :: rest, h => by
    simp only [read_props, h a (by simp),
      read_props_agree s s2 rest (fun x hx => h x (by simp [hx]))]

theorem read_props_cons_some {s : Store} {a : Nat} {rest : List Nat}
    {ps : List XMLProperty} (h : s.read_props (a :: rest) = some ps) :
    ∃ p ps', s.cells a = some (Obj.prop p) ∧ s.read_props rest = some ps' ∧
      ps = p :: ps' := by
  simp only [read_props] at h
  split at h
  · next p ps' h1 h2 =>
    exact ⟨p, ps', h1, h2, by simpa using h.symm⟩
  · cases h

theorem read_props_cell {s : Store} : ∀ {l : List Nat} {ps : List XMLProperty},
    s.read_props l = some ps → ∀ a ∈ l, ∃ p, s.cells a = some (Obj.prop p)
  | [], _, _, a, ha => by simp at ha
  | b :: rest, ps, h, a, ha => by
    rcases read_props_cons_some h with ⟨p, ps', h1, h2, _⟩
    rcases List.mem_cons.mp ha with rfl | ha
    · exact ⟨p, h1⟩
    · exact read_props_cell h2 a ha

theorem read_props_append {s : Store} : ∀ (l1 l2 : List Nat)
    (ps1 ps2 : List XMLProperty),
    s.read_props l1 = some ps1 → s.read_props l2 = some ps2 →
      s.read_props (l1 ++ l2) = some (ps1 ++ ps2)
  | [], _, ps1, _, h1, h2 => by
    simp only [read_props, Option.some.injEq] at h1
    subst h1
    simpa using h2
  | a :: rest, l2, ps1, ps2, h1, h2 => by
    rcases read_props_cons_some h1 with ⟨p, ps', hc, hr, rfl⟩
    have ih := read_props_append rest l2 ps' ps2 hr h2
    rw [List.cons_append]
    simp only [read_props, hc, ih, List.cons_append]

theorem read_all_mono {f g : Nat → Option XMLNode} : ∀ (l : List Nat)
    (vs : List XMLNode), (∀ a ∈ l, ∀ v, f a = some v → g a = some v) →
      read_all f l = some vs → read_all g l = some vs
  | [], _, _, h => by simpa [read_all] using h
  | a :: rest, vs, hfg, h => by
    simp only [read_all] at h
    split at h
    · next x xs h1 h2 =>
      simp only [read_all, hfg a (by simp) x h1,
        read_all_mono rest xs (fun b hb => hfg b (by simp [hb])) h2]
      exact h
    · cases h

theorem read_all_append {f : Nat → Option XMLNode} : ∀ (l1 l2 : List Nat)
    (v1 v2 : List XMLNode), read_all f l1 = some v1 → read_all f l2 = some v2 →
      read_all f (l1 ++ l2) = some (v1 ++ v2)
  | [], _, v1, _, h1, h2 => by
    simp only [read_all, Option.some.injEq] at h1
    subst h1
    simpa using h2
  | a :: rest, l2, v1, v2, h1, h2 => by
    simp only [read_all] at h1
    split at h1
    · next x xs hx hxs =>
      simp only [Option.some.injEq] at h1
      subst h1
      have ih := read_all_append rest l2 xs v2 hxs h2
      rw [List.cons_append]
      simp only [read_all, hx, ih, List.cons_append]
    · cases h1

/-- A value read from a store is read again from every store that has the same objects
at the addresses where the first store has objects. -/
theorem read_agree (s s2 : Store) (h : ∀ x o, s.cells x = some o → s2.cells x = some o) :
    ∀ (fuel : Nat) (a : Nat) (v : XMLNode), s.read fuel a = some v →
      s2.read fuel a = some v
  | 0, _, _, hr => by simp [read] at hr
  | fuel + 1, a, v, hr => by
    simp only [read] at hr
    split at hr
    · next n ic c ch pl hcell =>
      split at hr
      · next cs ps hcs hps =>
        have hps2 : s2.read_props pl = some ps := by
          rw [read_props_agree s s2 pl, hps]
          intro x hx
          rcases read_props_cell hps x hx with ⟨p, hp⟩
          rw [hp, h x _ hp]
        have hcs2 : read_all (s2.read fuel) ch = some cs :=
          read_all_mono ch cs (fun b _ w hw => read_agree s s2 h fuel b w hw) hcs
        simp only [read, h a _ hcell, hcs2, hps2]
        exact hr
      · cases hr
    · cases hr

end Store

namespace Store

theorem write_cells_same (s : Store) (a : Nat) (o : Obj) :
    (s.write a o).cells a = some o := by
  simp [write]

theorem write_cells_ne (s : Store) {a x : Nat} (o : Obj) (h : x ≠ a) :
    (s.write a o).cells x = s.cells x := by
  simp [write, h]

theorem new_cells_same (s : Store) (o : Obj) : (s.new o).2.cells s.next = some o := by
  simp [new]

theorem new_cells_ne (s : Store) {x : Nat} (o : Obj) (h : x ≠ s.next) :
    (s.new o).2.cells x = s.cells x := by
  simp [new, h]

theorem read_props_cons_of {s : Store} {a : Nat} {rest : List Nat} {p : XMLProperty}
    {ps : List XMLProperty} (hc : s.cells a = some (Obj.prop p))
    (hr : s.read_props rest = some ps) : s.read_props (a :: rest) = some (p :: ps) := by
  simp only [read_props, hc, hr]

/-- The property loop of `set_property` on the store does what the loop on values does:
it ends without a write when the latter does, and otherwise writes one property object
of the vector so that the vector reads as the result of the loop on values. -/
theorem set_property_loop_spec (s : Store) (k v : Str) : ∀ (pla : List Nat)
    (PL : List XMLProperty), s.read_props pla = some PL → pla.Nodup →
    (XMLNode.set_property_loop k v PL = none ∧ s.set_property_loop k v pla = none) ∨
    (∃ PL' a o, XMLNode.set_property_loop k v PL = some PL' ∧ a ∈ pla ∧
      s.set_property_loop k v pla = some (s.write a (Obj.prop o)) ∧
      (s.write a (Obj.prop o)).read_props pla = some PL')
  | [], PL, h, _ => by
    simp only [read_props, Option.some.injEq] at h
    subst h
    exact Or.inl ⟨rfl, rfl⟩
  | a :: rest, PL, h, hnd => by
    rcases read_props_cons_some h with ⟨p, ps, hc, hr, rfl⟩
    rw [List.nodup_cons] at hnd
    by_cases hp : p.name = k
    · refine Or.inr ⟨(p.set_value v).2 :: ps, a, (p.set_value v).2, ?_, by simp, ?_, ?_⟩
      · simp [XMLNode.set_property_loop, hp]
      · simp [set_property_loop, hc, hp]
      · have hrest : (s.write a (Obj.prop (p.set_value v).2)).read_props rest
            = some ps := by
          rw [read_props_agree s _ rest, hr]
          intro x hx
          have hxa : x ≠ a := fun e => hnd.1 (e ▸ hx)
          exact write_cells_ne s _ hxa
        exact read_props_cons_of (write_cells_same s a _) hrest
    · rcases set_property_loop_spec s k v rest ps hr hnd.2 with
        ⟨h1, h2⟩ | ⟨PL', b, o, h1, hb, h2, h3⟩
      · refine Or.inl ⟨?_, ?_⟩
        · simp [XMLNode.set_property_loop, hp, h1]
        · simp [set_property_loop, hc, hp, h2]
      · refine Or.inr ⟨p :: PL', b, o, ?_, by simp [hb], ?_, ?_⟩
        · simp [XMLNode.set_property_loop, hp, h1]
        · simp [set_property_loop, hc, hp, h2]
        · have hab : a ≠ b := fun e => hnd.1 (e ▸ hb)
          exact read_props_cons_of ((write_cells_ne s _ hab).trans hc) h3

end Store

namespace Store

/-- `set_property` on a node object whose property vector holds distinct pointers to
property objects allocated after the node: the vector then reads as `proplist_set` of
what it read before, its pointers are again distinct and allocated after the node, and
no object allocated before the node is written. -/
theorem set_property_spec (repair : Str → Str) (s : Store) (this : Nat)
    (nm c : Str) (ic : Bool) (ch pla : List Nat) (PL : List XMLProperty) (k v : Str)
    (hinv : s.fresh_beyond)
    (hthis : s.cells this = some (Obj.node nm ic c ch pla))
    (hread : s.read_props pla = some PL) (hnd : pla.Nodup)
    (hlo : ∀ a ∈ pla, this < a) :
    ∃ pla', (s.set_property repair this k v).cells this
        = some (Obj.node nm ic c ch pla') ∧
      (s.set_property repair this k v).read_props pla'
        = some (proplist_set k (repair v) PL) ∧
      pla'.Nodup ∧ (∀ a ∈ pla', this < a) ∧
      (s.set_property repair this k v).fresh_beyond ∧
      s.next ≤ (s.set_property repair this k v).next ∧
      (∀ x, x < this → (s.set_property repair this k v).cells x = s.cells x) := by
  have hthis_lt : this < s.next := lt_next_of_cell hinv hthis
  have hpla_lt : ∀ a ∈ pla, a < s.next := by
    intro a ha
    rcases read_props_cell hread a ha with ⟨p, hp⟩
    exact lt_next_of_cell hinv hp
  rcases set_property_loop_spec s k (repair v) pla PL hread hnd with
    ⟨h1, h2⟩ | ⟨PL', a, o, h1, ha, h2, h3⟩
  · have hres : s.set_property repair this k v
        = (s.new (Obj.prop ⟨k, repair v⟩)).2.write this
            (Obj.node nm ic c ch (pla ++ [s.next])) := by
      simp [set_property, hthis, h2, new]
    rw [hres]
    refine ⟨pla ++ [s.next], write_cells_same _ _ _, ?_, ?_, ?_, ?_, ?_, ?_⟩
    · have hset : proplist_set k (repair v) PL = PL ++ [⟨k, repair v⟩] := by
        simp [proplist_set, h1]
      rw [hset]
      apply read_props_append
      · rw [read_props_agree s _ pla, hread]
        intro x hx
        rw [write_cells_ne _ _ (Nat.ne_of_gt (hlo x hx)),
          new_cells_ne _ _ (Nat.ne_of_lt (hpla_lt x hx))]
      · refine read_props_cons_of ?_ rfl
        rw [write_cells_ne _ _ (Nat.ne_of_gt hthis_lt)]
        exact new_cells_same _ _
    · refine List.Nodup.append hnd (by simp) ?_
      intro x hx hx2
      simp at hx2
      subst hx2
      exact Nat.lt_irrefl _ (hpla_lt _ hx)
    · intro x hx
      rcases List.mem_append.mp hx with hx | hx
      · exact hlo x hx
      · simp at hx
        subst hx
        exact hthis_lt
    · intro x hx
      have hx' : s.next + 1 ≤ x := hx
      rw [write_cells_ne _ _ (by omega), new_cells_ne _ _ (by omega)]
      exact hinv x (by omega)
    · show s.next ≤ s.next + 1
      omega
    · intro x hx
      rw [write_cells_ne _ _ (by omega), new_cells_ne _ _ (by omega)]
  · have hres : s.set_property repair this k v = s.write a (Obj.prop o) := by
      simp [set_property, hthis, h2]
    have hset : proplist_set k (repair v) PL = PL' := by
      simp [proplist_set, h1]
    rw [hres, hset]
    have hat : this < a := hlo a ha
    refine ⟨pla, ?_, h3, hnd, hlo, ?_, Nat.le_refl _, ?_⟩
    · rw [write_cells_ne _ _ (by omega)]
      exact hthis
    · intro x hx
      have hx' : s.next ≤ x := hx
      have := hpla_lt a ha
      rw [write_cells_ne _ _ (by omega)]
      exact hinv x hx
    · intro x hx
      rw [write_cells_ne _ _ (by omega)]

/-- The property loop of `operator =` on a node object under construction at address
`this`, reading the source properties from objects allocated before it. -/
theorem assign_properties_spec (repair : Str → Str) (this : Nat) (nm c : Str)
    (ic : Bool) (ch : List Nat) : ∀ (src : List Nat) (ps : List XMLProperty)
    (s : Store) (pla : List Nat) (PL : List XMLProperty),
    s.fresh_beyond → s.cells this = some (Obj.node nm ic c ch pla) →
    s.read_props pla = some PL → pla.Nodup → (∀ a ∈ pla, this < a) →
    s.read_props src = some ps → (∀ a ∈ src, a < this) →
    ∃ pla', (assign_properties repair this src s).cells this
        = some (Obj.node nm ic c ch pla') ∧
      (assign_properties repair this src s).read_props pla'
        = some (proplist_assign repair ps PL) ∧
      pla'.Nodup ∧ (∀ a ∈ pla', this < a) ∧
      (assign_properties repair this src s).fresh_beyond ∧
      s.next ≤ (assign_properties repair this src s).next ∧
      (∀ x, x < this → (assign_properties repair this src s).cells x = s.cells x)
  | [], ps, s, pla, PL, hinv, hthis, hread, hnd, hlo, hsrc, _ => by
    simp only [read_props, Option.some.injEq] at hsrc
    subst hsrc
    exact ⟨pla, hthis, hread, hnd, hlo, hinv, Nat.le_refl _, fun _ _ => rfl⟩
  | a :: rest, ps, s, pla, PL, hinv, hthis, hread, hnd, hlo, hsrc, hold => by
    rcases read_props_cons_some hsrc with ⟨p, ps', hc, hr, rfl⟩
    rcases set_property_spec repair s this nm c ic ch pla PL p.name p.value hinv hthis
      hread hnd hlo with ⟨pla1, h1, h2, h3, h4, h5, h6, h7⟩
    have hr1 : (s.set_property repair this p.name p.value).read_props rest = some ps' := by
      rw [read_props_agree s _ rest, hr]
      intro x hx
      exact h7 x (hold x (by simp [hx]))
    rcases assign_properties_spec repair this nm c ic ch rest ps' _ pla1 _ h5 h1 h2 h3
      h4 hr1 (fun x hx => hold x (by simp [hx])) with
      ⟨pla', g1, g2, g3, g4, g5, g6, g7⟩
    have hstep : assign_properties repair this (a :: rest) s
        = assign_properties repair this rest
            (s.set_property repair this p.name p.value) := by
      simp only [assign_properties, hc]
    rw [hstep]
    refine ⟨pla', g1, ?_, g3, g4, g5, Nat.le_trans h6 g6, ?_⟩
    · simpa [proplist_assign] using g2
    · intro x hx
      rw [g7 x hx, h7 x hx]

end Store

namespace Store

theorem read_all_cons_some {f : Nat → Option XMLNode} {a : Nat} {rest : List Nat}
    {vs : List XMLNode} (h : read_all f (a :: rest) = some vs) :
    ∃ v vs', f a = some v ∧ read_all f rest = some vs' ∧ vs = v :: vs' := by
  simp only [read_all] at h
  split at h
  · next x xs h1 h2 =>
    exact ⟨x, xs, h1, h2, by simpa using h.symm⟩
  · cases h

theorem read_all_cons_of {f : Nat → Option XMLNode} {a : Nat} {rest : List Nat}
    {v : XMLNode} {vs : List XMLNode} (h1 : f a = some v)
    (h2 : read_all f rest = some vs) : read_all f (a :: rest) = some (v :: vs) := by
  simp only [read_all, h1, h2]

/-- The child loop of `operator =` on a node object under construction at address
`this`, copying from a store `s0` whose objects all lie below `this`. -/
theorem assign_children_spec (repair : Str → Str) (fuel : Nat)
    (hP : copy_spec repair fuel) (s0 : Store) (this : Nat)
    (horig : ∀ x o, s0.cells x = some o → x < this)
    (nm c : Str) (ic : Bool) (pla : List Nat) : ∀ (src : List Nat) (vs : List XMLNode)
    (s : Store) (cha : List Nat) (CH : List XMLNode),
    (∀ x, x < this → s.cells x = s0.cells x) →
    read_all (s0.read fuel) src = some vs →
    s.fresh_beyond → s.cells this = some (Obj.node nm ic c cha pla) →
    (∀ s2 : Store, (∀ x, this < x → x < s.next → s2.cells x = s.cells x) →
      read_all (s2.read fuel) cha = some CH) →
    ∃ s' cha', assign_children (new_copy repair fuel) this src s = some s' ∧
      s'.fresh_beyond ∧ s.next ≤ s'.next ∧
      s'.cells this = some (Obj.node nm ic c cha' pla) ∧
      (∀ x, x < this → s'.cells x = s.cells x) ∧
      (∀ x, this < x → x < s.next → s'.cells x = s.cells x) ∧
      (∀ s2 : Store, (∀ x, this < x → x < s'.next → s2.cells x = s'.cells x) →
        read_all (s2.read fuel) cha'
          = some (CH ++ vs.map (XMLNode.ctor_copy repair)))
  | [], vs, s, cha, CH, _, hsrc, hinv, hthis, hch => by
    simp only [read_all, Option.some.injEq] at hsrc
    subst hsrc
    exact ⟨s, cha, rfl, hinv, Nat.le_refl _, hthis, fun _ _ => rfl, fun _ _ _ => rfl,
      by simpa using hch⟩
  | c0 :: rest, vs, s, cha, CH, hsame, hsrc, hinv, hthis, hch => by
    rcases read_all_cons_some hsrc with ⟨v0, vs', hv0, hrest, rfl⟩
    have hthis_lt : this < s.next := lt_next_of_cell hinv hthis
    have hv0s : s.read fuel c0 = some v0 :=
      read_agree s0 s (fun x o hx => by rw [hsame x (horig x o hx), hx]) fuel c0 v0 hv0
    rcases hP s c0 v0 hinv hv0s with ⟨s1, hcopy, hinv1, hlt1, hframe1, hread1⟩
    have hthis1 : s1.cells this = some (Obj.node nm ic c cha pla) := by
      rw [hframe1 this hthis_lt, hthis]
    have hadd : s1.add_child_nocopy this s.next
        = s1.write this (Obj.node nm ic c (cha ++ [s.next]) pla) := by
      simp only [add_child_nocopy, hthis1]
    have hcells : ∀ x, x ≠ this →
        (s1.write this (Obj.node nm ic c (cha ++ [s.next]) pla)).cells x = s1.cells x :=
      fun x hx => write_cells_ne s1 _ hx
    have hinv1' : (s1.write this (Obj.node nm ic c (cha ++ [s.next]) pla)).fresh_beyond := by
      intro x hx
      have hx' : s1.next ≤ x := hx
      rw [hcells x (by omega)]
      exact hinv1 x hx'
    rcases assign_children_spec repair fuel hP s0 this horig nm c ic pla rest vs'
        (s1.write this (Obj.node nm ic c (cha ++ [s.next]) pla)) (cha ++ [s.next])
        (CH ++ [XMLNode.ctor_copy repair v0])
        (fun x hx => by rw [hcells x (by omega), hframe1 x (by omega), hsame x hx])
        hrest hinv1' (write_cells_same _ _ _)
        (fun s2 hs2 => by
          have hs2' : ∀ x, this < x → x < s1.next → s2.cells x = s1.cells x := by
            intro x h1 h2
            rw [hs2 x h1 h2, hcells x (by omega)]
          apply read_all_append
          · apply hch
            intro x h1 h2
            rw [hs2' x h1 (by omega), hframe1 x h2]
          · refine read_all_cons_of ?_ rfl
            apply hread1
            intro x h1 h2
            exact hs2' x (by omega) h2) with
      ⟨s', cha', g1, g2, g3, g4, g5, g6, g7⟩
    have g3' : s1.next ≤ s'.next := g3
    refine ⟨s', cha', ?_, g2, by omega, g4, ?_, ?_, ?_⟩
    · simp only [assign_children, hcopy, hadd]
      exact g1
    · intro x hx
      rw [g5 x hx, hcells x (by omega), hframe1 x (by omega)]
    · intro x h1 h2
      have h3 : x < (s1.write this (Obj.node nm ic c (cha ++ [s.next]) pla)).next := by
        show x < s1.next
        omega
      rw [g6 x h1 h3, hcells x (by omega), hframe1 x h2]
    · intro s2 hs2
      simpa using g7 s2 hs2

end Store

namespace Store

theorem read_succ_some {s : Store} {fuel a : Nat} {v : XMLNode}
    (h : s.read (fuel + 1) a = some v) :
    ∃ n ic c ch pl cs ps, s.cells a = some (Obj.node n ic c ch pl) ∧
      read_all (s.read fuel) ch = some cs ∧ s.read_props pl = some ps ∧
      v = XMLNode.mk n ic c cs ps := by
  simp only [read] at h
  split at h
  · next n ic c ch pl hcell =>
    split at h
    · next cs ps hcs hps =>
      exact ⟨n, ic, c, ch, pl, cs, ps, hcell, hcs, hps, by simpa using h.symm⟩
    · cases h
  · cases h

theorem read_succ_of {s : Store} {fuel a : Nat} {n c : Str} {ic : Bool}
    {ch pl : List Nat} {cs : List XMLNode} {ps : List XMLProperty}
    (hcell : s.cells a = some (Obj.node n ic c ch pl))
    (hcs : read_all (s.read fuel) ch = some cs) (hps : s.read_props pl = some ps) :
    s.read (fuel + 1) a = some (XMLNode.mk n ic c cs ps) := by
  simp only [read, hcell, hcs, hps]

/-- The copy made by `new XMLNode(from)` meets `copy_spec` for every bound on the
depth. -/
theorem new_copy_spec (repair : Str → Str) : ∀ (fuel : Nat), copy_spec repair fuel
  | 0 => by
    intro s src v _ hr
    simp [read] at hr
  | fuel + 1 => by
    intro s src v hinv hr
    rcases read_succ_some hr with ⟨n, ic, c, ch, pl, cs, ps, hcell, hcs, hps, rfl⟩
    have hpl_lt : ∀ a ∈ pl, a < s.next := by
      intro a ha
      rcases read_props_cell hps a ha with ⟨p, hp⟩
      exact lt_next_of_cell hinv hp
    -- the new node object, with name and content assigned
    have hs1 : ((s.new (Obj.node [] false [] [] [])).2.assign_name s.next n).set_content
          s.next c
        = ((s.new (Obj.node [] false [] [] [])).2.write s.next
            (Obj.node n false [] [] [])).write s.next
            (Obj.node n (!c.isEmpty) c [] []) := by
      simp [assign_name, set_content, new, write]
    generalize hs1def : ((s.new (Obj.node [] false [] [] [])).2.write s.next
        (Obj.node n false [] [] [])).write s.next (Obj.node n (!c.isEmpty) c [] [])
      = s1 at hs1
    have hs1_this : s1.cells s.next = some (Obj.node n (!c.isEmpty) c [] []) := by
      rw [← hs1def]
      exact write_cells_same _ _ _
    have hs1_ne : ∀ x, x ≠ s.next → s1.cells x = s.cells x := by
      intro x hx
      rw [← hs1def, write_cells_ne _ _ hx, write_cells_ne _ _ hx, new_cells_ne _ _ hx]
    have hs1_next : s1.next = s.next + 1 := by
      rw [← hs1def]
      rfl
    have hs1_inv : s1.fresh_beyond := by
      intro x hx
      rw [hs1_next] at hx
      rw [hs1_ne x (by omega)]
      exact hinv x (by omega)
    -- the property loop
    have hps1 : s1.read_props pl = some ps := by
      rw [read_props_agree s s1 pl, hps]
      intro x hx
      exact hs1_ne x (Nat.ne_of_lt (hpl_lt x hx))
    rcases assign_properties_spec repair s.next n c (!c.isEmpty) [] pl ps s1 [] []
        hs1_inv hs1_this rfl (by simp) (by simp) hps1 hpl_lt with
      ⟨pla, p1, p2, p3, p4, p5, p6, p7⟩
    generalize hs2def : assign_properties repair s.next pl s1 = s2 at p1 p2 p5 p6 p7
    have hpla_lt : ∀ a ∈ pla, a < s2.next := by
      intro a ha
      rcases read_props_cell p2 a ha with ⟨p, hp⟩
      exact lt_next_of_cell p5 hp
    -- the child loop
    rcases assign_children_spec repair fuel (new_copy_spec repair fuel) s s.next
        (fun x o hx => lt_next_of_cell hinv hx) n c (!c.isEmpty) pla ch cs s2 [] []
        (fun x hx => by rw [p7 x hx, hs1_ne x (by omega)])
        hcs p5 p1 (fun _ _ => rfl) with
      ⟨s3, cha, c1, c2, c3, c4, c5, c6, c7⟩
    have hnext : s.next < s3.next := by
      rw [hs1_next] at p6
      omega
    refine ⟨s3, ?_, c2, hnext, ?_, ?_⟩
    · simp only [new_copy, hcell]
      have hfst : (s.new (Obj.node [] false [] [] [])).1 = s.next := rfl
      rw [hfst, hs1, hs2def, c1]
    · intro x hx
      rw [c5 x hx, p7 x hx, hs1_ne x (by omega)]
    · intro s4 hs4
      have hcell4 : s4.cells s.next = some (Obj.node n (!c.isEmpty) c cha pla) := by
        rw [hs4 s.next (Nat.le_refl _) hnext, c4]
      have hch4 : read_all (s4.read fuel) cha
          = some (cs.map (XMLNode.ctor_copy repair)) := by
        simpa using c7 s4 (fun x h1 h2 => hs4 x (by omega) h2)
      have hps4 : s4.read_props pla = some (proplist_assign repair ps []) := by
        rw [read_props_agree s2 s4 pla, p2]
        intro x hx
        have h1 := p4 x hx
        have h2 := hpla_lt x hx
        rw [hs4 x (by omega) (by omega), c6 x h1 h2]
      rw [read_succ_of hcell4 hch4 hps4, ctor_copy_eq]

end Store

namespace Store

/-- The value of a node is read from its objects only. -/
theorem read_local (s s2 : Store) : ∀ (fuel : Nat) (a : Nat) (v : XMLNode),
    s.read fuel a = some v → (∀ x ∈ s.objects fuel a, s2.cells x = s.cells x) →
      s2.read fuel a = some v
  | 0, _, _, hr, _ => by simp [read] at hr
  | fuel + 1, a, v, hr, h => by
    rcases read_succ_some hr with ⟨n, ic, c, ch, pl, cs, ps, hcell, hcs, hps, rfl⟩
    have hobj : s.objects (fuel + 1) a = a :: (pl ++ ch.flatMap (s.objects fuel)) := by
      simp only [objects, hcell]
    rw [hobj] at h
    have hcell2 : s2.cells a = some (Obj.node n ic c ch pl) := by
      rw [h a (by simp), hcell]
    have hps2 : s2.read_props pl = some ps := by
      rw [read_props_agree s s2 pl (fun x hx => h x (by simp [hx])), hps]
    have hcs2 : read_all (s2.read fuel) ch = some cs := by
      refine read_all_mono ch cs ?_ hcs
      intro b hb w hw
      refine read_local s s2 fuel b w hw ?_
      intro x hx
      exact h x (by
        simp only [List.mem_cons, List.mem_append, List.mem_flatMap]
        exact Or.inr (Or.inr ⟨b, hb, hx⟩))
    exact read_succ_of hcell2 hcs2 hps2

theorem read_all_mem {f : Nat → Option XMLNode} : ∀ {l : List Nat} {vs : List XMLNode},
    read_all f l = some vs → ∀ b ∈ l, ∃ w, f b = some w
  | [], _, _, b, hb => by simp at hb
  | d :: rest, vs, h, b, hb => by
    rcases read_all_cons_some h with ⟨w, ws, h1, h2, _⟩
    rcases List.mem_cons.mp hb with rfl | hb
    · exact ⟨w, h1⟩
    · exact read_all_mem h2 b hb

/-- The objects of a node that reads as a value are objects of the store. -/
theorem objects_cell (s : Store) : ∀ (fuel : Nat) (a : Nat) (v : XMLNode),
    s.read fuel a = some v → ∀ x ∈ s.objects fuel a, ∃ o, s.cells x = some o
  | 0, _, _, hr, _, _ => by simp [read] at hr
  | fuel + 1, a, v, hr, x, hx => by
    rcases read_succ_some hr with ⟨n, ic, c, ch, pl, cs, ps, hcell, hcs, hps, rfl⟩
    simp only [objects, hcell, List.mem_cons, List.mem_append, List.mem_flatMap] at hx
    rcases hx with rfl | hx | ⟨b, hb, hx⟩
    · exact ⟨_, hcell⟩
    · rcases read_props_cell hps x hx with ⟨p, hp⟩
      exact ⟨_, hp⟩
    · rcases read_all_mem hcs b hb with ⟨w, hw⟩
      exact objects_cell s fuel b w hw x hx

end Store

/-! ## Appending a copy (C20) -/

/-- C20: `add_child_copy(n)` on the node object at address `p`, for a node at address `n`
that reads as the value `nval`, in a store whose objects all lie below `next`.  The call
returns the first unused address; the object `p` has this pointer appended at the end
of its child vector and keeps its name, mode, content, earlier child pointers and
property pointers; every other object that existed before (`n`, when it is not `p`, the
children and properties of `n`, the earlier children of `p`) is as before; the new child
reads as the copy `XMLNode(nval)`, and it does so in every store that has the objects
allocated by the call, whatever is written to older objects such as those of `n`;
and, when `p` is not one of the objects of `n`, `n` reads as `nval` in every store that
has the older objects other than `p`, whatever is written to `p` and to the objects
allocated by the call. -/
theorem C20_add_child_copy (repair : Str → Str) (fuel : Nat) (s : Store) (p n : Nat)
    (pn pc : Str) (pic : Bool) (pch ppl : List Nat) (nval : XMLNode)
    (hs : s.fresh_beyond)
    (hp : s.cells p = some (Obj.node pn pic pc pch ppl))
    (hn : s.read fuel n = some nval) :
    ∃ s', s.add_child_copy repair fuel p n = some (s.next, s') ∧
      s'.cells p = some (Obj.node pn pic pc (pch ++ [s.next]) ppl) ∧
      (∀ x, x < s.next → x ≠ p → s'.cells x = s.cells x) ∧
      s.next < s'.next ∧
      (∀ s2 : Store, (∀ x, s.next ≤ x → x < s'.next → s2.cells x = s'.cells x) →
        s2.read fuel s.next = some (XMLNode.ctor_copy repair nval)) ∧
      (p ∉ s.objects fuel n →
        ∀ s2 : Store, (∀ x, x < s.next → x ≠ p → s2.cells x = s.cells x) →
          s2.read fuel n = some nval) := by
  rcases Store.new_copy_spec repair fuel s n nval hs hn with ⟨s1, h1, _, h3, h4, h5⟩
  have hp_lt : p < s.next := Store.lt_next_of_cell hs hp
  have hp1 : s1.cells p = some (Obj.node pn pic pc pch ppl) := by
    rw [h4 p hp_lt, hp]
  refine ⟨s1.write p (Obj.node pn pic pc (pch ++ [s.next]) ppl), ?_,
    Store.write_cells_same _ _ _, ?_, h3, ?_, ?_⟩
  · simp [Store.add_child_copy, h1, Store.add_child_nocopy, hp1]
  · intro x hx hxp
    rw [Store.write_cells_ne _ _ hxp, h4 x hx]
  · intro s2 hs2
    apply h5
    intro x hx1 hx2
    rw [hs2 x hx1 hx2, Store.write_cells_ne _ _ (by omega)]
  · intro hpn s2 hs2
    refine Store.read_local s s2 fuel n nval hn ?_
    intro x hx
    rcases Store.objects_cell s fuel n nval hn x hx with ⟨o, ho⟩
    exact hs2 x (Store.lt_next_of_cell hs ho) (fun e => hpn (e ▸ hx))

/-- C20 at the store `Store.sample`, with `p` the node `<x/>` at address 0 and `n` the
node `<y k="\xFF"/>` at address 1. -/
theorem C20_add_child_copy_witness :
    Store.sample.fresh_beyond ∧
    Store.sample.cells 0 = some (Obj.node [120] false [] [] []) ∧
    Store.sample.read 1 1 = some (XMLNode.mk [121] false [] [] [⟨[107], [255]⟩]) ∧
    0 ∉ Store.sample.objects 1 1 ∧
    ∃ s', Store.sample.add_child_copy replace_invalid 1 0 1
        = some (Store.sample.next, s') ∧
      s'.cells 0 = some (Obj.node [120] false [] ([] ++ [Store.sample.next]) []) ∧
      (∀ x, x < Store.sample.next → x ≠ 0 → s'.cells x = Store.sample.cells x) ∧
      Store.sample.next < s'.next ∧
      (∀ s2 : Store,
        (∀ x, Store.sample.next ≤ x → x < s'.next → s2.cells x = s'.cells x) →
        s2.read 1 Store.sample.next
          = some (XMLNode.ctor_copy replace_invalid
              (XMLNode.mk [121] false [] [] [⟨[107], [255]⟩]))) ∧
      (0 ∉ Store.sample.objects 1 1 →
        ∀ s2 : Store,
          (∀ x, x < Store.sample.next → x ≠ 0 → s2.cells x = Store.sample.cells x) →
          s2.read 1 1 = some (XMLNode.mk [121] false [] [] [⟨[107], [255]⟩])) :=
  have hfresh : Store.sample.fresh_beyond := by
    intro x hx
    obtain ⟨k, rfl⟩ : ∃ k, x = k + 3 := ⟨x - 3, by
      have : 3 ≤ x := hx
      omega⟩
    rfl
  ⟨hfresh, rfl, rfl, by decide,
    C20_add_child_copy replace_invalid 1 Store.sample 0 1 [120] [] false [] []
      (XMLNode.mk [121] false [] [] [⟨[107], [255]⟩]) hfresh rfl rfl⟩

/-! ## The compression level (C21) -/

theorem set_compression_fst (t : XMLTree) (c : Int) :
    (t.set_compression c).1 = max 0 (min 9 c) := by
  simp only [XMLTree.set_compression]
  split_ifs <;> omega

theorem set_compression_calls_range : ∀ (cs : List Int) (t : XMLTree),
    0 ≤ t.compression → t.compression ≤ 9 →
    0 ≤ (cs.foldl (fun u c => (u.set_compression c).2) t).compression ∧
    (cs.foldl (fun u c => (u.set_compression c).2) t).compression ≤ 9
  | [], _, h0, h9 => ⟨h0, h9⟩
  | c :: cs, t, _, _ => by
    simp only [List.foldl_cons]
    apply set_compression_calls_range cs
    · show 0 ≤ (t.set_compression c).1
      rw [set_compression_fst]
      omega
    · show (t.set_compression c).1 ≤ 9
      rw [set_compression_fst]
      omega

/-- C21: `set_compression(c)` returns and stores `max(0, min(9, c))` and writes no other
member; calling it again on the returned value returns that value; after any sequence
of calls on a default-constructed tree `compression()` lies in `0..9`; and the reads
leave the stored level as it is. -/
theorem C21_set_compression (E : Engine) (repair : Str → Str) (t : XMLTree) (c : Int) :
    (t.set_compression c).1 = max 0 (min 9 c) ∧
    (t.set_compression c).2.compression = max 0 (min 9 c) ∧
    (t.set_compression c).2.m_filename = t.m_filename ∧
    (t.set_compression c).2.m_root = t.m_root ∧
    (t.set_compression c).2.m_doc = t.m_doc ∧
    ((t.set_compression c).2.set_compression (t.set_compression c).1).1
      = (t.set_compression c).1 ∧
    (∀ cs : List Int,
      0 ≤ (cs.foldl (fun u c => (u.set_compression c).2)
        XMLTree.default_members).compression ∧
      (cs.foldl (fun u c => (u.set_compression c).2)
        XMLTree.default_members).compression ≤ 9) ∧
    (∀ v, (t.read_internal E repair v).2.m_compression = t.m_compression) ∧
    (∀ b k, (t.read_buffer E repair b k).2.m_compression = t.m_compression) := by
  refine ⟨set_compression_fst t c, set_compression_fst t c, rfl, rfl, rfl, ?_, ?_, ?_, ?_⟩
  · rw [set_compression_fst, set_compression_fst]
    omega
  · intro cs
    exact set_compression_calls_range cs _ (by decide) (by decide)
  · intro v
    simp only [XMLTree.read_internal]
    split_ifs <;> (try split) <;> rfl
  · intro b k
    simp only [XMLTree.read_buffer]
    split <;> (try split_ifs) <;> rfl

/-! ## Reading a document (C23, C24, C25) -/

/-- What `read_internal` does when the parser gives no document. -/
theorem read_internal_no_document (E : Engine) (repair : Str → Str) (validate : Bool)
    (t : XMLTree)
    (h : E.xmlNewParserCtxt = false ∨
      (E.xmlCtxtReadFile t.m_filename
        (if validate then xmlParserOption.XML_PARSE_DTDVALID
         else xmlParserOption.XML_PARSE_HUGE)).1 = none) :
    t.read_internal E repair validate
      = (Except.ok false, { t with m_root := none, m_doc := none }) := by
  simp only [XMLTree.read_internal]
  by_cases hc : E.xmlNewParserCtxt = false
  · simp [hc]
  · have hp := h.resolve_left hc
    cases validate <;> simp_all

/-- What `read_internal` does when the parser gives a document. -/
theorem read_internal_document (E : Engine) (repair : Str → Str) (validate : Bool)
    (t : XMLTree) (doc : xmlDoc) (valid : Bool)
    (hc : E.xmlNewParserCtxt = true)
    (hp : E.xmlCtxtReadFile t.m_filename
        (if validate then xmlParserOption.XML_PARSE_DTDVALID
         else xmlParserOption.XML_PARSE_HUGE) = (some doc, valid)) :
    t.read_internal E repair validate
      = if validate = true ∧ valid = false then
          (Except.error ⟨ascii "Failed to validate document " ++ t.m_filename⟩,
            { t with m_root := none, m_doc := some ⟨doc, false⟩ })
        else
          (Except.ok true,
            { t with m_root := some (readnode repair doc.children),
                     m_doc := some ⟨doc, false⟩ }) := by
  simp only [XMLTree.read_internal]
  cases validate <;> cases valid <;> simp_all [xmlDocGetRootElement]

/-- C23: when the parser returns no document (no parser context, or no document from
`xmlCtxtReadFile`), each of `read()`, `read(filename)`, `read_and_validate()` and
`read_and_validate(filename)` returns false and leaves the tree with a null root and a
null raw handle, whatever the tree held before. -/
theorem C23_read_without_document (E : Engine) (repair : Str → Str) (t : XMLTree)
    (fn : Str) :
    ((E.xmlNewParserCtxt = false ∨
        (E.xmlCtxtReadFile t.m_filename xmlParserOption.XML_PARSE_HUGE).1 = none) →
      (t.read E repair).1 = Except.ok false ∧
      (t.read E repair).2.m_root = none ∧ (t.read E repair).2.m_doc = none) ∧
    ((E.xmlNewParserCtxt = false ∨
        (E.xmlCtxtReadFile fn xmlParserOption.XML_PARSE_HUGE).1 = none) →
      (t.read_file E repair fn).1 = Except.ok false ∧
      (t.read_file E repair fn).2.m_root = none ∧
      (t.read_file E repair fn).2.m_doc = none) ∧
    ((E.xmlNewParserCtxt = false ∨
        (E.xmlCtxtReadFile t.m_filename xmlParserOption.XML_PARSE_DTDVALID).1 = none) →
      (t.read_and_validate E repair).1 = Except.ok false ∧
      (t.read_and_validate E repair).2.m_root = none ∧
      (t.read_and_validate E repair).2.m_doc = none) ∧
    ((E.xmlNewParserCtxt = false ∨
        (E.xmlCtxtReadFile fn xmlParserOption.XML_PARSE_DTDVALID).1 = none) →
      (t.read_and_validate_file E repair fn).1 = Except.ok false ∧
      (t.read_and_validate_file E repair fn).2.m_root = none ∧
      (t.read_and_validate_file E repair fn).2.m_doc = none) := by
  refine ⟨?_, ?_, ?_, ?_⟩ <;> intro h
  · rw [XMLTree.read, read_internal_no_document E repair false t (by simpa using h)]
    exact ⟨rfl, rfl, rfl⟩
  · rw [XMLTree.read_file,
      read_internal_no_document E repair false _ (by simpa [XMLTree.set_filename] using h)]
    exact ⟨rfl, rfl, rfl⟩
  · rw [XMLTree.read_and_validate,
      read_internal_no_document E repair true t (by simpa using h)]
    exact ⟨rfl, rfl, rfl⟩
  · rw [XMLTree.read_and_validate_file,
      read_internal_no_document E repair true _ (by simpa [XMLTree.set_filename] using h)]
    exact ⟨rfl, rfl, rfl⟩

/-- C24: a file read (`read_internal(validate)`, which `read` calls with false and
`read_and_validate` with true) throws exactly when validation was requested, the parser
returned a document and `ctxt->valid` is false after the parse; without validation it
never throws; and when the parser returns no document it returns false, with or without
validation. -/
theorem C24_read_throws (E : Engine) (repair : Str → Str) (validate : Bool)
    (t : XMLTree) :
    ((∃ e, (t.read_internal E repair validate).1 = Except.error e) ↔
      (validate = true ∧ E.xmlNewParserCtxt = true ∧
        ∃ doc, E.xmlCtxtReadFile t.m_filename xmlParserOption.XML_PARSE_DTDVALID
          = (some doc, false))) ∧
    (∀ e, (t.read_internal E repair false).1 ≠ Except.error e) ∧
    ((E.xmlNewParserCtxt = false ∨
        (E.xmlCtxtReadFile t.m_filename
          (if validate then xmlParserOption.XML_PARSE_DTDVALID
           else xmlParserOption.XML_PARSE_HUGE)).1 = none) →
      (t.read_internal E repair validate).1 = Except.ok false) ∧
    t.read E repair = t.read_internal E repair false ∧
    t.read_and_validate E repair = t.read_internal E repair true := by
  have key : ∀ v : Bool, (∃ e, (t.read_internal E repair v).1 = Except.error e) ↔
      (v = true ∧ E.xmlNewParserCtxt = true ∧
        ∃ doc, E.xmlCtxtReadFile t.m_filename xmlParserOption.XML_PARSE_DTDVALID
          = (some doc, false)) := by
    intro v
    by_cases hc : E.xmlNewParserCtxt = false
    · rw [read_internal_no_document E repair v t (Or.inl hc)]
      simp [hc]
    · have hc' : E.xmlNewParserCtxt = true := by simpa using hc
      rcases hp : E.xmlCtxtReadFile t.m_filename
          (if v then xmlParserOption.XML_PARSE_DTDVALID
           else xmlParserOption.XML_PARSE_HUGE) with ⟨d, valid⟩
      cases d with
      | none =>
        rw [read_internal_no_document E repair v t (Or.inr (by rw [hp]))]
        cases v
        · simp
        · simp only [if_true] at hp
          simp [hp]
      | some doc =>
        rw [read_internal_document E repair v t doc valid hc' hp]
        cases v
        · simp
        · simp only [if_true] at hp
          cases valid <;> simp [hp, hc']
  refine ⟨key validate, ?_, ?_, rfl, rfl⟩
  · intro e he
    have := (key false).mp ⟨e, he⟩
    simp at this
  · intro h
    rw [read_internal_no_document E repair validate t h]

/-- C26: two trees with the same root and the same compression level build the same
document in `write()` and `write_buffer()`, whatever their raw handles are, so
`write_buffer()` gives the same bytes and, with the same file name, `write()` and
`write(fn)` give the same result; `write(fn)` leaves the raw handle and the root of the
tree as they were. -/
theorem C26_write_uses_root_only (E : Engine) (t1 t2 : XMLTree) (fn : Str)
    (hroot : t1.m_root = t2.m_root) (hcomp : t1.m_compression = t2.m_compression) :
    t1.write_doc E = t2.write_doc E ∧
    t1.write_buffer E = t2.write_buffer E ∧
    (t1.m_filename = t2.m_filename → t1.write E = t2.write E) ∧
    (t1.write_file E fn).1 = (t2.write_file E fn).1 ∧
    (t1.write_file E fn).2.m_doc = t1.m_doc ∧
    (t1.write_file E fn).2.m_root = t1.m_root := by
  have hdoc : t1.write_doc E = t2.write_doc E := by
    simp only [XMLTree.write_doc, hroot, hcomp]
  have hdoc' : ∀ u1 u2 : XMLTree, u1.m_root = u2.m_root →
      u1.m_compression = u2.m_compression → u1.write_doc E = u2.write_doc E := by
    intro u1 u2 h1 h2
    simp only [XMLTree.write_doc, h1, h2]
  refine ⟨hdoc, ?_, ?_, ?_, rfl, rfl⟩
  · simp only [XMLTree.write_buffer, hdoc]
  · intro hf
    simp only [XMLTree.write, hdoc, hf]
  · simp only [XMLTree.write_file, XMLTree.write, XMLTree.set_filename]
    rw [hdoc' { t1 with m_filename := fn } { t2 with m_filename := fn } hroot hcomp]

/-- C26 at two trees with the root `<r/>` and level 3, one without a raw handle and one
holding the document `<old/>`. -/
theorem C26_write_uses_root_only_witness :
    (⟨[102], some (XMLNode.ctor [114]), none, 3⟩ : XMLTree).m_root
      = (⟨[102], some (XMLNode.ctor [114]),
        some ⟨⟨xml_version, none, xmlNewNode [111, 108, 100]⟩, false⟩, 3⟩ : XMLTree).m_root ∧
    (⟨[102], some (XMLNode.ctor [114]), none, 3⟩ : XMLTree).m_compression
      = (⟨[102], some (XMLNode.ctor [114]),
        some ⟨⟨xml_version, none, xmlNewNode [111, 108, 100]⟩, false⟩, 3⟩ : XMLTree).m_compression ∧
    (XMLTree.write_doc (Engine.fixed true (none, false) none 7 [60, 114, 47, 62] none)
        (⟨[102], some (XMLNode.ctor [114]), none, 3⟩ : XMLTree)
      = XMLTree.write_doc (Engine.fixed true (none, false) none 7 [60, 114, 47, 62] none)
        (⟨[102], some (XMLNode.ctor [114]),
        some ⟨⟨xml_version, none, xmlNewNode [111, 108, 100]⟩, false⟩, 3⟩ : XMLTree) ∧
    XMLTree.write_buffer (Engine.fixed true (none, false) none 7 [60, 114, 47, 62] none)
        (⟨[102], some (XMLNode.ctor [114]), none, 3⟩ : XMLTree)
      = XMLTree.write_buffer (Engine.fixed true (none, false) none 7 [60, 114, 47, 62] none)
        (⟨[102], some (XMLNode.ctor [114]),
        some ⟨⟨xml_version, none, xmlNewNode [111, 108, 100]⟩, false⟩, 3⟩ : XMLTree) ∧
    ((⟨[102], some (XMLNode.ctor [114]), none, 3⟩ : XMLTree).m_filename
        = (⟨[102], some (XMLNode.ctor [114]),
        some ⟨⟨xml_version, none, xmlNewNode [111, 108, 100]⟩, false⟩, 3⟩ : XMLTree).m_filename →
      XMLTree.write (Engine.fixed true (none, false) none 7 [60, 114, 47, 62] none)
          (⟨[102], some (XMLNode.ctor [114]), none, 3⟩ : XMLTree)
        = XMLTree.write (Engine.fixed true (none, false) none 7 [60, 114, 47, 62] none)
          (⟨[102], some (XMLNode.ctor [114]),
        some ⟨⟨xml_version, none, xmlNewNode [111, 108, 100]⟩, false⟩, 3⟩ : XMLTree)) ∧
    (XMLTree.write_file (Engine.fixed true (none, false) none 7 [60, 114, 47, 62] none)
        (⟨[102], some (XMLNode.ctor [114]), none, 3⟩ : XMLTree) [103]).1
      = (XMLTree.write_file (Engine.fixed true (none, false) none 7 [60, 114, 47, 62] none)
        (⟨[102], some (XMLNode.ctor [114]),
        some ⟨⟨xml_version, none, xmlNewNode [111, 108, 100]⟩, false⟩, 3⟩ : XMLTree) [103]).1 ∧
    (XMLTree.write_file (Engine.fixed true (none, false) none 7 [60, 114, 47, 62] none)
        (⟨[102], some (XMLNode.ctor [114]), none, 3⟩ : XMLTree) [103]).2.m_doc
      = (⟨[102], some (XMLNode.ctor [114]), none, 3⟩ : XMLTree).m_doc ∧
    (XMLTree.write_file (Engine.fixed true (none, false) none 7 [60, 114, 47, 62] none)
        (⟨[102], some (XMLNode.ctor [114]), none, 3⟩ : XMLTree) [103]).2.m_root
      = (⟨[102], some (XMLNode.ctor [114]), none, 3⟩ : XMLTree).m_root) :=
  ⟨rfl, rfl,
    C26_write_uses_root_only
      (Engine.fixed true (none, false) none 7 [60, 114, 47, 62] none)
      (⟨[102], some (XMLNode.ctor [114]), none, 3⟩ : XMLTree)
      (⟨[102], some (XMLNode.ctor [114]),
        some ⟨⟨xml_version, none, xmlNewNode [111, 108, 100]⟩, false⟩, 3⟩ : XMLTree)
      [103] rfl rfl⟩

/-! ## Path queries (C27, C28, C29) -/

/-- C27: with a scope node `n`, the outcome of `find(x, n)` (the result list or the
exception) is the outcome of `find_impl` on the new document built from `n` alone; it
is the same on any two trees, and the tree is left as it was. -/
theorem C27_scoped_find (E : Engine) (repair : Str → Str) (t1 t2 : XMLTree) (x : Str)
    (n : XMLNode) :
    (t1.find E repair x (some n)).1 = (t2.find E repair x (some n)).1 ∧
    (t1.find E repair x (some n)).1
      = (find_impl E repair (some ⟨xml_version, none, writenode E n⟩) x).1 ∧
    (t1.find E repair x (some n)).2 = t1 :=
  ⟨rfl, rfl, rfl⟩

/-- An unscoped `find` whose evaluation does not give a node-set throws and leaves the
tree holding a pointer to its document, which has been freed. -/
theorem find_unscoped_frees_document (E : Engine) (repair : Str → Str) (t : XMLTree)
    (x : Str) (doc : xmlDoc) (r : xmlXPathObject)
    (hdoc : t.m_doc = some ⟨doc, false⟩)
    (heval : E.xmlXPathEval x (some doc) = some r)
    (htype : r.type ≠ xmlXPathObjectType.XPATH_NODESET) :
    t.find E repair x none
      = (Except.error ⟨ascii "Only nodeset result types are supported."⟩,
          { t with m_doc := some ⟨doc, true⟩ }) := by
  simp [XMLTree.find, find_impl, hdoc, heval, htype]

/-- C28 at the failing input: on a tree that holds the document `<r/>`, with an engine
whose evaluation of the expression `1+1` gives a number, the unscoped `find` throws and
the raw handle of the tree afterwards points to a freed document; the scoped `find` on
the node `<r/>` throws as well and leaves the tree as it was. -/
theorem C28_find_frees_tree_document :
    XMLTree.find
        (Engine.fixed true (none, false) none 0 []
          (some ⟨xmlXPathObjectType.XPATH_NUMBER, none⟩))
        replace_invalid
        ⟨[], some (XMLNode.ctor [114]),
          some ⟨⟨xml_version, none, xmlNewNode [114]⟩, false⟩, 0⟩
        [49, 43, 49] none
      = (Except.error ⟨ascii "Only nodeset result types are supported."⟩,
          ⟨[], some (XMLNode.ctor [114]),
            some ⟨⟨xml_version, none, xmlNewNode [114]⟩, true⟩, 0⟩) ∧
    XMLTree.find
        (Engine.fixed true (none, false) none 0 []
          (some ⟨xmlXPathObjectType.XPATH_NUMBER, none⟩))
        replace_invalid
        ⟨[], some (XMLNode.ctor [114]),
          some ⟨⟨xml_version, none, xmlNewNode [114]⟩, false⟩, 0⟩
        [49, 43, 49] (some (XMLNode.ctor [114]))
      = (Except.error ⟨ascii "Only nodeset result types are supported."⟩,
          ⟨[], some (XMLNode.ctor [114]),
            some ⟨⟨xml_version, none, xmlNewNode [114]⟩, false⟩, 0⟩) :=
  ⟨find_unscoped_frees_document _ _ _ _ _ ⟨xmlXPathObjectType.XPATH_NUMBER, none⟩ rfl rfl
      (by decide),
    rfl⟩

/-- C29: `find(x, node)` gives the outcome of `find_impl` on the context document (the
new document built from the scope node, or the document of the tree).  When the engine
returns a node-set object, the result is a list with one node for each node of the set,
the `i`-th being `readnode` of the `i`-th node of the set; with a null `nodesetval` it
is the empty list; when the engine returns no object, an exception is thrown. -/
theorem C29_find_results (E : Engine) (repair : Str → Str) (t : XMLTree) (x : Str)
    (n : XMLNode) (doc : Option xmlDoc) :
    (t.find E repair x (some n)).1
      = (find_impl E repair (some ⟨xml_version, none, writenode E n⟩) x).1 ∧
    (t.find E repair x none).1
      = (find_impl E repair (match t.m_doc with
          | some p => some p.doc
          | none => none) x).1 ∧
    (∀ r nodes, E.xmlXPathEval x doc = some r →
      r.type = xmlXPathObjectType.XPATH_NODESET → r.nodesetval = some nodes →
      ∃ l, (find_impl E repair doc x).1 = Except.ok l ∧ l.length = nodes.length ∧
        ∀ (i : Nat) (raw : xmlNode), nodes[i]? = some raw →
          l[i]? = some (readnode repair raw)) ∧
    (∀ r, E.xmlXPathEval x doc = some r →
      r.type = xmlXPathObjectType.XPATH_NODESET → r.nodesetval = none →
      (find_impl E repair doc x).1 = Except.ok []) ∧
    (E.xmlXPathEval x doc = none →
      (find_impl E repair doc x).1 = Except.error ⟨ascii "Invalid XPath: " ++ x⟩) := by
  refine ⟨rfl, rfl, ?_, ?_, ?_⟩
  · intro r nodes h1 h2 h3
    refine ⟨nodes.map (readnode repair), ?_, by simp, ?_⟩
    · simp [find_impl, h1, h2, h3]
    · intro i raw hi
      simp [List.getElem?_map, hi]
  · intro r h1 h2 h3
    simp [find_impl, h1, h2, h3]
  · intro h
    simp [find_impl, h]

/-! ## Attributes in a query result (C30) -/

/-- C30, as stated, fails for an attribute with an empty value: the node that `readnode`
makes for the attribute `Value=""` has a child in element mode, and for an attribute
without a text child it has no child; `attribute_value()` throws in both cases. -/
theorem C30_counterexample :
    (readnode replace_invalid (xmlAttributeNode [86] [])).attribute_value.1
      = Except.error
          ⟨ascii ("XMLNode: attribute_value failed (!child->is_content()) "
              ++ "for requested node: ") ++ [86]⟩ ∧
    (readnode replace_invalid
        (xmlNode.mk xmlElementType.XML_ATTRIBUTE_NODE (some [86]) none []
          [])).attribute_value.1
      = Except.error
          ⟨ascii "XMLNode: attribute_value failed (children.size != 1) for requested node: "
            ++ [86]⟩ :=
  ⟨rfl, rfl⟩

/-- C30 (amended): the node that `find` materialises for an attribute is an element-mode
node named after the attribute.  For an attribute with a non-empty value it has the value
as its single content child, and `attribute_value()` returns the value without throwing.
For an attribute with an empty value `attribute_value()` throws, whether the attribute
has a text child with empty content or no child at all. -/
theorem C30_attribute_value_of_attribute (repair : Str → Str) (k v : Str) :
    (v ≠ [] →
      (readnode repair (xmlAttributeNode k v)).is_content = false ∧
      (readnode repair (xmlAttributeNode k v)).name = k ∧
      (readnode repair (xmlAttributeNode k v)).children
        = [XMLNode.mk (ascii "text") true v [] []] ∧
      (readnode repair (xmlAttributeNode k v)).attribute_value.1 = Except.ok v) ∧
    (readnode repair (xmlAttributeNode k [])).is_content = false ∧
    (readnode repair (xmlAttributeNode k [])).name = k ∧
    (readnode repair (xmlAttributeNode k [])).attribute_value.1
      = Except.error
          ⟨ascii ("XMLNode: attribute_value failed (!child->is_content()) "
              ++ "for requested node: ") ++ k⟩ ∧
    (readnode repair
        (xmlNode.mk xmlElementType.XML_ATTRIBUTE_NODE (some k) none [] [])).is_content
      = false ∧
    (readnode repair
        (xmlNode.mk xmlElementType.XML_ATTRIBUTE_NODE (some k) none [] [])).name = k ∧
    (readnode repair
        (xmlNode.mk xmlElementType.XML_ATTRIBUTE_NODE (some k) none [] [])).attribute_value.1
      = Except.error
          ⟨ascii "XMLNode: attribute_value failed (children.size != 1) for requested node: "
            ++ k⟩ := by
  refine ⟨?_, rfl, rfl, rfl, rfl, rfl, rfl⟩
  intro hv
  have he : v.isEmpty = false := by cases v <;> simp at hv ⊢
  have hnode : readnode repair (xmlAttributeNode k v)
      = XMLNode.mk k false [] [XMLNode.mk (ascii "text") true v [] []] [] := by
    simp [xmlAttributeNode, readnode, readnode_children, readnode_properties,
      XMLNode.ctor, XMLNode.set_content, XMLNode.add_child_nocopy, he]
  rw [hnode]
  exact ⟨rfl, rfl, rfl, rfl⟩

/-- C30 (amended) at the attribute `Value="1"`. -/
theorem C30_attribute_value_of_attribute_witness :
    ([49] : Str) ≠ [] ∧
    (readnode replace_invalid (xmlAttributeNode [86] [49])).is_content = false ∧
    (readnode replace_invalid (xmlAttributeNode [86] [49])).name = [86] ∧
    (readnode replace_invalid (xmlAttributeNode [86] [49])).children
      = [XMLNode.mk (ascii "text") true [49] [] []] ∧
    (readnode replace_invalid (xmlAttributeNode [86] [49])).attribute_value.1
      = Except.ok [49] :=
  ⟨by decide, (C30_attribute_value_of_attribute replace_invalid [86] [49]).1 (by decide)⟩

/-! ## The round trip through the engine (C22) -/

/-- C22 at the failing input: the root `<r>` with the child `XMLNode("x", "")`, a content
node with empty content appended by `add_child_nocopy`.  When the parser returns, for
the bytes that `write_buffer()` gave, the document that was written, `read_buffer`
succeeds and its root is not `==` to the original root: the child comes back in element
mode. -/
theorem C22_round_trip_empty_content (E : Engine) (repair : Str → Str) (t : XMLTree)
    (buffer : Str) (to_tree_doc : Bool)
    (hroot : t.m_root
      = some ((XMLNode.ctor [114]).add_child_nocopy (XMLNode.ctor_content [120] [])))
    (_hwrite : t.write_buffer E = some buffer)
    (hparse : E.xmlParseMemory buffer = t.write_doc E) :
    (t.read_buffer E repair buffer to_tree_doc).1 = true ∧
    (t.read_buffer E repair buffer to_tree_doc).2.m_root
      = some (XMLNode.mk [114] false [] [XMLNode.mk [120] false [] [] []] []) ∧
    XMLNode.operator_eq (XMLNode.mk [114] false [] [XMLNode.mk [120] false [] [] []] [])
      ((XMLNode.ctor [114]).add_child_nocopy (XMLNode.ctor_content [120] [])) = false := by
  have hdoc : t.write_doc E = some ⟨xml_version, some t.m_compression,
      xmlNode.mk xmlElementType.XML_ELEMENT_NODE (some [114]) none []
        [xmlNode.mk xmlElementType.XML_TEXT_NODE (some [120]) (some []) [] []]⟩ := by
    simp [XMLTree.write_doc, hroot, XMLNode.ctor, XMLNode.ctor_content,
      XMLNode.add_child_nocopy, writenode, writenode_children, writenode_properties,
      xmlNewNode, xmlNodeSetContentLen, xmlNode.add_children]
  rw [hdoc] at hparse
  refine ⟨?_, ?_, by decide⟩
  · cases to_tree_doc <;> simp [XMLTree.read_buffer, hparse]
  · cases to_tree_doc <;>
    simp [XMLTree.read_buffer, hparse, xmlDocGetRootElement, readnode, readnode_children,
      readnode_properties, XMLNode.ctor, XMLNode.set_content, XMLNode.add_child_nocopy]

/-- C22 at the failing input, for a tree with that root and an engine that returns the
document that was written. -/
theorem C22_round_trip_empty_content_witness :
    (⟨[], some ((XMLNode.ctor [114]).add_child_nocopy (XMLNode.ctor_content [120] [])),
          none, 0⟩ : XMLTree).m_root
      = some ((XMLNode.ctor [114]).add_child_nocopy (XMLNode.ctor_content [120] [])) ∧
    XMLTree.write_buffer
        (Engine.fixed true (none, false)
          (some ⟨xml_version, some 0,
            xmlNode.mk xmlElementType.XML_ELEMENT_NODE (some [114]) none []
              [xmlNode.mk xmlElementType.XML_TEXT_NODE (some [120]) (some []) [] []]⟩)
          0 [60, 114, 47, 62] none)
        (⟨[], some ((XMLNode.ctor [114]).add_child_nocopy (XMLNode.ctor_content [120] [])),
          none, 0⟩ : XMLTree)
      = some [60, 114, 47, 62] ∧
    Engine.xmlParseMemory
        (Engine.fixed true (none, false)
          (some ⟨xml_version, some 0,
            xmlNode.mk xmlElementType.XML_ELEMENT_NODE (some [114]) none []
              [xmlNode.mk xmlElementType.XML_TEXT_NODE (some [120]) (some []) [] []]⟩)
          0 [60, 114, 47, 62] none)
        [60, 114, 47, 62]
      = XMLTree.write_doc
        (Engine.fixed true (none, false)
          (some ⟨xml_version, some 0,
            xmlNode.mk xmlElementType.XML_ELEMENT_NODE (some [114]) none []
              [xmlNode.mk xmlElementType.XML_TEXT_NODE (some [120]) (some []) [] []]⟩)
          0 [60, 114, 47, 62] none)
        (⟨[], some ((XMLNode.ctor [114]).add_child_nocopy (XMLNode.ctor_content [120] [])),
          none, 0⟩ : XMLTree) ∧
    ((XMLTree.read_buffer
        (Engine.fixed true (none, false)
          (some ⟨xml_version, some 0,
            xmlNode.mk xmlElementType.XML_ELEMENT_NODE (some [114]) none []
              [xmlNode.mk xmlElementType.XML_TEXT_NODE (some [120]) (some []) [] []]⟩)
          0 [60, 114, 47, 62] none)
        replace_invalid
        (⟨[], some ((XMLNode.ctor [114]).add_child_nocopy (XMLNode.ctor_content [120] [])),
          none, 0⟩ : XMLTree)
        [60, 114, 47, 62] false).1 = true ∧
    (XMLTree.read_buffer
        (Engine.fixed true (none, false)
          (some ⟨xml_version, some 0,
            xmlNode.mk xmlElementType.XML_ELEMENT_NODE (some [114]) none []
              [xmlNode.mk xmlElementType.XML_TEXT_NODE (some [120]) (some []) [] []]⟩)
          0 [60, 114, 47, 62] none)
        replace_invalid
        (⟨[], some ((XMLNode.ctor [114]).add_child_nocopy (XMLNode.ctor_content [120] [])),
          none, 0⟩ : XMLTree)
        [60, 114, 47, 62] false).2.m_root
      = some (XMLNode.mk [114] false [] [XMLNode.mk [120] false [] [] []] []) ∧
    XMLNode.operator_eq (XMLNode.mk [114] false [] [XMLNode.mk [120] false [] [] []] [])
      ((XMLNode.ctor [114]).add_child_nocopy (XMLNode.ctor_content [120] [])) = false) :=
  ⟨rfl, rfl, rfl,
    C22_round_trip_empty_content
      (Engine.fixed true (none, false)
          (some ⟨xml_version, some 0,
            xmlNode.mk xmlElementType.XML_ELEMENT_NODE (some [114]) none []
              [xmlNode.mk xmlElementType.XML_TEXT_NODE (some [120]) (some []) [] []]⟩)
          0 [60, 114, 47, 62] none)
      replace_invalid
      (⟨[], some ((XMLNode.ctor [114]).add_child_nocopy (XMLNode.ctor_content [120] [])),
          none, 0⟩ : XMLTree)
      [60, 114, 47, 62] false rfl rfl rfl⟩

/-! ## The empty filter of `children` (C38) -/

/-- With vectors of equal size, the property loop of `operator ==` succeeds exactly when
the two vectors hold the same properties. -/
theorem props_loop_eq_iff : ∀ (ps qs : List XMLProperty), ps.length = qs.length →
    (XMLNode.props_loop ps qs = true ↔ ps = qs)
  | [], [], _ => by simp [XMLNode.props_loop]
  | [], _ :: _, h => by simp at h
  | _ :: _, [], h => by simp at h
  | p :: ps, q :: qs, h => by
    have ih := props_loop_eq_iff ps qs (by simpa using h)
    cases p with
    | mk pn pv =>
    cases q with
    | mk qn qv =>
    by_cases hpq : pn = qn ∧ pv = qv
    · rcases hpq with ⟨rfl, rfl⟩
      simp [XMLNode.props_loop, XMLProperty.name, XMLProperty.value, ih]
    · have hne : pn ≠ qn ∨ pv ≠ qv := by
        by_contra hcon
        push_neg at hcon
        exact hpq hcon
      simp only [XMLNode.props_loop, XMLProperty.name, XMLProperty.value, hne, if_true]
      simp only [List.cons.injEq, XMLProperty.mk.injEq]
      constructor
      · intro hf
        cases hf
      · rintro ⟨hh, _⟩
        exact (hpq hh).elim

/-- The tests of `operator ==` that follow the test of the name or the content. -/
theorem operator_eq_tail_iff (ch1 ch2 : List XMLNode) (pl1 pl2 : List XMLProperty) :
    (if pl1.length ≠ pl2.length then false
      else if !(XMLNode.props_loop pl1 pl2) then false
      else if ch1.length ≠ ch2.length then false
      else XMLNode.children_loop ch1 ch2) = true ↔
      pl1 = pl2 ∧ ch1.length = ch2.length ∧
      ∀ (i : Nat) (x y : XMLNode), ch1[i]? = some x → ch2[i]? = some y →
        XMLNode.operator_eq x y = true := by
  by_cases hpl : pl1.length = pl2.length
  swap
  · have : pl1 ≠ pl2 := fun h => hpl (by rw [h])
    simp [hpl, this]
  by_cases hpp : XMLNode.props_loop pl1 pl2 = true
  swap
  · have : pl1 ≠ pl2 := fun h => hpp ((props_loop_eq_iff pl1 pl2 hpl).mpr h)
    simp [hpl, hpp, this]
  have hpe : pl1 = pl2 := (props_loop_eq_iff pl1 pl2 hpl).mp hpp
  by_cases hch : ch1.length = ch2.length
  swap
  · simp [hpl, hpp, hch]
  have := XMLNode.children_loop_iff ch1 ch2 hch
  simp only [hpl, hpp, hch, ne_eq, not_true_eq_false, if_false, Bool.not_true,
    Bool.false_eq_true, this]
  constructor
  · intro h
    exact ⟨hpe, trivial, h⟩
  · rintro ⟨_, _, h⟩
    exact h

/-- The result of `operator ==` on two nodes, test by test. -/
theorem operator_eq_mk_iff (n1 c1 n2 c2 : Str) (ic1 ic2 : Bool)
    (ch1 ch2 : List XMLNode) (pl1 pl2 : List XMLProperty) :
    XMLNode.operator_eq (XMLNode.mk n1 ic1 c1 ch1 pl1) (XMLNode.mk n2 ic2 c2 ch2 pl2) = true ↔
      ic1 = ic2 ∧ (if ic1 = true then c1 = c2 else n1 = n2) ∧ pl1 = pl2 ∧
      ch1.length = ch2.length ∧
      ∀ (i : Nat) (x y : XMLNode), ch1[i]? = some x → ch2[i]? = some y →
        XMLNode.operator_eq x y = true := by
  have ht := operator_eq_tail_iff ch1 ch2 pl1 pl2
  cases ic1 <;> cases ic2
  · by_cases hn : n1 = n2
    · simp only [XMLNode.operator_eq, hn, ne_eq, not_true_eq_false, if_false,
        Bool.false_eq_true, true_and]
      exact ht
    · simp [XMLNode.operator_eq, hn]
  · simp [XMLNode.operator_eq]
  · simp [XMLNode.operator_eq]
  · by_cases hc : c1 = c2
    · simp only [XMLNode.operator_eq, hc, ne_eq, not_true_eq_false, if_false, if_true,
        true_and]
      exact ht
    · simp [XMLNode.operator_eq, hc]

/-- The relation `==` is symmetric. -/
theorem operator_eq_symm : ∀ (a b : XMLNode),
    XMLNode.operator_eq a b = true → XMLNode.operator_eq b a = true := by
  refine XMLNode.tree_induction _ ?_
  intro n1 ic1 c1 ch1 pl1 ih b hab
  cases b with
  | mk n2 ic2 c2 ch2 pl2 =>
  rw [operator_eq_mk_iff] at hab ⊢
  rcases hab with ⟨hic, hcn, hpl, hlen, hch⟩
  subst hic
  refine ⟨rfl, ?_, hpl.symm, hlen.symm, ?_⟩
  · cases ic1 <;> simpa using (by simpa using hcn : _ = _).symm
  · intro i y x hy hx
    exact ih x (List.getElem?_mem hx) y (hch i x y hx hy)

/-- The relation `==` is transitive. -/
theorem operator_eq_trans : ∀ (a b c : XMLNode),
    XMLNode.operator_eq a b = true → XMLNode.operator_eq b c = true →
      XMLNode.operator_eq a c = true := by
  refine XMLNode.tree_induction _ ?_
  intro n1 ic1 c1 ch1 pl1 ih b c hab hbc
  cases b with
  | mk n2 ic2 c2 ch2 pl2 =>
  cases c with
  | mk n3 ic3 c3 ch3 pl3 =>
  rw [operator_eq_mk_iff] at hab hbc ⊢
  rcases hab with ⟨hic, hcn, hpl, hlen, hch⟩
  rcases hbc with ⟨hic2, hcn2, hpl2, hlen2, hch2⟩
  subst hic; subst hic2
  refine ⟨rfl, ?_, hpl.trans hpl2, hlen.trans hlen2, ?_⟩
  · cases ic1
    · simp only [Bool.false_eq_true, if_false] at hcn hcn2 ⊢
      exact hcn.trans hcn2
    · simp only [if_true] at hcn hcn2 ⊢
      exact hcn.trans hcn2
  · intro i x z hx hz
    have hi : i < ch2.length := by
      have := (List.getElem?_eq_some_iff.mp hx).1
      omega
    have hy : ch2[i]? = some ch2[i] := List.getElem?_eq_getElem hi
    exact ih x (List.getElem?_mem hx) _ z (hch i x _ hx hy) (hch2 i _ z hy hz)

/-- C36: `operator ==` is an equivalence relation on node trees of any mode, with any
children and properties: it is reflexive, symmetric and transitive; and `a != b` is the
negation of `a == b`. -/
theorem C36_operator_eq_equivalence :
    (∀ a : XMLNode, XMLNode.operator_eq a a = true) ∧
    (∀ a b : XMLNode, XMLNode.operator_eq a b = true → XMLNode.operator_eq b a = true) ∧
    (∀ a b c : XMLNode, XMLNode.operator_eq a b = true → XMLNode.operator_eq b c = true →
      XMLNode.operator_eq a c = true) ∧
    (∀ a b : XMLNode, XMLNode.operator_ne a b = !(XMLNode.operator_eq a b)) ∧
    (∀ a b : XMLNode, XMLNode.operator_eq a b = XMLNode.operator_eq b a) := by
  refine ⟨operator_eq_refl, operator_eq_symm, operator_eq_trans, fun _ _ => rfl, ?_⟩
  intro a b
  cases hab : XMLNode.operator_eq a b with
  | true => exact (operator_eq_symm a b hab).symm
  | false =>
    cases hba : XMLNode.operator_eq b a with
    | false => rfl
    | true => rw [operator_eq_symm b a hba] at hab; cases hab

/-! ## Copies of well-formed trees (C37) -/

/-- C37: in a tree where, at every node, `is_content` holds exactly when the content is
not empty, every stored property value is a fixed point of the repair function and the
property names are unique, the copy `XMLNode(a)` is the same tree as `a` (same name, mode
and content, same properties and same children in the same order, at every depth), and so
`XMLNode(a) == a`. -/
theorem C37_copy_is_identical (repair : Str → Str) (a : XMLNode)
    (h : ∀ d ∈ a.subtree,
      mode_matches_content d ∧ values_repaired repair d ∧ names_unique d) :
    XMLNode.ctor_copy repair a = a ∧
    (XMLNode.ctor_copy repair a).name = a.name ∧
    (XMLNode.ctor_copy repair a).is_content = a.is_content ∧
    (XMLNode.ctor_copy repair a).content = a.content ∧
    (XMLNode.ctor_copy repair a).properties = a.properties ∧
    (XMLNode.ctor_copy repair a).children = a.children ∧
    XMLNode.operator_eq (XMLNode.ctor_copy repair a) a = true := by
  have hcopy : XMLNode.ctor_copy repair a = a :=
    ctor_copy_eq_self repair a (fun d hd => ⟨(h d hd).1, (h d hd).2.2, (h d hd).2.1⟩)
  rw [hcopy]
  exact ⟨rfl, rfl, rfl, rfl, rfl, rfl, operator_eq_refl a⟩

/-- C37 at the tree `<x k="v"><y j="w"/>text</x>`, with the modelled repair function. -/
theorem C37_copy_is_identical_witness :
    (∀ d ∈ (XMLNode.mk [120] false []
        [XMLNode.mk [121] false [] [] [⟨[106], [119]⟩],
          XMLNode.mk [] true [116, 101, 120, 116] [] []] [⟨[107], [118]⟩]).subtree,
      mode_matches_content d ∧ values_repaired replace_invalid d ∧ names_unique d) ∧
    XMLNode.ctor_copy replace_invalid (XMLNode.mk [120] false []
        [XMLNode.mk [121] false [] [] [⟨[106], [119]⟩],
          XMLNode.mk [] true [116, 101, 120, 116] [] []] [⟨[107], [118]⟩])
      = XMLNode.mk [120] false []
        [XMLNode.mk [121] false [] [] [⟨[106], [119]⟩],
          XMLNode.mk [] true [116, 101, 120, 116] [] []] [⟨[107], [118]⟩] :=
  have h : ∀ d ∈ (XMLNode.mk [120] false []
        [XMLNode.mk [121] false [] [] [⟨[106], [119]⟩],
          XMLNode.mk [] true [116, 101, 120, 116] [] []] [⟨[107], [118]⟩]).subtree,
      mode_matches_content d ∧ values_repaired replace_invalid d ∧ names_unique d := by
    intro d hd
    simp only [XMLNode.subtree, XMLNode.subtree_list, List.mem_cons, List.mem_append,
      List.append_nil, List.not_mem_nil, or_false] at hd
    rcases hd with rfl | rfl | rfl <;>
      simp [mode_matches_content, values_repaired, names_unique, XMLNode.is_content,
        XMLNode.content, XMLNode.properties, XMLProperty.value, XMLProperty.name,
        replace_invalid]
  ⟨h, (C37_copy_is_identical replace_invalid _ h).1⟩

/-! ## Unique property names (C35) -/

/-- The loop of `readnode` over the attributes, on the members of the node. -/
theorem readnode_properties_eq (repair : Str → Str) (nm c : Str) (ic : Bool)
    (ch : List XMLNode) : ∀ (attrs : List xmlAttr) (pl : List XMLProperty),
    readnode_properties repair attrs (XMLNode.mk nm ic c ch pl)
      = XMLNode.mk nm ic c ch
          (proplist_assign repair
            (attrs.map (fun attr => XMLProperty.mk attr.name
              (match attr.children with
               | some content => content
               | none => []))) pl)
  | [], _ => rfl
  | attr :: rest, pl => by
    simp only [readnode_properties, set_property_eq, List.map_cons, proplist_assign]
    exact readnode_properties_eq repair nm c ic ch rest _

/-- The loop of `readnode` over the children, on the members of the node. -/
theorem readnode_children_eq (repair : Str → Str) (nm c : Str) (ic : Bool)
    (pl : List XMLProperty) : ∀ (raws : List xmlNode) (ch : List XMLNode),
    readnode_children repair raws (XMLNode.mk nm ic c ch pl)
      = XMLNode.mk nm ic c (ch ++ raws.map (readnode repair)) pl
  | [], ch => by simp [readnode_children]
  | raw :: rest, ch => by
    simp only [readnode_children, XMLNode.add_child_nocopy]
    rw [readnode_children_eq repair nm c ic pl rest]
    simp

/-- The node that `readnode` returns, member by member. -/
theorem readnode_eq (repair : Str → Str) (type : xmlElementType) (name content : Option Str)
    (attrs : List xmlAttr) (raws : List xmlNode) :
    readnode repair (xmlNode.mk type name content attrs raws)
      = XMLNode.mk (match name with
          | some n => n
          | none => [])
          (match content with
           | some c => !c.isEmpty
           | none => false)
          (match content with
           | some c => c
           | none => [])
          (raws.map (readnode repair))
          (proplist_assign repair
            (attrs.map (fun attr => XMLProperty.mk attr.name
              (match attr.children with
               | some content => content
               | none => []))) []) := by
  cases name <;> cases content <;>
    simp [readnode, XMLNode.ctor, readnode_properties_eq, XMLNode.set_content,
      readnode_children_eq]

/-- Induction on raw trees. -/
theorem raw_induction (P : xmlNode → Prop)
    (h : ∀ type name content attrs raws, (∀ x ∈ raws, P x) →
      P (xmlNode.mk type name content attrs raws)) : ∀ a, P a := by
  intro a
  refine xmlNode.rec (motive_1 := P) (motive_2 := fun l => ∀ x ∈ l, P x) ?_ ?_ ?_ a
  · intro type name content attrs raws ih
    exact h type name content attrs raws ih
  · intro x hx
    simp at hx
  · intro hd tl h1 h2 x hx
    rcases List.mem_cons.mp hx with rfl | hx
    · exact h1
    · exact h2 x hx

/-- No node of a tree made by `readnode` holds two properties of the same name. -/
theorem readnode_names_unique (repair : Str → Str) : ∀ (raw : xmlNode),
    ∀ d ∈ (readnode repair raw).subtree, names_unique d := by
  refine raw_induction _ ?_
  intro type name content attrs raws ih
  rw [readnode_eq, XMLNode.forall_subtree_mk]
  constructor
  · simp only [names_unique, XMLNode.properties]
    exact proplist_assign_nodup repair _ [] (by simp)
  · intro x hx
    rcases List.mem_map.mp hx with ⟨y, hy, rfl⟩
    exact ih y hy

/-- The attribute loop of `readnode` is a sequence of calls of `set_property`. -/
theorem readnode_properties_built (repair : Str → Str) : ∀ (attrs : List xmlAttr)
    (tmp : XMLNode), Built repair (fun _ => True) (fun _ _ => True) tmp →
    Built repair (fun _ => True) (fun _ _ => True) (readnode_properties repair attrs tmp)
  | [], _, h => h
  | attr :: rest, tmp, h =>
    readnode_properties_built repair rest _
      (Built.mutate tmp (Mutation.set_property attr.name
          (match attr.children with
           | some content => content
           | none => [])) h trivial
        (fun n hn => by simp [Mutation.arg] at hn))

/-- The child loop of `readnode` is a sequence of calls of `add_child_nocopy`. -/
theorem readnode_children_built (repair : Str → Str) : ∀ (raws : List xmlNode)
    (tmp : XMLNode), Built repair (fun _ => True) (fun _ _ => True) tmp →
    (∀ raw ∈ raws, Built repair (fun _ => True) (fun _ _ => True) (readnode repair raw)) →
    Built repair (fun _ => True) (fun _ _ => True) (readnode_children repair raws tmp)
  | [], _, h, _ => by simpa [readnode_children] using h
  | raw :: rest, tmp, h, hr => by
    simp only [readnode_children]
    refine readnode_children_built repair rest _ ?_ (fun x hx => hr x (by simp [hx]))
    exact Built.mutate tmp (Mutation.add_child_nocopy (readnode repair raw)) h trivial
      (fun n hn => by
        simp only [Mutation.arg, Option.some.injEq] at hn
        subst hn
        exact hr raw (by simp))

/-- Every node that `readnode` returns is a node of the public interface: it is made by
the one-argument constructor, `set_property`, `set_content` and `add_child_nocopy`. -/
theorem readnode_built (repair : Str → Str) : ∀ (raw : xmlNode),
    Built repair (fun _ => True) (fun _ _ => True) (readnode repair raw) := by
  refine raw_induction _ ?_
  intro type name content attrs raws ih
  simp only [readnode]
  refine readnode_children_built repair raws _ ?_ ih
  have h1 := readnode_properties_built repair attrs _
    (Built.ctor (match name with
      | some n => n
      | none => []))
  cases content with
  | none =>
    exact Built.mutate _ (Mutation.set_content []) h1 trivial
      (fun n hn => by simp [Mutation.arg] at hn)
  | some c =>
    exact Built.mutate _ (Mutation.set_content c) h1 trivial
      (fun n hn => by simp [Mutation.arg] at hn)

/-- C35: no node holds two properties of the same name.  This holds at every node of a
tree that the public interface produces: a tree made by a constructor (the copy constructor
included) and changed by any sequence of calls of `set_property`, `remove_property`,
`remove_property_recursively`, `set_content`, `add_content`, `add_child`, `add_child_copy`,
`add_child_nocopy`, the operations that remove nodes, and copy-assignment, at the node or
at any depth below it, the nodes handed to these calls being such trees themselves.  The
trees that `readnode` returns are among them, and so hold no two properties of the same
name either, whatever attributes the raw nodes have. -/
theorem C35_names_unique (repair : Str → Str) :
    (∀ a, Built repair (fun _ => True) (fun _ _ => True) a →
      ∀ d ∈ a.subtree, names_unique d) ∧
    (∀ raw, Built repair (fun _ => True) (fun _ _ => True) (readnode repair raw)) ∧
    (∀ raw, ∀ d ∈ (readnode repair raw).subtree, names_unique d) := by
  refine ⟨?_, readnode_built repair, readnode_names_unique repair⟩
  intro a h d hd
  exact (built_inv repair _ _ False False False (fun hf => hf.elim) (fun hf => hf.elim)
    (fun hf => hf.elim) a h d hd).2.1

/-! ## The diagnostic dump (C31) -/

/-- The child loop of `dump` appends the dumps of the children, one after the other. -/
theorem dump_children_eq (p : Str) : ∀ (l : List XMLNode),
    (∀ x ∈ l, ∀ s q, XMLNode.dump x s q = s ++ XMLNode.dump x [] q) → ∀ (s : Str),
    XMLNode.dump_children l s p = s ++ (l.map (fun c => c.dump [] p)).flatten
  | [], _, s => by simp [XMLNode.dump_children]
  | i :: rest, h, s => by
    simp only [XMLNode.dump_children]
    rw [dump_children_eq p rest (fun x hx => h x (by simp [hx])), h i (by simp) s p]
    simp

/-- A call of `dump` appends to the stream: what it writes does not depend on what was
written before. -/
theorem dump_append : ∀ (a : XMLNode) (s p : Str), a.dump s p = s ++ a.dump [] p := by
  refine XMLNode.tree_induction _ ?_
  intro n ic c ch pl ih s p
  cases ic with
  | true => simp [XMLNode.dump]
  | false =>
    simp only [XMLNode.dump, Bool.false_eq_true, if_false]
    rw [dump_children_eq _ ch ih, dump_children_eq _ ch ih ([] ++ p ++ ascii "<" ++ n ++ ascii ">\n")]
    simp

/-- The bytes that `dump` writes for an element. -/
theorem dump_element (n c : Str) (ch : List XMLNode) (pl : List XMLProperty) (s p : Str) :
    (XMLNode.mk n false c ch pl).dump s p
      = s ++ p ++ ascii "<" ++ n ++ ascii ">\n"
          ++ (ch.map (fun x => x.dump [] (p ++ ascii "  "))).flatten
          ++ p ++ ascii "</" ++ n ++ ascii ">\n" := by
  simp only [XMLNode.dump, Bool.false_eq_true, if_false]
  rw [dump_children_eq _ ch (fun x _ => dump_append x)]

theorem count_flatten_map (f : XMLNode → Str) : ∀ (l : List XMLNode),
    ((l.map f).flatten).count 10 = (l.map (fun x => (f x).count 10)).sum
  | [] => rfl
  | x :: xs => by simp [List.count_append, count_flatten_map f xs]

/-- C31, as stated, fails where a newline byte is part of the content, of the name or of
the prefix: for the content node with content `"a\nb"`, `dump` writes the two lines
`"  a"` and `"b"`; for the element named `"a\nb"` without children, it writes four lines
and not two. -/
theorem C31_counterexample :
    (XMLNode.ctor_content [] [97, 10, 98]).dump [] [] = [32, 32, 97, 10, 98, 10] ∧
    ((XMLNode.ctor_content [] [97, 10, 98]).dump [] []).count 10 = 2 ∧
    (XMLNode.ctor [97, 10, 98]).is_content = false ∧
    (XMLNode.ctor [97, 10, 98]).dump [] []
      = [60, 97, 10, 98, 62, 10, 60, 47, 97, 10, 98, 62, 10] ∧
    ((XMLNode.ctor [97, 10, 98]).dump [] []).count 10 = 4 ∧
    ((XMLNode.ctor [97, 10, 98]).children.map
      (fun c => (c.dump [] (ascii "  ")).count 10)).sum + 2 = 2 := by
  decide

/-- C31 (amended): `dump` appends to the stream, for a content-mode node, the prefix `p`,
two spaces, the content and a newline; for an element-mode node, `p<name>` and a newline,
then what `dump` writes for each child in child order with the prefix `p` plus two
spaces, then `p</name>` and a newline.  The number of newline bytes written for an
element is the number written for its children together, plus two, plus twice the number
of newline bytes in `p` and in the name; so an element writes two lines more than its
children together, and a content node one line, when the prefix, the name and the
content hold no newline byte. -/
theorem C31_dump (a : XMLNode) (s p : Str) :
    (a.is_content = true → a.dump s p = s ++ p ++ ascii "  " ++ a.content ++ ascii "\n") ∧
    (a.is_content = false →
      a.dump s p = s ++ p ++ ascii "<" ++ a.name ++ ascii ">\n"
        ++ (a.children.map (fun c => c.dump [] (p ++ ascii "  "))).flatten
        ++ p ++ ascii "</" ++ a.name ++ ascii ">\n") ∧
    (a.is_content = false →
      (a.dump [] p).count 10
        = (a.children.map (fun c => (c.dump [] (p ++ ascii "  ")).count 10)).sum + 2
            + 2 * (p.count 10 + a.name.count 10)) ∧
    (a.is_content = false → 10 ∉ p → 10 ∉ a.name →
      (a.dump [] p).count 10
        = (a.children.map (fun c => (c.dump [] (p ++ ascii "  ")).count 10)).sum + 2) ∧
    (a.is_content = true → 10 ∉ p → 10 ∉ a.content → (a.dump [] p).count 10 = 1) := by
  cases a with
  | mk n ic c ch pl =>
  have h1 : (ascii "<").count 10 = 0 := by decide
  have h2 : (ascii ">\n").count 10 = 1 := by decide
  have h3 : (ascii "</").count 10 = 0 := by decide
  have h4 : (ascii "  ").count 10 = 0 := by decide
  have h5 : (ascii "\n").count 10 = 1 := by decide
  have hcount : ((XMLNode.mk n false c ch pl).dump [] p).count 10
      = (ch.map (fun c => (c.dump [] (p ++ ascii "  ")).count 10)).sum + 2
          + 2 * (p.count 10 + n.count 10) := by
    rw [dump_element]
    simp only [List.count_append, count_flatten_map, h1, h2, h3, List.nil_append]
    omega
  refine ⟨?_, ?_, ?_, ?_, ?_⟩
  · intro h
    simp only [XMLNode.is_content] at h
    subst h
    simp [XMLNode.dump, XMLNode.content]
  · intro h
    simp only [XMLNode.is_content] at h
    subst h
    exact dump_element n c ch pl s p
  · intro h
    simp only [XMLNode.is_content] at h
    subst h
    exact hcount
  · intro h hp hn
    simp only [XMLNode.is_content] at h
    subst h
    rw [hcount]
    simp only [XMLNode.name, XMLNode.children] at hn ⊢
    rw [List.count_eq_zero_of_not_mem hp, List.count_eq_zero_of_not_mem hn]
  · intro h hp hc
    simp only [XMLNode.is_content] at h
    subst h
    simp only [XMLNode.content] at hc
    simp only [XMLNode.dump, if_true, List.nil_append, List.count_append, h4, h5,
      List.count_eq_zero_of_not_mem hp, List.count_eq_zero_of_not_mem hc]

/-! ## Attributes of a raw element (C32) -/

/-- With pairwise distinct names, the property loop appends every property with its
repaired value. -/
theorem proplist_assign_map (repair : Str → Str) : ∀ (ps acc : List XMLProperty),
    ((acc ++ ps).map XMLProperty.name).Nodup →
      proplist_assign repair ps acc
        = acc ++ ps.map (fun p => XMLProperty.mk p.name (repair p.value))
  | [], acc, _ => by simp [proplist_assign]
  | q :: qs, acc, hnd => by
    have hfresh : ∀ p ∈ acc, p.name ≠ q.name := by
      intro p hp hpq
      rw [List.map_append, List.nodup_append] at hnd
      exact hnd.2.2 (List.mem_map.mpr ⟨p, hp, rfl⟩) (by simp [hpq])
    simp only [proplist_assign]
    rw [proplist_set_fresh q.name (repair q.value) acc hfresh]
    rw [proplist_assign_map repair qs (acc ++ [XMLProperty.mk q.name (repair q.value)])
      (by simpa [XMLProperty.name] using hnd)]
    simp

/-- A name that a property of the vector has is found by `property`. -/
theorem property_loop_isSome (k : Str) : ∀ (pl : List XMLProperty),
    k ∈ pl.map XMLProperty.name → (XMLNode.property_loop k pl).isSome = true
  | [], h => by simp at h
  | p :: ps, h => by
    by_cases hp : p.name = k
    · simp [XMLNode.property_loop, hp]
    · simp only [XMLNode.property_loop, hp, if_false]
      apply property_loop_isSome k ps
      simp only [List.map_cons, List.mem_cons] at h
      rcases h with h | h
      · exact (hp h.symm).elim
      · exact h

/-- The property found under the name of a property of a vector with pairwise distinct
names is that property. -/
theorem property_loop_of_mem (p : XMLProperty) : ∀ (pl : List XMLProperty),
    (pl.map XMLProperty.name).Nodup → p ∈ pl → XMLNode.property_loop p.name pl = some p
  | [], _, h => by simp at h
  | q :: qs, hnd, h => by
    simp only [List.map_cons, List.nodup_cons] at hnd
    rcases List.mem_cons.mp h with rfl | h
    · simp [XMLNode.property_loop]
    · have hq : q.name ≠ p.name := fun hqp =>
        hnd.1 (List.mem_map.mpr ⟨p, h, hqp.symm⟩)
      simp only [XMLNode.property_loop, hq, if_false]
      exact property_loop_of_mem p qs hnd.2 h

theorem proplist_set_names (k v : Str) (pl : List XMLProperty) (x : Str)
    (h : x = k ∨ x ∈ pl.map XMLProperty.name) :
    x ∈ (proplist_set k v pl).map XMLProperty.name := by
  unfold proplist_set
  cases hr : XMLNode.set_property_loop k v pl with
  | some r =>
    simp only [set_property_loop_names k v pl r hr]
    rcases h with rfl | h
    · by_contra hcon
      have hnone := XMLNode.set_property_loop_none x v pl (fun p hp hpx =>
        hcon (List.mem_map.mpr ⟨p, hp, hpx⟩))
      rw [hnone] at hr
      cases hr
    · exact h
  | none =>
    simp only [List.map_append, List.map_cons, List.map_nil, List.mem_append,
      List.mem_singleton]
    rcases h with rfl | h
    · right; rfl
    · left; exact h

theorem proplist_assign_names (repair : Str → Str) (x : Str) :
    ∀ (ps acc : List XMLProperty),
    (x ∈ acc.map XMLProperty.name ∨ x ∈ ps.map XMLProperty.name) →
      x ∈ (proplist_assign repair ps acc).map XMLProperty.name
  | [], acc, h => by simpa [proplist_assign] using h
  | q :: qs, acc, h => by
    simp only [proplist_assign]
    apply proplist_assign_names repair x qs
    simp only [List.map_cons, List.mem_cons] at h
    rcases h with h | h | h
    · exact Or.inl (proplist_set_names _ _ _ x (Or.inr h))
    · exact Or.inl (proplist_set_names _ _ _ x (Or.inl h))
    · exact Or.inr h

/-- C32: for a raw element whose attributes have pairwise distinct names, the node that
`readnode` returns has the name of the element, its properties are the attributes in
their order, each with the repaired attribute text as value, and `property(k)` is that
property for every attribute `k`.  In a result of `find`, every node answers
`property(k)` with a non-null pointer for every attribute `k` of the raw node that the
engine selected for it. -/
theorem C32_readnode_keeps_attributes (repair : Str → Str) (type : xmlElementType)
    (name : Str) (content : Option Str) (attrs : List xmlAttr) (raws : List xmlNode)
    (hd : (attrs.map xmlAttr.name).Nodup) :
    (readnode repair (xmlNode.mk type (some name) content attrs raws)).name = name ∧
    (readnode repair (xmlNode.mk type (some name) content attrs raws)).properties
      = attrs.map (fun attr => XMLProperty.mk attr.name (repair attr.content)) ∧
    (∀ attr ∈ attrs,
      (readnode repair (xmlNode.mk type (some name) content attrs raws)).property attr.name
        = some (XMLProperty.mk attr.name (repair attr.content))) ∧
    (∀ (E : Engine) (t : XMLTree) (x : Str) (n : XMLNode),
      (t.find E repair x (some n)).1
        = (find_impl E repair (some ⟨xml_version, none, writenode E n⟩) x).1 ∧
      (t.find E repair x none).1
        = (find_impl E repair (match t.m_doc with
            | some p => some p.doc
            | none => none) x).1) ∧
    (∀ (E : Engine) (doc : Option xmlDoc) (x : Str) (r : xmlXPathObject)
      (selected : List xmlNode), E.xmlXPathEval x doc = some r →
      r.type = xmlXPathObjectType.XPATH_NODESET → r.nodesetval = some selected →
      ∃ nodes, (find_impl E repair doc x).1 = Except.ok nodes ∧
        nodes.length = selected.length ∧
        ∀ (i : Nat) (raw : xmlNode), selected[i]? = some raw →
          ∃ node, nodes[i]? = some node ∧
            ∀ attr ∈ raw.properties, (node.property attr.name).isSome = true) := by
  have hprops : (readnode repair (xmlNode.mk type (some name) content attrs raws)).properties
      = attrs.map (fun attr => XMLProperty.mk attr.name (repair attr.content)) := by
    rw [readnode_eq]
    simp only [XMLNode.properties]
    rw [proplist_assign_map repair _ [] (by simpa [Function.comp_def, XMLProperty.name] using hd)]
    simp [List.map_map, Function.comp_def, XMLProperty.name, XMLProperty.value,
      xmlAttr.content]
  refine ⟨?_, hprops, ?_, fun _ _ _ _ => ⟨rfl, rfl⟩, ?_⟩
  · rw [readnode_eq]
    rfl
  · intro attr hattr
    simp only [XMLNode.property, hprops]
    have hnd : ((attrs.map (fun attr => XMLProperty.mk attr.name (repair attr.content))).map
        XMLProperty.name).Nodup := by
      simpa [List.map_map, Function.comp_def, XMLProperty.name] using hd
    exact property_loop_of_mem (XMLProperty.mk attr.name (repair attr.content)) _ hnd
      (List.mem_map.mpr ⟨attr, hattr, rfl⟩)
  · intro E doc x r selected h1 h2 h3
    refine ⟨selected.map (readnode repair), by simp [find_impl, h1, h2, h3], by simp, ?_⟩
    intro i raw hi
    refine ⟨readnode repair raw, by simp [List.getElem?_map, hi], ?_⟩
    intro attr hattr
    cases raw with
    | mk rtype rname rcontent rattrs rraws =>
    rw [readnode_eq]
    simp only [XMLNode.property, XMLNode.properties]
    apply property_loop_isSome
    apply proplist_assign_names
    right
    simp only [xmlNode.properties] at hattr
    simp only [List.map_map, List.mem_map, Function.comp_def, XMLProperty.name]
    exact ⟨attr, hattr, rfl⟩

/-- C32 at the raw element `<bank name="a" id="\xFF"/>`, with the modelled repair
function. -/
theorem C32_readnode_keeps_attributes_witness :
    (([⟨ascii "name", some [97]⟩, ⟨ascii "id", some [255]⟩] : List xmlAttr).map
      xmlAttr.name).Nodup ∧
    (readnode replace_invalid (xmlNode.mk xmlElementType.XML_ELEMENT_NODE
      (some (ascii "bank")) none
      [⟨ascii "name", some [97]⟩, ⟨ascii "id", some [255]⟩] [])).properties
      = ([⟨ascii "name", some [97]⟩, ⟨ascii "id", some [255]⟩] : List xmlAttr).map
          (fun attr => XMLProperty.mk attr.name (replace_invalid attr.content)) :=
  ⟨by decide,
    (C32_readnode_keeps_attributes replace_invalid xmlElementType.XML_ELEMENT_NODE
      (ascii "bank") none [⟨ascii "name", some [97]⟩, ⟨ascii "id", some [255]⟩] []
      (by decide)).2.1⟩

/-! ## Copy-assignment (C33) -/

/-- C33, as stated, fails for a self-assignment: the node `<x k="\xFF"/>`, made by
`XMLNode("x")`, `set_property("k", "a")` and `property("k")->set_value("\xFF")`, is left
as it is by `n = n`, while `XMLNode(n)` holds the repaired value. -/
theorem C33_counterexample :
    ((XMLNode.set_property replace_invalid [107] [97] (XMLNode.ctor [120])).2).property_set_value
        [107] [255]
      = XMLNode.mk [120] false [] [] [⟨[107], [255]⟩] ∧
    XMLNode.operator_assign_ref replace_invalid
        (XMLNode.mk [120] false [] [] [⟨[107], [255]⟩]) none
      = XMLNode.mk [120] false [] [] [⟨[107], [255]⟩] ∧
    XMLNode.ctor_copy replace_invalid (XMLNode.mk [120] false [] [] [⟨[107], [255]⟩])
      = XMLNode.mk [120] false [] [] [⟨[107], [239, 191, 189]⟩] :=
  ⟨rfl, rfl, rfl⟩

/-- C33 (amended): for two distinct node objects `a` and `b`, the node `b` after `b = a`
is what `XMLNode(a)` yields, whatever `b` was before: it has the name and the content of
`a`, is in content mode exactly when that content is not empty, its children are the
copies of the children of `a`, and its properties are those that the property loop
builds from the properties of `a` alone.  A self-assignment leaves the node as it is,
which is what `XMLNode(b)` yields when, at every node of `b`, the mode matches the
content, the property values are repaired and the property names are unique. -/
theorem C33_copy_assignment (repair : Str → Str) (a b : XMLNode) :
    XMLNode.operator_assign_ref repair b (some a) = XMLNode.ctor_copy repair a ∧
    (∀ b2 : XMLNode, XMLNode.operator_assign_ref repair b (some a)
      = XMLNode.operator_assign_ref repair b2 (some a)) ∧
    (XMLNode.operator_assign_ref repair b (some a)).name = a.name ∧
    (XMLNode.operator_assign_ref repair b (some a)).content = a.content ∧
    (XMLNode.operator_assign_ref repair b (some a)).is_content = !a.content.isEmpty ∧
    (XMLNode.operator_assign_ref repair b (some a)).children
      = a.children.map (XMLNode.ctor_copy repair) ∧
    (XMLNode.operator_assign_ref repair b (some a)).properties
      = proplist_assign repair a.properties [] ∧
    XMLNode.operator_assign_ref repair b none = b ∧
    ((∀ d ∈ b.subtree,
        mode_matches_content d ∧ values_repaired repair d ∧ names_unique d) →
      XMLNode.operator_assign_ref repair b none = XMLNode.ctor_copy repair b) := by
  cases a with
  | mk n ic c ch pl =>
  have h : ∀ x : XMLNode, XMLNode.operator_assign_ref repair x (some (XMLNode.mk n ic c ch pl))
      = XMLNode.mk n (!c.isEmpty) c (ch.map (XMLNode.ctor_copy repair))
          (proplist_assign repair pl []) := fun x =>
    operator_assign_eq repair x n c ic ch pl
  refine ⟨?_, ?_, ?_, ?_, ?_, ?_, ?_, rfl, ?_⟩
  · rw [h, ctor_copy_eq]
  · intro b2
    rw [h, h]
  · rw [h]; rfl
  · rw [h]; rfl
  · rw [h]; rfl
  · rw [h]; rfl
  · rw [h]; rfl
  · intro hb
    rw [ctor_copy_eq_self repair b (fun d hd => ⟨(hb d hd).1, (hb d hd).2.2, (hb d hd).2.1⟩)]
    rfl

namespace Store

theorem free_cells (s : Store) (a x : Nat) :
    (s.free a).cells x = if x = a then none else s.cells x := rfl

theorem foldl_free_cells : ∀ (pl : List Nat) (s : Store) (x : Nat),
    (pl.foldl free s).cells x = if x ∈ pl then none else s.cells x
  | [], s, x => by simp
  | a :: rest, s, x => by
    simp only [List.foldl_cons]
    rw [foldl_free_cells rest (s.free a) x, free_cells]
    by_cases h1 : x ∈ rest
    · simp [h1]
    · by_cases h2 : x = a
      · simp [h1, h2]
      · simp [h1, h2]

/-- The objects of a node are found from the objects themselves. -/
theorem objects_local (s s2 : Store) : ∀ (fuel : Nat) (a : Nat) (v : XMLNode),
    s.read fuel a = some v → (∀ x ∈ s.objects fuel a, s2.cells x = s.cells x) →
      s2.objects fuel a = s.objects fuel a
  | 0, _, _, hr, _ => by simp [read] at hr
  | fuel + 1, a, v, hr, h => by
    rcases read_succ_some hr with ⟨n, ic, c, ch, pl, cs, ps, hcell, hcs, hps, rfl⟩
    have hobj : s.objects (fuel + 1) a = a :: (pl ++ ch.flatMap (s.objects fuel)) := by
      simp only [objects, hcell]
    rw [hobj] at h
    have hcell2 : s2.cells a = some (Obj.node n ic c ch pl) := by
      rw [h a (by simp), hcell]
    rw [hobj]
    simp only [objects, hcell2]
    congr 2
    apply List.flatMap_congr
    intro b hb
    rcases read_all_mem hcs b hb with ⟨w, hw⟩
    refine objects_local s s2 fuel b w hw ?_
    intro x hx
    exact h x (by
      simp only [List.mem_cons, List.mem_append, List.mem_flatMap]
      exact Or.inr (Or.inr ⟨b, hb, hx⟩))

/-- A node that reads as a value is among its own objects. -/
theorem self_mem_objects {s : Store} {fuel a : Nat} {v : XMLNode}
    (h : s.read fuel a = some v) : a ∈ s.objects fuel a := by
  cases fuel with
  | zero => simp [read] at h
  | succ fuel =>
    rcases read_succ_some h with ⟨n, ic, c, ch, pl, cs, ps, hcell, _, _, _⟩
    simp [objects, hcell]

/-- The deletion of a list of nodes whose objects are pairwise distinct frees these
objects and leaves every other object as it is, given that the deletion of one node does
so. -/
theorem foldl_delete_cells (fuel : Nat)
    (ih : ∀ (s : Store) (a : Nat) (v : XMLNode), s.read fuel a = some v →
      (s.objects fuel a).Nodup →
      ∀ x, (delete_node fuel s a).cells x
        = if x ∈ s.objects fuel a then none else s.cells x) :
    ∀ (l : List Nat) (s : Store), (∀ c ∈ l, ∃ v, s.read fuel c = some v) →
      (l.flatMap (s.objects fuel)).Nodup →
      ∀ x, (l.foldl (delete_node fuel) s).cells x
        = if x ∈ l.flatMap (s.objects fuel) then none else s.cells x
  | [], s, _, _, x => by simp
  | c :: rest, s, hr, hnd, x => by
    simp only [List.flatMap_cons] at hnd ⊢
    rw [List.nodup_append] at hnd
    rcases hnd with ⟨hc, hrest, hdis⟩
    rcases hr c (by simp) with ⟨v, hv⟩
    have hs1 := ih s c v hv hc
    have hagree : ∀ d ∈ rest, ∀ y ∈ s.objects fuel d,
        (delete_node fuel s c).cells y = s.cells y := by
      intro d hd y hy
      rw [hs1 y]
      have : y ∉ s.objects fuel c := fun hyc =>
        hdis hyc (List.mem_flatMap.mpr ⟨d, hd, hy⟩)
      simp [this]
    have hobj : rest.flatMap ((delete_node fuel s c).objects fuel)
        = rest.flatMap (s.objects fuel) := by
      apply List.flatMap_congr
      intro d hd
      rcases hr d (by simp [hd]) with ⟨w, hw⟩
      exact objects_local s _ fuel d w hw (hagree d hd)
    have hread : ∀ d ∈ rest, ∃ w, (delete_node fuel s c).read fuel d = some w := by
      intro d hd
      rcases hr d (by simp [hd]) with ⟨w, hw⟩
      exact ⟨w, read_local s _ fuel d w hw (hagree d hd)⟩
    simp only [List.foldl_cons]
    rw [foldl_delete_cells fuel ih rest (delete_node fuel s c) hread (by rw [hobj]; exact hrest) x,
      hobj, hs1 x]
    by_cases h1 : x ∈ rest.flatMap (s.objects fuel)
    · simp [h1]
    · by_cases h2 : x ∈ s.objects fuel c
      · simp [h1, h2]
      · simp [h1, h2]

/-- The expression `delete n`, on a node that reads as a value and whose objects are
pairwise distinct, frees the objects of the node and leaves every other object as it
is. -/
theorem delete_node_cells : ∀ (fuel : Nat) (s : Store) (a : Nat) (v : XMLNode),
    s.read fuel a = some v → (s.objects fuel a).Nodup →
    ∀ x, (delete_node fuel s a).cells x
      = if x ∈ s.objects fuel a then none else s.cells x
  | 0, _, _, _, hr, _, _ => by simp [read] at hr
  | fuel + 1, s, a, v, hr, hnd, x => by
    rcases read_succ_some hr with ⟨n, ic, c, ch, pl, cs, ps, hcell, hcs, hps, rfl⟩
    have hobj : s.objects (fuel + 1) a = a :: (pl ++ ch.flatMap (s.objects fuel)) := by
      simp only [objects, hcell]
    rw [hobj] at hnd ⊢
    have hch : (ch.flatMap (s.objects fuel)).Nodup := by
      have := (List.nodup_cons.mp hnd).2
      exact (List.nodup_append.mp this).2.1
    simp only [delete_node, hcell]
    rw [free_cells, foldl_free_cells,
      foldl_delete_cells fuel (delete_node_cells fuel) ch s
        (fun d hd => read_all_mem hcs d hd) hch x]
    by_cases h1 : x = a
    · simp [h1]
    · by_cases h2 : x ∈ pl
      · simp [h1, h2]
      · by_cases h3 : x ∈ ch.flatMap (s.objects fuel)
        · simp [h1, h2, h3]
        · simp [h1, h2, h3]

/-- The name test on a pointer is the name test on the value of the node. -/
theorem name_is_of_read {s : Store} {fuel i : Nat} {v : XMLNode} (n : Str)
    (h : s.read fuel i = some v) : s.name_is i n = decide (v.name = n) := by
  cases fuel with
  | zero => simp [read] at h
  | succ fuel =>
    rcases read_succ_some h with ⟨nm, ic, c, ch, pl, cs, ps, hcell, _, _, rfl⟩
    simp [name_is, hcell, XMLNode.name]

/-- The name test reads the node object only. -/
theorem name_is_agree {s s2 : Store} {i : Nat} (n : Str) (h : s2.cells i = s.cells i) :
    s2.name_is i n = s.name_is i n := by
  simp [name_is, h]

theorem remove_nodes_loop_agree {s s2 : Store} (n : Str) : ∀ (l : List Nat),
    (∀ i ∈ l, s2.cells i = s.cells i) → s2.remove_nodes_loop n l = s.remove_nodes_loop n l
  | [], _ => rfl
  | i :: rest, h => by
    simp only [remove_nodes_loop, name_is_agree n (h i (by simp)),
      remove_nodes_loop_agree n rest (fun j hj => h j (by simp [hj]))]

theorem remove_nodes_loop_pointers_eq_filter (s : Store) (n : Str) : ∀ (l : List Nat),
    s.remove_nodes_loop n l = l.filter (fun i => !(s.name_is i n))
  | [] => rfl
  | i :: rest => by
    cases h : s.name_is i n <;>
      simp [remove_nodes_loop, h, remove_nodes_loop_pointers_eq_filter s n rest]

/-- The pointers that the loop keeps point to the values that the loop on values keeps. -/
theorem read_all_remove_nodes_loop (s : Store) (n : Str) {f : Nat → Option XMLNode} :
    ∀ (l : List Nat) (vs : List XMLNode), read_all f l = some vs →
    (∀ i ∈ l, ∀ v, f i = some v → s.name_is i n = decide (v.name = n)) →
      read_all f (s.remove_nodes_loop n l) = some (XMLNode.remove_nodes_loop n vs)
  | [], vs, h, _ => by
    simp [read_all] at h
    subst h
    rfl
  | i :: rest, vs, h, hn => by
    rcases read_all_cons_some h with ⟨v, vs2, h1, h2, rfl⟩
    have ih := read_all_remove_nodes_loop s n rest vs2 h2
      (fun j hj => hn j (by simp [hj]))
    have hi := hn i (by simp) v h1
    by_cases hv : v.name = n
    · simp only [remove_nodes_loop, XMLNode.remove_nodes_loop, hi, hv, decide_True, if_true]
      exact ih
    · simp only [remove_nodes_loop, XMLNode.remove_nodes_loop, hi, hv, decide_False,
        Bool.false_eq_true, if_false]
      exact read_all_cons_of h1 ih

/-- The loop of `remove_nodes_and_delete(n)` on children whose objects are pairwise
distinct keeps the pointers that the loop of `remove_nodes(n)` keeps, frees the objects
of the children named `n` and leaves every other object as it is. -/
theorem remove_nodes_and_delete_loop_spec (fuel : Nat) (n : Str) :
    ∀ (l : List Nat) (s : Store), (∀ c ∈ l, ∃ v, s.read fuel c = some v) →
      (l.flatMap (s.objects fuel)).Nodup →
      (remove_nodes_and_delete_loop fuel n l s).1 = s.remove_nodes_loop n l ∧
      ∀ x, (remove_nodes_and_delete_loop fuel n l s).2.cells x
        = if x ∈ (l.filter (fun i => s.name_is i n)).flatMap (s.objects fuel) then none
          else s.cells x
  | [], s, _, _ => by simp [remove_nodes_and_delete_loop, remove_nodes_loop]
  | c :: rest, s, hr, hnd => by
    simp only [List.flatMap_cons] at hnd
    rw [List.nodup_append] at hnd
    rcases hnd with ⟨hc, hrest, hdis⟩
    rcases hr c (by simp) with ⟨v, hv⟩
    cases hname : s.name_is c n with
    | false =>
      have ih := remove_nodes_and_delete_loop_spec fuel n rest s
        (fun d hd => hr d (by simp [hd])) hrest
      simp only [remove_nodes_and_delete_loop, remove_nodes_loop, hname,
        Bool.false_eq_true, if_false]
      refine ⟨by rw [ih.1], ?_⟩
      intro x
      rw [ih.2 x, List.filter_cons_of_neg (by simp [hname])]
    | true =>
      have hs1 := delete_node_cells fuel s c v hv hc
      have hagree : ∀ d ∈ rest, ∀ y ∈ s.objects fuel d,
          (delete_node fuel s c).cells y = s.cells y := by
        intro d hd y hy
        rw [hs1 y]
        have : y ∉ s.objects fuel c := fun hyc =>
          hdis hyc (List.mem_flatMap.mpr ⟨d, hd, hy⟩)
        simp [this]
      have hobjd : ∀ d ∈ rest, (delete_node fuel s c).objects fuel d = s.objects fuel d := by
        intro d hd
        rcases hr d (by simp [hd]) with ⟨w, hw⟩
        exact objects_local s _ fuel d w hw (hagree d hd)
      have hobj : rest.flatMap ((delete_node fuel s c).objects fuel)
          = rest.flatMap (s.objects fuel) := List.flatMap_congr hobjd
      have hread : ∀ d ∈ rest, ∃ w, (delete_node fuel s c).read fuel d = some w := by
        intro d hd
        rcases hr d (by simp [hd]) with ⟨w, hw⟩
        exact ⟨w, read_local s _ fuel d w hw (hagree d hd)⟩
      have hcell : ∀ d ∈ rest, (delete_node fuel s c).cells d = s.cells d := by
        intro d hd
        rcases hr d (by simp [hd]) with ⟨w, hw⟩
        exact hagree d hd d (self_mem_objects hw)
      have ih := remove_nodes_and_delete_loop_spec fuel n rest (delete_node fuel s c)
        hread (by rw [hobj]; exact hrest)
      simp only [remove_nodes_and_delete_loop, remove_nodes_loop, hname, if_true]
      refine ⟨by rw [ih.1, remove_nodes_loop_agree n rest hcell], ?_⟩
      intro x
      have hfilter : rest.filter (fun i => (delete_node fuel s c).name_is i n)
          = rest.filter (fun i => s.name_is i n) :=
        List.filter_congr (fun d hd => name_is_agree n (hcell d hd))
      have hflat : (rest.filter (fun i => s.name_is i n)).flatMap
            ((delete_node fuel s c).objects fuel)
          = (rest.filter (fun i => s.name_is i n)).flatMap (s.objects fuel) :=
        List.flatMap_congr (fun d hd => hobjd d (List.mem_of_mem_filter hd))
      rw [ih.2 x, hfilter, hflat, hs1 x, List.filter_cons_of_pos (by simp [hname]),
        List.flatMap_cons]
      by_cases h1 : x ∈ (rest.filter (fun i => s.name_is i n)).flatMap (s.objects fuel)
      · simp [h1]
      · by_cases h2 : x ∈ s.objects fuel c
        · simp [h1, h2]
        · simp [h1, h2]

/-- An object of a child that the loop keeps is no object of a child that it removes. -/
theorem not_mem_removed_objects (f : Nat → List Nat) (p : Nat → Bool) (x : Nat) :
    ∀ (l : List Nat), (l.flatMap f).Nodup → ∀ i ∈ l, p i = false → x ∈ f i →
      x ∉ (l.filter p).flatMap f
  | [], _, i, hi, _, _ => by simp at hi
  | j :: rest, hnd, i, hi, hp, hx => by
    simp only [List.flatMap_cons] at hnd
    rw [List.nodup_append] at hnd
    rcases hnd with ⟨_, hrest, hdis⟩
    rcases List.mem_cons.mp hi with rfl | hi
    · rw [List.filter_cons_of_neg (by simp [hp])]
      intro hcon
      rcases List.mem_flatMap.mp hcon with ⟨d, hd, hxd⟩
      exact hdis hx (List.mem_flatMap.mpr ⟨d, List.mem_of_mem_filter hd, hxd⟩)
    · have ih := not_mem_removed_objects f p x rest hrest i hi hp hx
      cases hj : p j with
      | false =>
        rw [List.filter_cons_of_neg (by simp [hj])]
        exact ih
      | true =>
        rw [List.filter_cons_of_pos (by simp [hj]), List.flatMap_cons, List.mem_append]
        rintro (h | h)
        · exact hdis h (List.mem_flatMap.mpr ⟨i, hi, hx⟩)
        · exact ih h

end Store

/-! ## Removal with and without deletion (C34) -/

/-- C34: on a node object `this` that reads as the value `v` and whose objects are
pairwise distinct, `remove_nodes(n)` and `remove_nodes_and_delete(n)` leave the node in
the same state: after either call the node reads as `v` without the children named `n`,
the remaining children in their order, with name, mode, content and properties as
before, and the node object itself (its members and its vector of child pointers) is the
same after both.  The two calls differ in the other objects only: `remove_nodes` leaves
every one of them as it is, the removed children included; `remove_nodes_and_delete`
frees the objects of the removed children and leaves the rest as it is. -/
theorem C34_remove_nodes_same_state (fuel : Nat) (s : Store) (this : Nat) (n : Str)
    (v : XMLNode) (hread : s.read (fuel + 1) this = some v)
    (hnd : (s.objects (fuel + 1) this).Nodup) :
    (s.remove_nodes this n).read (fuel + 1) this = some (v.remove_nodes n) ∧
    (s.remove_nodes_and_delete fuel this n).read (fuel + 1) this
      = some (v.remove_nodes_and_delete n) ∧
    v.remove_nodes n = v.remove_nodes_and_delete n ∧
    (v.remove_nodes n).children = v.children.filter (fun c => decide (c.name ≠ n)) ∧
    (v.remove_nodes n).name = v.name ∧
    (v.remove_nodes n).is_content = v.is_content ∧
    (v.remove_nodes n).content = v.content ∧
    (v.remove_nodes n).properties = v.properties ∧
    (s.remove_nodes this n).cells this = (s.remove_nodes_and_delete fuel this n).cells this ∧
    (∀ x, x ≠ this → (s.remove_nodes this n).cells x = s.cells x) ∧
    (∀ x, x ≠ this → (s.remove_nodes_and_delete fuel this n).cells x
      = if x ∈ ((s.children_of this).filter (fun i => s.name_is i n)).flatMap
            (s.objects fuel) then none
        else s.cells x) := by
  rcases Store.read_succ_some hread with ⟨nm, ic, c, ch, pl, cs, ps, hcell, hcs, hps, rfl⟩
  have hobj : s.objects (fuel + 1) this = this :: (pl ++ ch.flatMap (s.objects fuel)) := by
    simp only [Store.objects, hcell]
  rw [hobj] at hnd
  rcases List.nodup_cons.mp hnd with ⟨hthis, hnd2⟩
  rcases List.nodup_append.mp hnd2 with ⟨_, hch, hdis⟩
  have hreads : ∀ d ∈ ch, ∃ w, s.read fuel d = some w := fun d hd =>
    Store.read_all_mem hcs d hd
  have hloop := Store.remove_nodes_and_delete_loop_spec fuel n ch s hreads hch
  -- the values of the children that are kept, in the store before the call
  have hkept : Store.read_all (s.read fuel) (s.remove_nodes_loop n ch)
      = some (XMLNode.remove_nodes_loop n cs) :=
    Store.read_all_remove_nodes_loop s n ch cs hcs
      (fun i _ w hw => Store.name_is_of_read n hw)
  have hkept_mem : ∀ i ∈ s.remove_nodes_loop n ch, i ∈ ch ∧ s.name_is i n = false := by
    intro i hi
    rw [Store.remove_nodes_loop_pointers_eq_filter, List.mem_filter] at hi
    exact ⟨hi.1, by simpa using hi.2⟩
  have hne_this : ∀ i ∈ ch, ∀ y ∈ s.objects fuel i, y ≠ this := by
    intro i hi y hy hyt
    subst hyt
    exact hthis (List.mem_append.mpr (Or.inr (List.mem_flatMap.mpr ⟨i, hi, hy⟩)))
  have hpl_this : ∀ a ∈ pl, a ≠ this := by
    intro a ha hat
    subst hat
    exact hthis (List.mem_append.mpr (Or.inl ha))
  -- the store after `remove_nodes`
  have hs1 : s.remove_nodes this n
      = s.write this (Obj.node nm ic c (s.remove_nodes_loop n ch) pl) := by
    simp only [Store.remove_nodes, hcell]
  have hs1_ne : ∀ x, x ≠ this → (s.remove_nodes this n).cells x = s.cells x := by
    intro x hx
    rw [hs1]
    exact Store.write_cells_ne s _ hx
  -- the store after `remove_nodes_and_delete`
  have hs2 : s.remove_nodes_and_delete fuel this n
      = (Store.remove_nodes_and_delete_loop fuel n ch s).2.write this
          (Obj.node nm ic c (s.remove_nodes_loop n ch) pl) := by
    simp only [Store.remove_nodes_and_delete, hcell, hloop.1]
  have hchildren : s.children_of this = ch := by
    simp only [Store.children_of, hcell]
  have hs2_ne : ∀ x, x ≠ this → (s.remove_nodes_and_delete fuel this n).cells x
      = if x ∈ (ch.filter (fun i => s.name_is i n)).flatMap (s.objects fuel) then none
        else s.cells x := by
    intro x hx
    rw [hs2, Store.write_cells_ne _ _ hx]
    exact hloop.2 x
  have hread1 : (s.remove_nodes this n).read (fuel + 1) this
      = some (XMLNode.mk nm ic c (XMLNode.remove_nodes_loop n cs) ps) := by
    refine Store.read_succ_of (by rw [hs1]; exact Store.write_cells_same s _ _) ?_ ?_
    · refine Store.read_all_mono _ _ ?_ hkept
      intro i hi w hw
      refine Store.read_local s _ fuel i w hw ?_
      intro y hy
      exact hs1_ne y (hne_this i (hkept_mem i hi).1 y hy)
    · rw [Store.read_props_agree s _ pl (fun a ha => hs1_ne a (hpl_this a ha))]
      exact hps
  have hread2 : (s.remove_nodes_and_delete fuel this n).read (fuel + 1) this
      = some (XMLNode.mk nm ic c (XMLNode.remove_nodes_loop n cs) ps) := by
    refine Store.read_succ_of (by rw [hs2]; exact Store.write_cells_same _ _ _) ?_ ?_
    · refine Store.read_all_mono _ _ ?_ hkept
      intro i hi w hw
      refine Store.read_local s _ fuel i w hw ?_
      intro y hy
      rw [hs2_ne y (hne_this i (hkept_mem i hi).1 y hy)]
      have := Store.not_mem_removed_objects (s.objects fuel) (fun i => s.name_is i n) y ch
        hch i (hkept_mem i hi).1 (hkept_mem i hi).2 hy
      simp [this]
    · rw [Store.read_props_agree s _ pl (fun a ha => by
        rw [hs2_ne a (hpl_this a ha)]
        have : a ∉ (ch.filter (fun i => s.name_is i n)).flatMap (s.objects fuel) := by
          intro hcon
          rcases List.mem_flatMap.mp hcon with ⟨d, hd, had⟩
          exact hdis ha (List.mem_flatMap.mpr ⟨d, List.mem_of_mem_filter hd, had⟩)
        simp [this])]
      exact hps
  refine ⟨hread1, hread2, rfl, remove_nodes_loop_eq_filter n cs, rfl, rfl, rfl, rfl, ?_,
    hs1_ne, ?_⟩
  · rw [hs1, hs2, Store.write_cells_same, Store.write_cells_same]
  · rw [hchildren]
    exact hs2_ne

/-- C34 on the store `sample_tree`, at the root `<r>` and the name `a`: both calls leave
the root as `<r><b k="v"/></r>`. -/
theorem C34_remove_nodes_same_state_witness :
    Store.sample_tree.read 3 0
      = some (XMLNode.mk [114] false []
          [XMLNode.mk [97] false [] [XMLNode.mk [99] false [] [] []] [],
            XMLNode.mk [98] false [] [] [⟨[107], [118]⟩],
            XMLNode.mk [97] false [] [] []] []) ∧
    (Store.sample_tree.objects 3 0).Nodup ∧
    (Store.sample_tree.remove_nodes 0 [97]).read 3 0
      = some (XMLNode.remove_nodes [97] (XMLNode.mk [114] false []
          [XMLNode.mk [97] false [] [XMLNode.mk [99] false [] [] []] [],
            XMLNode.mk [98] false [] [] [⟨[107], [118]⟩],
            XMLNode.mk [97] false [] [] []] [])) ∧
    (Store.sample_tree.remove_nodes_and_delete 2 0 [97]).read 3 0
      = some (XMLNode.remove_nodes_and_delete [97] (XMLNode.mk [114] false []
          [XMLNode.mk [97] false [] [XMLNode.mk [99] false [] [] []] [],
            XMLNode.mk [98] false [] [] [⟨[107], [118]⟩],
            XMLNode.mk [97] false [] [] []] [])) :=
  ⟨rfl, by decide,
    (C34_remove_nodes_same_state 2 Store.sample_tree 0 [97] _ rfl (by decide)).1,
    (C34_remove_nodes_same_state 2 Store.sample_tree 0 [97] _ rfl (by decide)).2.1⟩

end xml66
